import Mathlib

/-!
# Verification of the AIL intermediate representation (github.com/neutrome-labs/ail)

This file is a shallow embedding, in Lean 4, of the core of the AIL
("AI Intermediate Language") Go package: the opcode set, the `Program`
data model, the binary codec, the textual assembler/disassembler, the
per-vendor stream emitters, the Anthropic request parser and the stateful
stream converter.  Definitions are translated from the Go sources
(`opcodes.go`, `program.go`, `binary.go`, `asm.go`, `disasm.go`,
`ailmanip.go`, `parse_anthropic_request.go`, `emit_anthropic_stream.go`,
`emit_google_genai.go`, `emit_openai_chat.go`, and the stream-converter
file).  Go strings and byte slices are byte sequences; both are modelled
as `List Nat` (each element a byte value).  Machine integers are modelled
as `Nat`/`Int` with explicit `% 2^32` where Go's `uint32`/`int32`
conversions matter; the Go `float64` instruction field is modelled by its
IEEE-754 bit pattern (a `Nat`), which is exactly what the binary codec
reads and writes.
-/

namespace AIL

/-- A Go string / byte slice, as its byte sequence. -/
abbrev GoStr := List Nat

/-- Byte sequence of an ASCII string literal (all our literals are ASCII,
    where Go's UTF-8 bytes coincide with the code points). -/
def gs (s : String) : GoStr := s.data.map Char.toNat

/-- Opcode (opcodes.go): single-byte instruction identifiers.
    The constructor set is exactly the constant list of `opcodes.go`. -/
inductive Opcode where
  | MSG_START | MSG_END | ROLE_SYS | ROLE_USR | ROLE_AST | ROLE_TOOL
  | TXT_CHUNK | IMG_REF | AUD_REF | TXT_REF
  | THINK_START | THINK_CHUNK | THINK_END | THINK_REF
  | DEF_START | DEF_NAME | DEF_DESC | DEF_SCHEMA | DEF_END
  | CALL_START | CALL_NAME | CALL_ARGS | CALL_END
  | RESULT_START | RESULT_DATA | RESULT_END
  | RESP_ID | RESP_MODEL | RESP_DONE | USAGE
  | STREAM_START | STREAM_DELTA | STREAM_TOOL_DELTA | STREAM_END | STREAM_THINK_DELTA
  | SET_MODEL | SET_TEMP | SET_TOPP | SET_STOP | SET_MAX | SET_STREAM | SET_THINK
  | EXT_DATA | SET_META
deriving DecidableEq, Repr

open Opcode

/-- The byte value of each opcode (the constants of opcodes.go). -/
def opcodeByte : Opcode → Nat
  | .MSG_START => 0x10 | .MSG_END => 0x11
  | .ROLE_SYS => 0x12 | .ROLE_USR => 0x13 | .ROLE_AST => 0x14 | .ROLE_TOOL => 0x15
  | .TXT_CHUNK => 0x20 | .IMG_REF => 0x21 | .AUD_REF => 0x22 | .TXT_REF => 0x23
  | .THINK_START => 0x28 | .THINK_CHUNK => 0x29 | .THINK_END => 0x2A | .THINK_REF => 0x2B
  | .DEF_START => 0x30 | .DEF_NAME => 0x31 | .DEF_DESC => 0x32 | .DEF_SCHEMA => 0x33
  | .DEF_END => 0x34
  | .CALL_START => 0x40 | .CALL_NAME => 0x41 | .CALL_ARGS => 0x42 | .CALL_END => 0x43
  | .RESULT_START => 0x48 | .RESULT_DATA => 0x49 | .RESULT_END => 0x4A
  | .RESP_ID => 0x50 | .RESP_MODEL => 0x51 | .RESP_DONE => 0x52 | .USAGE => 0x53
  | .STREAM_START => 0x60 | .STREAM_DELTA => 0x61 | .STREAM_TOOL_DELTA => 0x62
  | .STREAM_END => 0x63 | .STREAM_THINK_DELTA => 0x64
  | .SET_MODEL => 0xF0 | .SET_TEMP => 0xF1 | .SET_TOPP => 0xF2 | .SET_STOP => 0xF3
  | .SET_MAX => 0xF4 | .SET_STREAM => 0xF5 | .SET_THINK => 0xF6
  | .EXT_DATA => 0xFE | .SET_META => 0xFF

/-- The mnemonic of each opcode (`opcodeNames` in opcodes.go). -/
def opcodeName : Opcode → GoStr
  | .MSG_START => gs "MSG_START" | .MSG_END => gs "MSG_END"
  | .ROLE_SYS => gs "ROLE_SYS" | .ROLE_USR => gs "ROLE_USR"
  | .ROLE_AST => gs "ROLE_AST" | .ROLE_TOOL => gs "ROLE_TOOL"
  | .TXT_CHUNK => gs "TXT_CHUNK" | .IMG_REF => gs "IMG_REF"
  | .AUD_REF => gs "AUD_REF" | .TXT_REF => gs "TXT_REF"
  | .THINK_START => gs "THINK_START" | .THINK_CHUNK => gs "THINK_CHUNK"
  | .THINK_END => gs "THINK_END" | .THINK_REF => gs "THINK_REF"
  | .DEF_START => gs "DEF_START" | .DEF_NAME => gs "DEF_NAME"
  | .DEF_DESC => gs "DEF_DESC" | .DEF_SCHEMA => gs "DEF_SCHEMA"
  | .DEF_END => gs "DEF_END"
  | .CALL_START => gs "CALL_START" | .CALL_NAME => gs "CALL_NAME"
  | .CALL_ARGS => gs "CALL_ARGS" | .CALL_END => gs "CALL_END"
  | .RESULT_START => gs "RESULT_START" | .RESULT_DATA => gs "RESULT_DATA"
  | .RESULT_END => gs "RESULT_END"
  | .RESP_ID => gs "RESP_ID" | .RESP_MODEL => gs "RESP_MODEL"
  | .RESP_DONE => gs "RESP_DONE" | .USAGE => gs "USAGE"
  | .STREAM_START => gs "STREAM_START" | .STREAM_DELTA => gs "STREAM_DELTA"
  | .STREAM_TOOL_DELTA => gs "STREAM_TOOL_DELTA" | .STREAM_END => gs "STREAM_END"
  | .STREAM_THINK_DELTA => gs "STREAM_THINK_DELTA"
  | .SET_MODEL => gs "SET_MODEL" | .SET_TEMP => gs "SET_TEMP"
  | .SET_TOPP => gs "SET_TOPP" | .SET_STOP => gs "SET_STOP"
  | .SET_MAX => gs "SET_MAX" | .SET_STREAM => gs "SET_STREAM"
  | .SET_THINK => gs "SET_THINK"
  | .EXT_DATA => gs "EXT_DATA" | .SET_META => gs "SET_META"

/-- Instruction (program.go): a record carrying the fields of the Go struct.
    `num` holds the IEEE-754 bit pattern of the Go `float64` field `Num`
    (the binary codec reads and writes those bits verbatim);
    `int` is the Go `int32` field, `ref` the Go `uint32` field. -/
structure Instruction where
  op : Opcode
  str : GoStr := []
  num : Nat := 0
  int : Int := 0
  json : GoStr := []
  key : GoStr := []
  ref : Nat := 0
deriving DecidableEq, Repr

/-- Program (program.go): instruction list plus side-buffers. -/
structure Program where
  code : List Instruction := []
  buffers : List GoStr := []
deriving DecidableEq, Repr

/-- cloneInstruction (program.go): a value copy whose JSON bytes are
    deep-copied; in a pure value model the deep copy is the identity. -/
def cloneInstruction (inst : Instruction) : Instruction := inst

/-- Program.Append (program.go:104-130).  The second program's code is
    cloned with `clone.Ref += bufOffset` applied to `IMG_REF`, `AUD_REF`,
    `TXT_REF` instructions (and, notably, to no others); Go's `uint32`
    addition wraps modulo `2^32`. -/
def Program.append (p other : Program) : Program :=
  { code :=
      p.code.map cloneInstruction ++
      other.code.map (fun inst =>
        let c := cloneInstruction inst
        match inst.op with
        | .IMG_REF | .AUD_REF | .TXT_REF =>
            { c with ref := (c.ref + p.buffers.length) % 2 ^ 32 }
        | _ => c)
    buffers := p.buffers ++ other.buffers }

/-- Program.Clone (program.go:145-158) in the pure value model. -/
def Program.clone (p : Program) : Program :=
  { code := p.code.map cloneInstruction, buffers := p.buffers }

/- ─── Binary codec (binary.go) ─────────────────────────────────────────── -/

/-- Little-endian 4-byte encoding of `n` as Go's `uint32` (wraps mod 2^32),
    as produced by `binary.LittleEndian.PutUint32`. -/
def le4 (n : Nat) : GoStr :=
  [n % 256, n / 256 % 256, n / 2 ^ 16 % 256, n / 2 ^ 24 % 256]

/-- Little-endian 8-byte encoding of a `uint64` bit pattern
    (`writeFloat64` writes `math.Float64bits` this way). -/
def le8 (n : Nat) : GoStr :=
  [n % 256, n / 256 % 256, n / 2 ^ 16 % 256, n / 2 ^ 24 % 256,
   n / 2 ^ 32 % 256, n / 2 ^ 40 % 256, n / 2 ^ 48 % 256, n / 2 ^ 56 % 256]

/-- writeBytes (binary.go): u32 length prefix followed by the raw bytes. -/
def writeBytes (b : GoStr) : GoStr := le4 b.length ++ b

/-- writeInt32 (binary.go): `uint32(i)` (two's complement wrap) little-endian. -/
def writeInt32 (i : Int) : GoStr := le4 (i % (2 ^ 32 : Int)).toNat

/-- Binary-encoder errors: the `default` branch of the Encode switch. -/
inductive EncErr where
  | unknownOpcode (op : Opcode)
deriving DecidableEq, Repr

/-- One instruction's wire bytes, per the argument-shape switch of
    `Program.Encode` (binary.go:43-107).  The case lists below are exactly
    the case lists of the Go switch (the `COMMENT` opcode that the switch
    also lists is defined outside the sources at hand and is omitted from
    the `Opcode` type); every opcode not listed there — in particular
    `THINK_START`, `THINK_CHUNK`, `THINK_END`, `THINK_REF`, `SET_THINK`
    and `STREAM_THINK_DELTA` — falls to the `default` branch, which
    returns the "unknown opcode" error. -/
def encodeInstr (inst : Instruction) : Except EncErr GoStr :=
  let b := opcodeByte inst.op
  match inst.op with
  | .MSG_START | .MSG_END | .ROLE_SYS | .ROLE_USR | .ROLE_AST | .ROLE_TOOL
  | .DEF_START | .DEF_END | .CALL_END | .RESULT_END
  | .SET_STREAM | .STREAM_START | .STREAM_END =>
      .ok [b]
  | .TXT_CHUNK | .DEF_NAME | .DEF_DESC | .CALL_START | .CALL_NAME
  | .RESULT_START | .RESULT_DATA | .RESP_ID | .RESP_MODEL | .RESP_DONE
  | .SET_MODEL | .SET_STOP | .STREAM_DELTA =>
      .ok (b :: writeBytes inst.str)
  | .SET_TEMP | .SET_TOPP =>
      .ok (b :: le8 inst.num)
  | .SET_MAX =>
      .ok (b :: writeInt32 inst.int)
  | .DEF_SCHEMA | .CALL_ARGS | .USAGE | .STREAM_TOOL_DELTA =>
      .ok (b :: writeBytes inst.json)
  | .IMG_REF | .AUD_REF | .TXT_REF =>
      .ok (b :: le4 inst.ref)
  | .SET_META =>
      .ok (b :: (writeBytes inst.key ++ writeBytes inst.str))
  | .EXT_DATA =>
      .ok (b :: (writeBytes inst.key ++ writeBytes inst.json))
  | _ => .error (.unknownOpcode inst.op)

/-- The instruction section of the wire stream (the Encode loop). -/
def encodeCode : List Instruction → Except EncErr GoStr
  | [] => .ok []
  | inst :: rest => do
      let b ← encodeInstr inst
      let r ← encodeCode rest
      .ok (b ++ r)

/-- Program.Encode (binary.go:23-109): magic, version, buffer count,
    length-prefixed buffers, then the instruction stream. -/
def encode (p : Program) : Except EncErr GoStr := do
  let body ← encodeCode p.code
  .ok ([65, 73, 76, 0, 1] ++ le4 p.buffers.length ++
       (p.buffers.map writeBytes).flatten ++ body)

/-- Binary-decoder errors (each corresponds to an error return of
    `Decode` in binary.go).  `fuelExhausted` is a modelling artifact of
    the fuel-bounded instruction loop below; it is unreachable because
    every loop iteration consumes at least the opcode byte. -/
inductive DecErr where
  | shortHeader
  | badMagic (b0 b1 b2 b3 : Nat)
  | badVersion (v : Nat)
  | shortRead
  | unknownOp (b : Nat)
  | fuelExhausted
deriving DecidableEq, Repr

/-- readUint32 (binary.go): 4 little-endian bytes, or a short-read error. -/
def readU32 : GoStr → Option (Nat × GoStr)
  | b0 :: b1 :: b2 :: b3 :: rest =>
      some (b0 + 256 * b1 + 2 ^ 16 * b2 + 2 ^ 24 * b3, rest)
  | _ => none

/-- readBytes (binary.go): u32 length prefix then that many bytes. -/
def readBytesW (bs : GoStr) : Option (GoStr × GoStr) :=
  match readU32 bs with
  | none => none
  | some (n, rest) =>
      if n ≤ rest.length then some (rest.take n, rest.drop n) else none

/-- The buffer-reading loop of Decode. -/
def readBuffers : Nat → GoStr → Except DecErr (List GoStr × GoStr)
  | 0, bs => .ok ([], bs)
  | n + 1, bs =>
      match readBytesW bs with
      | none => .error .shortRead
      | some (buf, rest) => do
          let (bufs, bs') ← readBuffers n rest
          .ok (buf :: bufs, bs')

/-- The byte-reversal of `opcodeByte`: dispatch on the opcode byte read
    from the wire.  Bytes that match no constant fall to the decoder's
    `default` branch ("unknown opcode"). -/
def opcodeOfByte (b : Nat) : Option Opcode :=
  [Opcode.MSG_START, .MSG_END, .ROLE_SYS, .ROLE_USR, .ROLE_AST, .ROLE_TOOL,
   .TXT_CHUNK, .IMG_REF, .AUD_REF, .TXT_REF,
   .THINK_START, .THINK_CHUNK, .THINK_END, .THINK_REF,
   .DEF_START, .DEF_NAME, .DEF_DESC, .DEF_SCHEMA, .DEF_END,
   .CALL_START, .CALL_NAME, .CALL_ARGS, .CALL_END,
   .RESULT_START, .RESULT_DATA, .RESULT_END,
   .RESP_ID, .RESP_MODEL, .RESP_DONE, .USAGE,
   .STREAM_START, .STREAM_DELTA, .STREAM_TOOL_DELTA, .STREAM_END,
   .STREAM_THINK_DELTA,
   .SET_MODEL, .SET_TEMP, .SET_TOPP, .SET_STOP, .SET_MAX, .SET_STREAM,
   .SET_THINK, .EXT_DATA, .SET_META].find? (fun op => opcodeByte op = b)

/-- readFloat64 / readInt32 helpers: 8 and 4 little-endian bytes. -/
def readU64 : GoStr → Option (Nat × GoStr)
  | b0 :: b1 :: b2 :: b3 :: b4 :: b5 :: b6 :: b7 :: rest =>
      some (b0 + 256 * b1 + 2 ^ 16 * b2 + 2 ^ 24 * b3 + 2 ^ 32 * b4 +
            2 ^ 40 * b5 + 2 ^ 48 * b6 + 2 ^ 56 * b7, rest)
  | _ => none

/-- Go's `int32(uint32)` reinterpretation. -/
def toInt32 (n : Nat) : Int :=
  if n < 2 ^ 31 then (n : Int) else (n : Int) - 2 ^ 32

/-- One iteration of the Decode instruction loop: reads the arguments for
    the opcode whose byte was just consumed (binary.go:145-237).  The case
    lists mirror the Go switch; THINK/SET_THINK/STREAM_THINK_DELTA opcodes
    are not listed there and so hit the `default` ("unknown opcode") arm
    even though their bytes are defined in opcodes.go. -/
def decodeArgs (op : Opcode) (bs : GoStr) : Except DecErr (Instruction × GoStr) :=
  match op with
  | .MSG_START | .MSG_END | .ROLE_SYS | .ROLE_USR | .ROLE_AST | .ROLE_TOOL
  | .DEF_START | .DEF_END | .CALL_END | .RESULT_END
  | .SET_STREAM | .STREAM_START | .STREAM_END =>
      .ok ({ op := op }, bs)
  | .TXT_CHUNK | .DEF_NAME | .DEF_DESC | .CALL_START | .CALL_NAME
  | .RESULT_START | .RESULT_DATA | .RESP_ID | .RESP_MODEL | .RESP_DONE
  | .SET_MODEL | .SET_STOP | .STREAM_DELTA =>
      match readBytesW bs with
      | none => .error .shortRead
      | some (s, rest) => .ok ({ op := op, str := s }, rest)
  | .SET_TEMP | .SET_TOPP =>
      match readU64 bs with
      | none => .error .shortRead
      | some (n, rest) => .ok ({ op := op, num := n }, rest)
  | .SET_MAX =>
      match readU32 bs with
      | none => .error .shortRead
      | some (n, rest) => .ok ({ op := op, int := toInt32 n }, rest)
  | .DEF_SCHEMA | .CALL_ARGS | .USAGE | .STREAM_TOOL_DELTA =>
      match readBytesW bs with
      | none => .error .shortRead
      | some (j, rest) => .ok ({ op := op, json := j }, rest)
  | .IMG_REF | .AUD_REF | .TXT_REF =>
      match readU32 bs with
      | none => .error .shortRead
      | some (n, rest) => .ok ({ op := op, ref := n }, rest)
  | .SET_META =>
      match readBytesW bs with
      | none => .error .shortRead
      | some (k, rest) =>
          match readBytesW rest with
          | none => .error .shortRead
          | some (v, rest2) => .ok ({ op := op, key := k, str := v }, rest2)
  | .EXT_DATA =>
      match readBytesW bs with
      | none => .error .shortRead
      | some (k, rest) =>
          match readBytesW rest with
          | none => .error .shortRead
          | some (j, rest2) => .ok ({ op := op, key := k, json := j }, rest2)
  | _ => .error (.unknownOp (opcodeByte op))

/-- The Decode instruction loop, fuel-bounded (each iteration consumes at
    least the opcode byte, so fuel `bs.length + 1` never runs out). -/
def decodeInstrs : Nat → GoStr → Except DecErr (List Instruction)
  | _, [] => .ok []
  | 0, _ :: _ => .error .fuelExhausted
  | fuel + 1, b :: rest =>
      match opcodeOfByte b with
      | none => .error (.unknownOp b)
      | some op => do
          let (inst, rest2) ← decodeArgs op rest
          let more ← decodeInstrs fuel rest2
          .ok (inst :: more)

/-- Decode (binary.go:114-240): header validation (magic, then version),
    buffer section, then the instruction loop until end of input. -/
def decode (bs : GoStr) : Except DecErr Program :=
  match bs with
  | b0 :: b1 :: b2 :: b3 :: b4 :: rest =>
      if b0 = 65 ∧ b1 = 73 ∧ b2 = 76 ∧ b3 = 0 then
        if b4 = 1 then
          match readU32 rest with
          | none => .error .shortRead
          | some (bufCount, rest2) => do
              let (bufs, rest3) ← readBuffers bufCount rest2
              let code ← decodeInstrs (rest3.length + 1) rest3
              .ok { code := code, buffers := bufs }
        else .error (.badVersion b4)
      else .error (.badMagic b0 b1 b2 b3)
  | _ => .error .shortHeader

/-- A program drawn entirely from the opcodes the binary codec's switches
    do list, used as a positive contrast in the C1 theorem. -/
def sampleSupportedProgram : Program :=
  { code :=
      [{ op := .SET_MODEL, str := gs "gpt-4o" },
       { op := .SET_TEMP, num := 0x3FE0000000000000 },
       { op := .SET_MAX, int := -5 },
       { op := .MSG_START }, { op := .ROLE_USR },
       { op := .TXT_CHUNK, str := gs "hi" },
       { op := .IMG_REF, ref := 0 },
       { op := .SET_META, key := gs "k", str := gs "v" },
       { op := .EXT_DATA, key := gs "e", json := gs "3" },
       { op := .MSG_END }],
    buffers := [[1, 2, 3]] }

/-- C1.  Binary round-trip: the claim quantifies over programs drawn from
    the full opcode set of spec §3.1, explicitly including `THINK_START`,
    `THINK_CHUNK`, `THINK_END`, `THINK_REF`, `SET_THINK` and
    `STREAM_THINK_DELTA`.  The Encode switch of binary.go omits all six,
    so `Encode` returns the "unknown opcode" error on any program
    containing one of them and the round-trip property fails; on programs
    drawn from the opcodes the switch does list, decode ∘ encode is the
    identity (final conjunct, a concrete contrast). -/
theorem binary_encode_rejects_think_opcodes :
    encode { code := [{ op := .THINK_START }] } = .error (.unknownOpcode .THINK_START)
  ∧ encode { code := [{ op := .THINK_CHUNK, str := gs "r" }] }
      = .error (.unknownOpcode .THINK_CHUNK)
  ∧ encode { code := [{ op := .THINK_END }] } = .error (.unknownOpcode .THINK_END)
  ∧ encode { code := [{ op := .THINK_REF, ref := 0 }], buffers := [[1]] }
      = .error (.unknownOpcode .THINK_REF)
  ∧ encode { code := [{ op := .SET_THINK, json := gs "12" }] }
      = .error (.unknownOpcode .SET_THINK)
  ∧ encode { code := [{ op := .STREAM_THINK_DELTA, str := gs "t" }] }
      = .error (.unknownOpcode .STREAM_THINK_DELTA)
  ∧ (encode sampleSupportedProgram).map decode = .ok (.ok sampleSupportedProgram) :=
  ⟨rfl, rfl, rfl, rfl, rfl, rfl, rfl⟩

/-- C3.  Append renumbering at a concrete input: `A` has one buffer and one
    `IMG_REF`; `B` has one buffer, one `THINK_REF` and one `IMG_REF`, both
    with `ref = 0`.  In `A.append B` the `IMG_REF` originating from `B` is
    renumbered to `1` (incremented by `len(A.Buffers)`), but the
    `THINK_REF` originating from `B` keeps `ref = 0`: the renumbering
    switch of Program.Append (program.go:118-121) lists only `IMG_REF`,
    `AUD_REF`, `TXT_REF`, so the claim's (and spec invariant §3.3(5)'s)
    "every `*_REF`" fails for `THINK_REF`. -/
theorem append_leaves_think_ref_unrenumbered :
    Program.append
      { code := [{ op := .IMG_REF, ref := 0 }], buffers := [[1]] }
      { code := [{ op := .THINK_REF, ref := 0 }, { op := .IMG_REF, ref := 0 }],
        buffers := [[2]] }
    = { code := [{ op := .IMG_REF, ref := 0 },
                 { op := .THINK_REF, ref := 0 },
                 { op := .IMG_REF, ref := 1 }],
        buffers := [[1], [2]] } := by
  decide

/-- C8.  Binary decode rejection: any input of at least five bytes whose
    first four bytes are not `'A','I','L',0x00` or whose fifth byte is not
    `0x01` decodes to a structured error; in particular `"NOPE\x01"` fails
    on the magic check and `"AIL\0" ++ [0xFF] ++ zeros` fails on the
    version check. -/
theorem decode_rejects_bad_magic_or_version :
    (∀ bs : GoStr, 5 ≤ bs.length →
        bs.take 4 ≠ [65, 73, 76, 0] ∨ bs[4]? ≠ some 1 →
        ∃ e, decode bs = .error e)
  ∧ decode (gs "NOPE" ++ [1]) = .error (.badMagic 78 79 80 69)
  ∧ decode ([65, 73, 76, 0] ++ [255] ++ [0, 0, 0, 0]) = .error (.badVersion 255) := by
  refine ⟨?_, rfl, rfl⟩
  intro bs h5 hbad
  match bs with
  | b0 :: b1 :: b2 :: b3 :: b4 :: rest =>
    by_cases hm : b0 = 65 ∧ b1 = 73 ∧ b2 = 76 ∧ b3 = 0
    · by_cases hv : b4 = 1
      · exfalso
        obtain ⟨h0, h1, h2, h3⟩ := hm
        subst h0; subst h1; subst h2; subst h3; subst hv
        rcases hbad with h | h <;> simp at h
      · refine ⟨.badVersion b4, ?_⟩
        simp only [decode, if_pos hm, if_neg hv]
    · refine ⟨.badMagic b0 b1 b2 b3, ?_⟩
      simp only [decode, if_neg hm]

/-- Witness for C8's theorem at a concrete input. -/
theorem decode_rejects_bad_magic_or_version_witness :
    ∃ e, decode [0, 0, 0, 0, 0] = .error e :=
  decode_rejects_bad_magic_or_version.1 [0, 0, 0, 0, 0] (by decide)
    (Or.inl (by decide))

/- ─── Buffer-storage aliasing (heap-explicit model, for C9) ──────────────
Go slices alias their backing arrays.  To state which operations share
buffer storage we make the backing store explicit: a `Heap` is the list of
allocated byte arrays, and a heap-level program holds the addresses of the
arrays backing `Program.Buffers`.  `Clone` (program.go:145-158) runs
`make([]byte, len(b)); copy(buf, b)` per buffer — fresh arrays with copied
contents — while `Slice` (ailmanip.go:245-259) executes
`result.Buffers = p.Buffers`, sharing the existing arrays ("Share buffers
so refs remain valid", its own comment). -/

/-- The allocated byte arrays (Go backing stores). -/
abbrev Heap := List GoStr

/-- A program whose buffers are addresses into the heap. -/
structure HProgram where
  code : List Instruction := []
  bufs : List Nat := []
deriving DecidableEq, Repr

/-- Dereference one buffer address. -/
def heapRead (h : Heap) (a : Nat) : GoStr := h.getD a []

/-- Mutate the byte contents of the array at address `a`. -/
def heapWrite (h : Heap) (a : Nat) (v : GoStr) : Heap := h.set a v

/-- The buffer contents a program observes through its addresses. -/
def buffersView (h : Heap) (p : HProgram) : List GoStr := p.bufs.map (heapRead h)

/-- Program.Clone (program.go:145-158) in the heap model: every buffer is
    copied into a freshly allocated array; instructions are deep-copied. -/
def cloneH (h : Heap) (p : HProgram) : Heap × HProgram :=
  (h ++ buffersView h p,
   { code := p.code.map cloneInstruction,
     bufs := (List.range p.bufs.length).map (· + h.length) })

/-- Program.Slice (ailmanip.go:245-259) in the heap model: `start` is
    clamped below at 0 and `end` above at `len(code)-1`, the instructions
    in `[start, end]` are deep-copied, and `result.Buffers = p.Buffers`
    shares the backing arrays (no new allocation). -/
def sliceH (h : Heap) (p : HProgram) (start endIdx : Int) : Heap × HProgram :=
  let s := max start 0
  let e := min endIdx ((p.code.length : Int) - 1)
  (h,
   { code := ((p.code.drop s.toNat).take (e - s + 1).toNat).map cloneInstruction,
     bufs := p.bufs })

theorem heapRead_write_ne (h : Heap) {a b : Nat} (hab : a ≠ b) (v : GoStr) :
    heapRead (heapWrite h a v) b = heapRead h b := by
  simp [heapRead, heapWrite, List.getD_eq_getElem?_getD, List.getElem?_set_ne hab]

theorem heapRead_append_lt (h h' : Heap) {a : Nat} (ha : a < h.length) :
    heapRead (h ++ h') a = heapRead h a := by
  simp [heapRead, List.getD_eq_getElem?_getD, List.getElem?_append_left ha]

/-- C9 (amended).  Clone buffer independence: the addresses of a clone's
    buffers are fresh (disjoint from the original's), hence mutating the
    byte contents of any buffer of the clone is not observable through the
    original, and vice versa; the clone initially observes the same buffer
    contents as the original.  (The second half of the original claim —
    that `Slice` also has independent storage — is refuted by
    `slice_shares_buffer_storage_counterexample` below.) -/
theorem clone_buffers_independent (h : Heap) (p : HProgram)
    (hwf : ∀ a ∈ p.bufs, a < h.length) :
    (∀ a ∈ (cloneH h p).2.bufs, ∀ v,
        buffersView (heapWrite (cloneH h p).1 a v) p = buffersView (cloneH h p).1 p)
  ∧ (∀ a ∈ p.bufs, ∀ v,
        buffersView (heapWrite (cloneH h p).1 a v) (cloneH h p).2
          = buffersView (cloneH h p).1 (cloneH h p).2)
  ∧ buffersView (cloneH h p).1 (cloneH h p).2 = buffersView h p := by
  have hfresh : ∀ a ∈ (cloneH h p).2.bufs, h.length ≤ a := by
    intro a ha
    simp only [cloneH, List.mem_map, List.mem_range] at ha
    obtain ⟨i, _, rfl⟩ := ha
    omega
  have hview : ∀ i (hi : i < p.bufs.length),
      heapRead (cloneH h p).1 (h.length + i) = heapRead h (p.bufs[i]) := by
    intro i hi
    simp only [cloneH, heapRead]
    rw [List.getD_eq_getElem?_getD, List.getElem?_append_right (by omega)]
    have : h.length + i - h.length = i := by omega
    rw [this]
    simp [buffersView, List.getElem?_map, List.getElem?_eq_getElem hi, heapRead]
  refine ⟨?_, ?_, ?_⟩
  · intro a ha v
    simp only [buffersView]
    refine List.map_congr_left ?_
    intro b hb
    exact heapRead_write_ne _ (by have := hwf b hb; have := hfresh a ha; omega) v
  · intro a ha v
    simp only [buffersView]
    refine List.map_congr_left ?_
    intro b hb
    refine heapRead_write_ne _ ?_ v
    have := hwf a ha
    have := hfresh b hb
    omega
  · simp only [buffersView, cloneH]
    refine List.ext_getElem (by simp) ?_
    intro i h1 h2
    have hi : i < p.bufs.length := by simpa using h2
    have hv := hview i hi
    simp only [cloneH, buffersView] at hv
    simp only [List.getElem_map, List.getElem_range]
    rw [Nat.add_comm]
    exact hv

/-- Witness for C9's amended theorem at a concrete input. -/
theorem clone_buffers_independent_witness :
    (∀ a ∈ (cloneH [[1, 2]] { bufs := [0] }).2.bufs, ∀ v,
        buffersView (heapWrite (cloneH [[1, 2]] { bufs := [0] }).1 a v) { bufs := [0] }
          = buffersView (cloneH [[1, 2]] { bufs := [0] }).1 { bufs := [0] })
  ∧ (∀ a ∈ ({ bufs := [0] } : HProgram).bufs, ∀ v,
        buffersView (heapWrite (cloneH [[1, 2]] { bufs := [0] }).1 a v)
            (cloneH [[1, 2]] { bufs := [0] }).2
          = buffersView (cloneH [[1, 2]] { bufs := [0] }).1
              (cloneH [[1, 2]] { bufs := [0] }).2)
  ∧ buffersView (cloneH [[1, 2]] { bufs := [0] }).1 (cloneH [[1, 2]] { bufs := [0] }).2
      = buffersView [[1, 2]] { bufs := [0] } :=
  clone_buffers_independent [[1, 2]] { bufs := [0] } (by decide)

/-- C9 (counterexample).  `Slice` does not give independent buffer
    storage: for `P` with one buffer `[1, 2]`, the program returned by
    `P.Slice(0, 0)` holds the same buffer address, and overwriting the
    byte contents of that buffer through the slice changes what `P`
    observes (from `[[1, 2]]` to `[[9]]`) — refuting the claim that
    mutating a buffer of the result is never observable through `P`. -/
theorem slice_shares_buffer_storage_counterexample :
    (sliceH [[1, 2]] { code := [{ op := .IMG_REF, ref := 0 }], bufs := [0] } 0 0).2.bufs
        = [0]
  ∧ buffersView
      (heapWrite
        (sliceH [[1, 2]] { code := [{ op := .IMG_REF, ref := 0 }], bufs := [0] } 0 0).1
        0 [9])
      { code := [{ op := .IMG_REF, ref := 0 }], bufs := [0] } = [[9]]
  ∧ buffersView
      (sliceH [[1, 2]] { code := [{ op := .IMG_REF, ref := 0 }], bufs := [0] } 0 0).1
      { code := [{ op := .IMG_REF, ref := 0 }], bufs := [0] } = [[1, 2]] := by
  refine ⟨rfl, rfl, rfl⟩

/- ─── JSON values (encoding/json semantics) ──────────────────────────────
The Go code passes JSON around as raw bytes and feeds them to
`encoding/json`.  We model JSON documents as trees: a number keeps its
numeric literal verbatim (Go only re-formats numbers it re-marshals, and
the code never does arithmetic on them), a string holds its decoded
(unescaped) bytes, an object keeps its members in document/insertion
order (Go maps collapse duplicate keys to the last one, which the lookup
helper below reproduces). -/

inductive Json where
  | null
  | bool (b : Bool)
  | num (lexeme : GoStr)
  | str (s : GoStr)
  | arr (elems : List Json)
  | obj (fields : List (GoStr × Json))

/-- Go map lookup on an unmarshalled JSON object: duplicate keys collapse
    to the last occurrence. -/
def lookupLast (fields : List (GoStr × Json)) (k : GoStr) : Option Json :=
  fields.foldl (fun acc kv => if kv.1 = k then some kv.2 else acc) none

/-- Key presence in an unmarshalled object (Go's `_, ok := m[k]`). -/
def hasKeyF (fields : List (GoStr × Json)) (k : GoStr) : Bool :=
  fields.any (fun kv => decide (kv.1 = k))

/-- Go `map[string]any` under construction by an emitter: assignment
    replaces the first (unique) occurrence or appends. -/
def smapSet (m : List (GoStr × Json)) (k : GoStr) (v : Json) : List (GoStr × Json) :=
  match m with
  | [] => [(k, v)]
  | kv :: rest => if kv.1 = k then (k, v) :: rest else kv :: smapSet rest k v

/-- Number of members with the given key. -/
def countKey (m : List (GoStr × Json)) (k : GoStr) : Nat :=
  m.countP (fun kv => decide (kv.1 = k))

mutual

/-- Whether the key occurs anywhere in the document (any nesting depth). -/
def containsKeyDeep (k : GoStr) : Json → Bool
  | .obj fields => containsKeyFields k fields
  | .arr elems => containsKeyElems k elems
  | _ => false

def containsKeyFields (k : GoStr) : List (GoStr × Json) → Bool
  | [] => false
  | (k2, v) :: rest =>
      decide (k2 = k) || containsKeyDeep k v || containsKeyFields k rest

def containsKeyElems (k : GoStr) : List Json → Bool
  | [] => false
  | e :: rest => containsKeyDeep k e || containsKeyElems k rest

end

/-- Decimal digits of a natural number (Go's integer formatting),
    fuel-bounded: `n` itself bounds the number of divisions by ten. -/
def natDecAux : Nat → Nat → GoStr
  | 0, n => [48 + n % 10]
  | fuel + 1, n => if n < 10 then [48 + n] else natDecAux fuel (n / 10) ++ [48 + n % 10]

def natDec (n : Nat) : GoStr := natDecAux n n

/-- Decimal representation of a Go integer. -/
def intDec (i : Int) : GoStr :=
  if i < 0 then 45 :: natDec (-i).toNat else natDec i.toNat

/-- Decimal digit parse of a natural number; `none` on empty input or any
    non-digit byte. -/
def decNat (bs : GoStr) : Option Nat :=
  if bs = [] then none
  else bs.foldl (fun acc b =>
    match acc with
    | none => none
    | some n => if 48 ≤ b ∧ b ≤ 57 then some (n * 10 + (b - 48)) else none) (some 0)

/-- How `encoding/json` unmarshals a JSON number into a Go `int` field:
    the literal is parsed with `strconv.ParseInt`, so any fractional or
    exponent part (a non-digit in the literal) is an error. -/
def intLexemeToInt (lexeme : GoStr) : Option Int :=
  match lexeme with
  | 45 :: rest => (decNat rest).map (fun n => -(n : Int))
  | _ => (decNat lexeme).map (fun n => (n : Int))

/- JSON byte-level scanner/parser (the subset of `encoding/json` behavior
the sources rely on), fuel-bounded: every recursive call consumes at
least one input byte, so the fuel `2 * length + 8` used by `jsonParse`
never runs out. -/

/-- JSON insignificant whitespace. -/
def jsWS (b : Nat) : Bool := b == 32 || b == 9 || b == 10 || b == 13

def skipWS (bs : GoStr) : GoStr := bs.dropWhile jsWS

def isDigit (b : Nat) : Bool := 48 ≤ b && b ≤ 57

/-- Hex digit value. -/
def hexVal (b : Nat) : Option Nat :=
  if 48 ≤ b ∧ b ≤ 57 then some (b - 48)
  else if 97 ≤ b ∧ b ≤ 102 then some (b - 87)
  else if 65 ≤ b ∧ b ≤ 70 then some (b - 55)
  else none

/-- UTF-8 encoding of a code point (for `\uXXXX` escapes; the sources
    never exercise surrogate pairing, which is not modelled). -/
def utf8Enc (c : Nat) : GoStr :=
  if c < 0x80 then [c]
  else if c < 0x800 then [0xC0 + c / 64, 0x80 + c % 64]
  else [0xE0 + c / 4096, 0x80 + c / 64 % 64, 0x80 + c % 64]

/-- String body after an opening quote: returns the decoded bytes and the
    input after the closing quote.  Fuel-bounded: every recursive call
    consumes at least one input byte, so the input length is enough fuel. -/
def parseStrBody : Nat → GoStr → Option (GoStr × GoStr)
  | 0, _ => none
  | fuel + 1, bs =>
    match bs with
    | [] => none
    | 34 :: rest => some ([], rest)
    | 92 :: e :: rest =>
        let simple := fun (b : Nat) =>
          (parseStrBody fuel rest).map (fun (s, r) => (b :: s, r))
        (match e with
         | 34 => simple 34 | 92 => simple 92 | 47 => simple 47
         | 98 => simple 8 | 102 => simple 12 | 110 => simple 10
         | 114 => simple 13 | 116 => simple 9
         | 117 =>
             match rest with
             | h1 :: h2 :: h3 :: h4 :: rest2 =>
                 match hexVal h1, hexVal h2, hexVal h3, hexVal h4 with
                 | some v1, some v2, some v3, some v4 =>
                     (parseStrBody fuel rest2).map (fun (s, r) =>
                       (utf8Enc (v1 * 4096 + v2 * 256 + v3 * 16 + v4) ++ s, r))
                 | _, _, _, _ => none
             | _ => none
         | _ => none)
    | b :: rest =>
        if b < 32 then none
        else (parseStrBody fuel rest).map (fun (s, r) => (b :: s, r))

/-- The fractional part of a numeric literal, if present. -/
def parseFrac (bs : GoStr) : Option (GoStr × GoStr) :=
  match bs with
  | 46 :: r =>
      let ds := r.takeWhile isDigit
      if ds = [] then none else some (46 :: ds, r.drop ds.length)
  | _ => some ([], bs)

/-- The exponent part of a numeric literal, if present. -/
def parseExp (bs : GoStr) : Option (GoStr × GoStr) :=
  match bs with
  | e :: r =>
      if e = 101 ∨ e = 69 then
        let (sgn, r2) := match r with
          | s :: r3 => if s = 43 ∨ s = 45 then (([s] : GoStr), r3) else (([] : GoStr), r)
          | [] => (([] : GoStr), r)
        let ds := r2.takeWhile isDigit
        if ds = [] then none else some (e :: (sgn ++ ds), r2.drop ds.length)
      else some ([], bs)
  | [] => some ([], bs)

/-- Numeric literal per the JSON grammar; returns the lexeme verbatim. -/
def parseNum (bs : GoStr) : Option (GoStr × GoStr) := do
  let (sign, bs1) := match bs with
    | 45 :: r => (([45] : GoStr), r)
    | _ => (([] : GoStr), bs)
  match bs1 with
  | [] => none
  | b :: _ =>
    if isDigit b then do
      let intPart := if b = 48 then [48] else bs1.takeWhile isDigit
      let bs2 := bs1.drop intPart.length
      let (fracPart, bs3) ← parseFrac bs2
      let (expPart, bs4) ← parseExp bs3
      some (sign ++ intPart ++ fracPart ++ expPart, bs4)
    else none

mutual

/-- One JSON value (fuel-bounded recursive descent). -/
def parseVal : Nat → GoStr → Option (Json × GoStr)
  | 0, _ => none
  | fuel + 1, bs =>
    match skipWS bs with
    | 110 :: 117 :: 108 :: 108 :: rest => some (.null, rest)
    | 116 :: 114 :: 117 :: 101 :: rest => some (.bool true, rest)
    | 102 :: 97 :: 108 :: 115 :: 101 :: rest => some (.bool false, rest)
    | 34 :: rest => (parseStrBody rest.length rest).map (fun (s, r) => (.str s, r))
    | 123 :: rest =>
        (match skipWS rest with
         | 125 :: r2 => some (.obj [], r2)
         | _ => (parseMembers fuel rest).map (fun (fs, r) => (.obj fs, r)))
    | 91 :: rest =>
        (match skipWS rest with
         | 93 :: r2 => some (.arr [], r2)
         | _ => (parseElems fuel rest).map (fun (es, r) => (.arr es, r)))
    | other => (parseNum other).map (fun (lex, r) => (.num lex, r))

/-- Object members after `{` (at least one member). -/
def parseMembers : Nat → GoStr → Option (List (GoStr × Json) × GoStr)
  | 0, _ => none
  | fuel + 1, bs =>
    match skipWS bs with
    | 34 :: rest =>
        match parseStrBody rest.length rest with
        | none => none
        | some (k, r1) =>
            match skipWS r1 with
            | 58 :: r2 =>
                match parseVal fuel r2 with
                | none => none
                | some (v, r3) =>
                    match skipWS r3 with
                    | 44 :: r4 =>
                        (parseMembers fuel r4).map (fun (fs, r) => ((k, v) :: fs, r))
                    | 125 :: r4 => some ([(k, v)], r4)
                    | _ => none
            | _ => none
    | _ => none

/-- Array elements after `[` (at least one element). -/
def parseElems : Nat → GoStr → Option (List Json × GoStr)
  | 0, _ => none
  | fuel + 1, bs =>
    match parseVal fuel bs with
    | none => none
    | some (v, r1) =>
        match skipWS r1 with
        | 44 :: r2 => (parseElems fuel r2).map (fun (es, r) => (v :: es, r))
        | 93 :: r2 => some ([v], r2)
        | _ => none

end

/-- A whole document: one value plus trailing whitespace (what
    `json.Unmarshal` / `json.Valid` accept). -/
def jsonParse (bs : GoStr) : Option Json :=
  match parseVal (2 * bs.length + 8) bs with
  | some (v, rest) => if skipWS rest = [] then some v else none
  | none => none

/-- String escaping of `json.Marshal` (with its default HTML escaping of
    `<`, `>`, `&`). -/
def escapeByte (b : Nat) : GoStr :=
  if b = 34 then [92, 34]
  else if b = 92 then [92, 92]
  else if b = 10 then [92, 110]
  else if b = 13 then [92, 114]
  else if b = 9 then [92, 116]
  else if b = 60 then gs "\\u003c"
  else if b = 62 then gs "\\u003e"
  else if b = 38 then gs "\\u0026"
  else if b < 32 then gs "\\u00" ++ [48 + b / 16] ++
    (if b % 16 < 10 then [48 + b % 16] else [87 + b % 16])
  else [b]

def marshalStr (s : GoStr) : GoStr := 34 :: (s.map escapeByte).flatten ++ [34]

mutual

/-- `json.Marshal` on a document tree.  Note Go sorts map keys when
    marshalling a `map[string]any`; wherever the sources marshal a map we
    construct the corresponding `.obj` with its members already in Go's
    sorted-key order, so emitting members in list order reproduces the
    wire bytes. -/
def jsonMarshal : Json → GoStr
  | .null => gs "null"
  | .bool true => gs "true"
  | .bool false => gs "false"
  | .num lexeme => lexeme
  | .str s => marshalStr s
  | .arr elems => 91 :: marshalElems elems ++ [93]
  | .obj fields => 123 :: marshalFields fields ++ [125]

def marshalElems : List Json → GoStr
  | [] => []
  | [e] => jsonMarshal e
  | e :: e2 :: rest => jsonMarshal e ++ [44] ++ marshalElems (e2 :: rest)

def marshalFields : List (GoStr × Json) → GoStr
  | [] => []
  | [(k, v)] => marshalStr k ++ [58] ++ jsonMarshal v
  | (k, v) :: kv2 :: rest =>
      marshalStr k ++ [58] ++ jsonMarshal v ++ [44] ++ marshalFields (kv2 :: rest)

end

/- ─── Styles (styles.go) and the stateful stream converter ─────────────── -/

/-- Style (styles.go): a provider's API style, a string. -/
abbrev Style := String

def StyleChatCompletions : Style := "openai-chat-completions"
def StyleResponses : Style := "openai-responses"
def StyleAnthropic : Style := "anthropic-messages"
def StyleGoogleGenAI : Style := "google-genai"

/-- pendingToolCall: accumulates tool-call fragments for buffered emission
    (`Args` is a strings.Builder, i.e. an accumulating concatenation). -/
structure PendingToolCall where
  id : GoStr := []
  name : GoStr := []
  args : GoStr := []
deriving DecidableEq, Repr

/-- StreamConverter state.  `pendingTools` models the Go
    `map[int]*pendingToolCall` as a unique-key association list (first
    match), `toolOrder` is the insertion-ordered index list. -/
structure StreamConverter where
  sourceStyle : Style
  targetStyle : Style
  respID : GoStr := []
  respModel : GoStr := []
  bufferTools : Bool := false
  pendingTools : List (Int × PendingToolCall) := []
  toolOrder : List Int := []
deriving DecidableEq, Repr

/-- NewStreamConverter: Google GenAI targets need complete function calls
    in one chunk, so tool deltas are buffered for them.  (The parser and
    emitter lookups, which fail for styles without stream support, are
    outside this model; the converters studied here use the three target
    styles that do have stream-chunk emitters.) -/
def NewStreamConverter (fromStyle toStyle : Style) : StreamConverter :=
  { sourceStyle := fromStyle, targetStyle := toStyle,
    bufferTools := toStyle == StyleGoogleGenAI }

/-- Go map lookup (unique keys, first match). -/
def assocFind (m : List (Int × PendingToolCall)) (k : Int) : Option PendingToolCall :=
  match m with
  | [] => none
  | (k2, v) :: rest => if k2 = k then some v else assocFind rest k

/-- Go map store: replace the existing entry or append a new one. -/
def assocSet (m : List (Int × PendingToolCall)) (k : Int) (v : PendingToolCall) :
    List (Int × PendingToolCall) :=
  match m with
  | [] => [(k, v)]
  | (k2, v2) :: rest => if k2 = k then (k, v) :: rest else (k2, v2) :: assocSet rest k v

/-- `json.Unmarshal` of a JSON value into a Go `int` struct field:
    absent or null leaves the zero value; a number must have an integer
    literal; anything else is a type error (failing the whole unmarshal). -/
def goIntField : Option Json → Option Int
  | none => some 0
  | some (.num lexeme) => intLexemeToInt lexeme
  | some .null => some 0
  | some _ => none

/-- `json.Unmarshal` of a JSON value into a Go `string` struct field. -/
def goStrField : Option Json → Option GoStr
  | none => some []
  | some (.str s) => some s
  | some .null => some []
  | some _ => none

/-- One successfully unmarshalled tool-delta fragment applied to the
    buffers: update (or create) the entry at `idx`, concatenating
    `arguments` onto what is already stored. -/
def btdStep (c : StreamConverter) (idx : Int) (id nm args : GoStr) : StreamConverter :=
  let found := assocFind c.pendingTools idx
  let tc := found.getD {}
  let isNew := found.isNone
  let tc1 := if id ≠ [] then { tc with id := id } else tc
  let tc2 := if nm ≠ [] then { tc1 with name := nm } else tc1
  let tc3 := if args ≠ [] then { tc2 with args := tc2.args ++ args } else tc2
  { c with pendingTools := assocSet c.pendingTools idx tc3,
           toolOrder := if isNew then c.toolOrder ++ [idx] else c.toolOrder }

/-- bufferToolDelta: accumulate one STREAM_TOOL_DELTA fragment by index.
    The Go code unmarshals into `struct{Index int; ID, Name, Arguments
    string}` and silently returns on error; a JSON `null` unmarshals into
    the struct as a no-op (all fields zero), which then touches index 0. -/
def bufferToolDelta (c : StreamConverter) (j : GoStr) : StreamConverter :=
  match jsonParse j with
  | some (.obj fs) =>
      match goIntField (lookupLast fs (gs "index")),
            goStrField (lookupLast fs (gs "id")),
            goStrField (lookupLast fs (gs "name")),
            goStrField (lookupLast fs (gs "arguments")) with
      | some idx, some id, some nm, some args => btdStep c idx id nm args
      | _, _, _, _ => c
  | some .null => btdStep c 0 [] [] []
  | _ => c

/-- The `td` object drainPendingTools marshals for one buffered tool call.
    `json.Marshal` emits map keys sorted, so the members are listed here
    in Go's sorted-key order (arguments, id, index, name). -/
def drainObj (idx : Int) (tc : PendingToolCall) : Json :=
  .obj ((if tc.args ≠ [] then [(gs "arguments", Json.str tc.args)] else []) ++
        (if tc.id ≠ [] then [(gs "id", Json.str tc.id)] else []) ++
        [(gs "index", Json.num (intDec idx))] ++
        (if tc.name ≠ [] then [(gs "name", Json.str tc.name)] else []))

/-- One complete STREAM_TOOL_DELTA instruction per buffered tool. -/
def drainDelta (c : StreamConverter) (idx : Int) : Instruction :=
  { op := .STREAM_TOOL_DELTA,
    json := jsonMarshal (drainObj idx ((assocFind c.pendingTools idx).getD {})) }

/-- drainPendingTools: one complete delta per `toolOrder` entry (insertion
    order), then the buffers are cleared; `none` when nothing is pending. -/
def drainPendingTools (c : StreamConverter) : StreamConverter × Option Program :=
  if c.toolOrder = [] then (c, none)
  else ({ c with pendingTools := [], toolOrder := [] },
        some { code := c.toolOrder.map (drainDelta c), buffers := [] })

/-- One iteration of trackMetadata's loop. -/
def tmStep (c : StreamConverter) (inst : Instruction) : StreamConverter :=
  match inst.op with
  | .RESP_ID => { c with respID := inst.str }
  | .RESP_MODEL => { c with respModel := inst.str }
  | _ => c

/-- trackMetadata: remember the latest RESP_ID / RESP_MODEL values. -/
def trackMetadata (c : StreamConverter) (prog : Program) : StreamConverter :=
  prog.code.foldl tmStep c

def hasOpIn (prog : Program) (op : Opcode) : Bool :=
  prog.code.any (fun i => decide (i.op = op))

/-- injectMetadata: prepend RESP_ID / RESP_MODEL instructions when the
    program lacks them but the converter has seen values.  In Go this
    mutates `prog.Code` in place; the function returns the program's new
    value. -/
def injectMetadata (c : StreamConverter) (prog : Program) : Program :=
  let hasID := hasOpIn prog .RESP_ID
  let hasModel := hasOpIn prog .RESP_MODEL
  let prepend : List Instruction :=
    (if hasID = false ∧ c.respID ≠ [] then [{ op := .RESP_ID, str := c.respID }] else []) ++
    (if hasModel = false ∧ c.respModel ≠ [] then [{ op := .RESP_MODEL, str := c.respModel }]
     else [])
  if prepend.length > 0 then { prog with code := prepend ++ prog.code } else prog

/-- The backward scan of splitForTarget's USAGE case: append the usage
    instruction to the most recent event whose first instruction is
    RESP_DONE (input is the reversed event list). -/
def attachUsageRev : List (List Instruction) → Instruction → Option (List (List Instruction))
  | [], _ => none
  | ev :: rest, inst =>
      if (ev.head?.map (·.op)) = some Opcode.RESP_DONE then some ((ev ++ [inst]) :: rest)
      else (attachUsageRev rest inst).map (ev :: ·)

/-- splitForTarget (Anthropic targets): each event-producing opcode becomes
    its own sub-program; RESP_ID/RESP_MODEL (and unattached USAGE) instructions
    are metadata, attached to the STREAM_START event or, failing that, the
    first event. -/
def splitForTarget (prog : Program) : List Program :=
  let fold := prog.code.foldl
    (fun (st : List Instruction × List (List Instruction)) inst =>
      let (meta, events) := st
      match inst.op with
      | .RESP_ID | .RESP_MODEL => (meta ++ [inst], events)
      | .STREAM_START | .STREAM_DELTA | .STREAM_TOOL_DELTA | .RESP_DONE | .STREAM_END =>
          (meta, events ++ [[inst]])
      | .USAGE =>
          (match attachUsageRev events.reverse inst with
           | some evsRev => (meta, evsRev.reverse)
           | none => (meta ++ [inst], events))
      | _ => st)
    ([], [])
  let (meta, events) := fold
  if events = [] then
    if meta ≠ [] then [{ code := meta, buffers := [] }] else []
  else
    let targetIdx :=
      match events.findIdx?
          (fun ev => decide ((ev.head?.map (·.op)) = some Opcode.STREAM_START)) with
      | some i => i
      | none => 0
    let events2 := events.set targetIdx (meta ++ events.getD targetIdx [])
    events2.map (fun ev => { code := ev, buffers := [] })

/-- One iteration of processWithBuffering's loop over the state
    (converter, flushed results, accumulated non-tool content). -/
def pwbStep (st : StreamConverter × List Program × List Instruction) (inst : Instruction) :
    StreamConverter × List Program × List Instruction :=
  let c := st.1
  let results := st.2.1
  let current := st.2.2
  match inst.op with
  | .STREAM_TOOL_DELTA => (bufferToolDelta c inst.json, results, current)
  | .RESP_DONE | .STREAM_END =>
      let results1 := results ++
        (if current.length > 0 then [{ code := current, buffers := [] }] else [])
      let results2 := results1 ++
        (match (drainPendingTools c).2 with | some d => [d] | none => [])
      ((drainPendingTools c).1, results2 ++ [{ code := [inst], buffers := [] }], [])
  | _ => (c, results, current ++ [inst])

/-- processWithBuffering (Google targets): non-tool instructions accumulate
    and flush as encountered; STREAM_TOOL_DELTA is buffered; RESP_DONE /
    STREAM_END flush the accumulated content, then the drained tools, then
    the terminal instruction as its own unit. -/
def processWithBuffering (c : StreamConverter) (prog : Program) :
    StreamConverter × List Program :=
  let step := prog.code.foldl pwbStep (c, ([], []))
  (step.1,
   step.2.1 ++ (if step.2.2.length > 0 then [{ code := step.2.2, buffers := [] }] else []))

/- ─── Stream-chunk emitters ─────────────────────────────────────────────── -/

/-- The RESP_DONE → stop_reason mapping of AnthropicEmitter
    (emit_anthropic_stream.go:75-86 and emit_anthropic_response.go). -/
def anthropicStopReasonOut (v : GoStr) : GoStr :=
  if v = gs "stop" then gs "end_turn"
  else if v = gs "tool_calls" then gs "tool_use"
  else if v = gs "length" then gs "max_tokens"
  else v

/-- The message object of a `message_start` event: role plus the RESP_ID /
    RESP_MODEL look-ahead over the whole chunk. -/
def msgStartObj (code : List Instruction) : List (GoStr × Json) :=
  code.foldl (fun m ahead =>
    let m1 := if ahead.op = .RESP_ID then smapSet m (gs "id") (.str ahead.str) else m
    if ahead.op = .RESP_MODEL then smapSet m1 (gs "model") (.str ahead.str) else m1)
    [(gs "role", Json.str (gs "assistant"))]

/-- The USAGE look-ahead of the `message_delta` event. -/
def usageLookahead (code : List Instruction) (ev : List (GoStr × Json)) :
    List (GoStr × Json) :=
  code.foldl (fun m ahead =>
    if ahead.op = .USAGE then smapSet m (gs "usage") ((jsonParse ahead.json).getD .null)
    else m) ev

/-- AnthropicEmitter.EmitStreamChunk (emit_anthropic_stream.go:7-112):
    returns the event of the first event-producing instruction; tool
    deltas without a name or arguments key (or with unparseable JSON)
    fall through to the next instruction; an empty chunk yields `ping`. -/
def emitStreamChunkAnthropic (prog : Program) : Json :=
  go prog.code
where
  go : List Instruction → Json
    | [] => .obj [(gs "type", .str (gs "ping"))]
    | inst :: rest =>
      match inst.op with
      | .STREAM_START =>
          .obj [(gs "type", .str (gs "message_start")),
                (gs "message", .obj (msgStartObj prog.code))]
      | .STREAM_DELTA =>
          .obj [(gs "type", .str (gs "content_block_delta")),
                (gs "delta", .obj [(gs "type", .str (gs "text_delta")),
                                   (gs "text", .str inst.str)])]
      | .STREAM_THINK_DELTA =>
          .obj [(gs "type", .str (gs "content_block_delta")),
                (gs "delta", .obj [(gs "type", .str (gs "thinking_delta")),
                                   (gs "thinking", .str inst.str)])]
      | .STREAM_TOOL_DELTA =>
          (match jsonParse inst.json with
           | some (.obj td) =>
               if hasKeyF td (gs "name") then
                 .obj [(gs "type", .str (gs "content_block_start")),
                       (gs "index", (lookupLast td (gs "index")).getD .null),
                       (gs "content_block",
                        .obj [(gs "type", .str (gs "tool_use")),
                              (gs "id", (lookupLast td (gs "id")).getD .null),
                              (gs "name", (lookupLast td (gs "name")).getD .null)])]
               else if hasKeyF td (gs "arguments") then
                 .obj [(gs "type", .str (gs "content_block_delta")),
                       (gs "index", (lookupLast td (gs "index")).getD .null),
                       (gs "delta",
                        .obj [(gs "type", .str (gs "input_json_delta")),
                              (gs "partial_json",
                               (lookupLast td (gs "arguments")).getD .null)])]
               else go rest
           | _ => go rest)
      | .RESP_DONE =>
          .obj (usageLookahead prog.code
            [(gs "type", .str (gs "message_delta")),
             (gs "delta", .obj [(gs "stop_reason", .str (anthropicStopReasonOut inst.str))])])
      | .STREAM_END => .obj [(gs "type", .str (gs "message_stop"))]
      | _ => go rest

/-- The RESP_DONE → finishReason mapping of GoogleGenAIEmitter
    (emit_google_genai.go:281-289 and 344-352). -/
def googleFinishOut (v : GoStr) : GoStr :=
  if v = gs "stop" then gs "STOP"
  else if v = gs "length" then gs "MAX_TOKENS"
  else v

/-- The canonical-usage unmarshal plus re-map of the Google emitters
    (members in Go's sorted-key order). -/
def usageStructToGoogle (j : GoStr) : Option Json :=
  let build := fun (p c t : Int) =>
    Json.obj [(gs "candidatesTokenCount", .num (intDec c)),
              (gs "promptTokenCount", .num (intDec p)),
              (gs "totalTokenCount", .num (intDec t))]
  match jsonParse j with
  | some (.obj fs) =>
      (match goIntField (lookupLast fs (gs "prompt_tokens")),
             goIntField (lookupLast fs (gs "completion_tokens")),
             goIntField (lookupLast fs (gs "total_tokens")) with
       | some p, some c, some t => some (build p c t)
       | _, _, _ => none)
  | some .null => some (build 0 0 0)
  | _ => none

/-- One loop iteration of GoogleGenAIEmitter.EmitStreamChunk over the
    state (result object, parts, finishReason).  A `functionCall` part is
    produced only by the STREAM_TOOL_DELTA case.  (When `arguments` is
    present but not a JSON string the Go code's `args.(string)` assertion
    panics; that path is unreachable from the converter, whose drained
    deltas always carry string arguments.) -/
def gStep (st : List (GoStr × Json) × List Json × GoStr) (inst : Instruction) :
    List (GoStr × Json) × List Json × GoStr :=
  let (result, parts, finishReason) := st
  match inst.op with
  | .RESP_MODEL =>
      (smapSet result (gs "modelVersion") (.str inst.str), parts, finishReason)
  | .STREAM_DELTA =>
      (result, parts ++ [.obj [(gs "text", .str inst.str)]], finishReason)
  | .STREAM_TOOL_DELTA =>
      (match jsonParse inst.json with
       | some (.obj td) =>
           let fc0 : List (GoStr × Json) := []
           let fc1 := match lookupLast td (gs "name") with
             | some v => smapSet fc0 (gs "name") v
             | none => fc0
           let fc2 := match lookupLast td (gs "arguments") with
             | some (.str s) => smapSet fc1 (gs "args") ((jsonParse s).getD .null)
             | some _ => fc1
             | none => fc1
           (result, parts ++ [.obj [(gs "functionCall", .obj fc2)]], finishReason)
       | some .null =>
           (result, parts ++ [.obj [(gs "functionCall", .obj [])]], finishReason)
       | _ => (result, parts, finishReason))
  | .RESP_DONE => (result, parts, googleFinishOut inst.str)
  | .USAGE =>
      (match usageStructToGoogle inst.json with
       | some u => (smapSet result (gs "usageMetadata") u, parts, finishReason)
       | none => (result, parts, finishReason))
  | _ => st

/-- GoogleGenAIEmitter.EmitStreamChunk (emit_google_genai.go:317-383). -/
def emitStreamChunkGoogle (prog : Program) : Json :=
  let st := prog.code.foldl gStep ([], [], [])
  let (result, parts, finishReason) := st
  let cand0 : List (GoStr × Json) := [(gs "index", .num (gs "0"))]
  let cand1 :=
    if parts.length > 0 then
      smapSet cand0 (gs "content")
        (.obj [(gs "role", .str (gs "model")), (gs "parts", .arr parts)])
    else cand0
  let cand2 :=
    if finishReason ≠ [] then smapSet cand1 (gs "finishReason") (.str finishReason)
    else cand1
  .obj (smapSet result (gs "candidates") (.arr [.obj cand2]))

/-- A choice entry of the OpenAI stream emitter: either the choice holding
    the (mutable) delta map — identified by its slot, since the Go map is
    mutated through the `delta` pointer after being appended — or a
    finish-reason choice. -/
inductive OChoice where
  | deltaRef (slot : Nat)
  | finishR (reason : GoStr)

/-- State of ChatCompletionsEmitter.EmitStreamChunk: the result object,
    the choice list, the delta-map slots and the current delta slot. -/
structure OEmitState where
  result : List (GoStr × Json)
  choices : List OChoice := []
  slots : List (List (GoStr × Json)) := []
  cur : Option Nat := none

/-- Allocate a fresh delta map and append its choice. -/
def oNewDelta (st : OEmitState) (init : List (GoStr × Json)) : OEmitState :=
  { st with slots := st.slots ++ [init], cur := some st.slots.length,
            choices := st.choices ++ [.deltaRef st.slots.length] }

/-- Mutate the current delta map (callers create it first). -/
def oSetDelta (st : OEmitState) (k : GoStr) (v : Json) : OEmitState :=
  match st.cur with
  | some i => { st with slots := st.slots.set i (smapSet (st.slots.getD i []) k v) }
  | none => st

/-- The delta's `tool_calls` entry rebuilt from one unmarshalled tool
    delta (the tc/fn construction of the STREAM_TOOL_DELTA case). -/
def oToolCallsVal (td : List (GoStr × Json)) : Json :=
  let tc0 := [(gs "index", (lookupLast td (gs "index")).getD .null),
              (gs "type", Json.str (gs "function"))]
  let tc1 := match lookupLast td (gs "id") with
    | some v => smapSet tc0 (gs "id") v
    | none => tc0
  let fn0 : List (GoStr × Json) := []
  let fn1 := match lookupLast td (gs "name") with
    | some v => smapSet fn0 (gs "name") v
    | none => fn0
  let fn2 := match lookupLast td (gs "arguments") with
    | some v => smapSet fn1 (gs "arguments") v
    | none => fn1
  let tc2 := if fn2.length > 0 then smapSet tc1 (gs "function") (.obj fn2) else tc1
  .arr [.obj tc2]

/-- One loop iteration of ChatCompletionsEmitter.EmitStreamChunk. -/
def oStep (st : OEmitState) (inst : Instruction) : OEmitState :=
  match inst.op with
  | .RESP_ID => { st with result := smapSet st.result (gs "id") (.str inst.str) }
  | .RESP_MODEL => { st with result := smapSet st.result (gs "model") (.str inst.str) }
  | .USAGE =>
      { st with result := smapSet st.result (gs "usage") ((jsonParse inst.json).getD .null) }
  | .STREAM_START => oNewDelta st [(gs "role", .str (gs "assistant"))]
  | .STREAM_DELTA =>
      let st1 := if st.cur = none then oNewDelta st [] else st
      oSetDelta st1 (gs "content") (.str inst.str)
  | .STREAM_TOOL_DELTA =>
      let st1 := if st.cur = none then oNewDelta st [] else st
      (match (jsonParse inst.json).map
          (fun j => match j with | .obj td => some td | .null => some [] | _ => none) with
       | some (some td) => oSetDelta st1 (gs "tool_calls") (oToolCallsVal td)
       | _ => st1)
  | .RESP_DONE => { st with choices := st.choices ++ [.finishR inst.str] }
  | _ => st

/-- ChatCompletionsEmitter.EmitStreamChunk (emit_openai_chat.go:347-434). -/
def emitStreamChunkOpenAI (prog : Program) : Json :=
  let st0 : OEmitState := { result := [(gs "object", Json.str (gs "chat.completion.chunk"))] }
  let st := prog.code.foldl oStep st0
  let choicesJson := st.choices.map (fun c =>
    match c with
    | .deltaRef i =>
        Json.obj [(gs "index", .num (gs "0")), (gs "delta", .obj (st.slots.getD i []))]
    | .finishR r =>
        Json.obj [(gs "index", .num (gs "0")), (gs "delta", .obj []),
                  (gs "finish_reason", .str r)])
  .obj (smapSet st.result (gs "choices") (.arr choicesJson))

/- ─── Converter core (pushProgramLocked / Flush) ────────────────────────── -/

def targetNeedsSplitting (c : StreamConverter) : Bool :=
  c.targetStyle == StyleAnthropic

def processInstructions (c : StreamConverter) (prog : Program) :
    StreamConverter × List Program :=
  if targetNeedsSplitting c then (c, splitForTarget prog)
  else if c.bufferTools then processWithBuffering c prog
  else (c, [prog])

/-- The target's stream-chunk emitter (the three styles that have one;
    NewStreamConverter rejects the others at construction time). -/
def emitChunk (c : StreamConverter) (prog : Program) : Json :=
  if c.targetStyle == StyleAnthropic then emitStreamChunkAnthropic prog
  else if c.targetStyle == StyleGoogleGenAI then emitStreamChunkGoogle prog
  else if c.targetStyle == StyleChatCompletions then emitStreamChunkOpenAI prog
  else .null

/-- Result of one push: the new converter state, the emitted chunks, and
    the final value of the Program object the caller passed in (under the
    default passthrough strategy the single emittable unit *is* the
    caller's program, which injectMetadata mutates in place by
    `prog.Code = append(prepend, prog.Code...)`; the splitting and
    buffering strategies build fresh unit programs and leave the caller's
    object untouched). -/
structure PushResult where
  conv : StreamConverter
  outputs : List Json
  callerProg : Program

/-- pushProgramLocked: the shared core of Push and PushProgram. -/
def pushProgramLocked (c : StreamConverter) (prog : Program) : PushResult :=
  if prog.code.length = 0 then ⟨c, [], prog⟩
  else
    let c1 := trackMetadata c prog
    let r := processInstructions c1 prog
    let c2 := r.1
    let units := r.2
    let outs := units.map (fun u => emitChunk c2 (injectMetadata c2 u))
    let callerProg :=
      if targetNeedsSplitting c2 = false ∧ c2.bufferTools = false then
        injectMetadata c2 prog
      else prog
    ⟨c2, outs, callerProg⟩

/-- Flush: emit buffered tool calls (with metadata injection) and clear
    the tool buffers; safe to call repeatedly. -/
def flushConv (c : StreamConverter) : StreamConverter × List Json :=
  match drainPendingTools c with
  | (c2, none) => (c2, [])
  | (c2, some toolProg) => (c2, [emitChunk c2 (injectMetadata c2 toolProg)])

/-- A sequence of pushes, collecting each push's outputs. -/
def pushSeq (c : StreamConverter) : List Program → StreamConverter × List (List Json)
  | [] => (c, [])
  | p :: ps =>
      let r := pushProgramLocked c p
      let (c2, outs) := pushSeq r.conv ps
      (c2, r.outputs :: outs)

/- ─── Finish-reason mapping functions (for C7) ──────────────────────────── -/

/-- The stop_reason → RESP_DONE mapping of AnthropicParser.ParseResponse
    (its switch on `sr`: end_turn→stop, tool_use→tool_calls,
    max_tokens→length, default passthrough). -/
def anthropicStopReasonIn (sr : GoStr) : GoStr :=
  if sr = gs "end_turn" then gs "stop"
  else if sr = gs "tool_use" then gs "tool_calls"
  else if sr = gs "max_tokens" then gs "length"
  else sr

/-- The finishReason → RESP_DONE mapping of GoogleGenAIParser.ParseResponse
    (STOP→stop, MAX_TOKENS→length, default passthrough). -/
def googleFinishIn (fr : GoStr) : GoStr :=
  if fr = gs "STOP" then gs "stop"
  else if fr = gs "MAX_TOKENS" then gs "length"
  else fr

/-- ChatCompletionsEmitter.EmitResponse writes
    `currentChoice["finish_reason"] = inst.Str` verbatim. -/
def openaiFinishOut (v : GoStr) : GoStr := v

/-- ChatCompletionsParser.ParseResponse emits
    `RESP_DONE choice.FinishReason` verbatim (for non-empty values). -/
def openaiFinishIn (v : GoStr) : GoStr := v

/-- C7.  Finish-reason closure: for each canonical finish reason, the
    vendor→IR→vendor composition of the emit-side and parse-side mapping
    switches is the identity, for each vendor with both a response
    emitter and a response parser.  (The emitters place the mapped value
    exactly where the corresponding parser reads it: Anthropic's
    top-level `stop_reason`, Google's `candidates[i].finishReason`,
    OpenAI's `choices[i].finish_reason`.) -/
theorem finish_reason_closure (v : GoStr)
    (hv : v = gs "stop" ∨ v = gs "tool_calls" ∨ v = gs "length") :
    anthropicStopReasonIn (anthropicStopReasonOut v) = v
  ∧ googleFinishIn (googleFinishOut v) = v
  ∧ openaiFinishIn (openaiFinishOut v) = v := by
  rcases hv with h | h | h <;> subst h <;> exact ⟨by decide, by decide, by decide⟩

/-- Witness for C7 at the canonical value "tool_calls". -/
theorem finish_reason_closure_witness :
    anthropicStopReasonIn (anthropicStopReasonOut (gs "tool_calls")) = gs "tool_calls"
  ∧ googleFinishIn (googleFinishOut (gs "tool_calls")) = gs "tool_calls"
  ∧ openaiFinishIn (openaiFinishOut (gs "tool_calls")) = gs "tool_calls" :=
  finish_reason_closure (gs "tool_calls") (Or.inr (Or.inl rfl))

/- ─── Converter state-threading lemmas ─────────────────────────────────── -/

theorem trackMetadata_id_aux :
    ∀ (code : List Instruction) (bufs : List GoStr) (c : StreamConverter),
      (∀ i ∈ code, i.op ≠ Opcode.RESP_ID ∧ i.op ≠ Opcode.RESP_MODEL) →
      trackMetadata c ⟨code, bufs⟩ = c := by
  intro code
  induction code with
  | nil => intro bufs c h; rfl
  | cons i rest ih =>
      intro bufs c h
      have hrest : ∀ j ∈ rest, j.op ≠ Opcode.RESP_ID ∧ j.op ≠ Opcode.RESP_MODEL :=
        fun j hj => h j (List.mem_cons_of_mem _ hj)
      have hstep : trackMetadata c ⟨i :: rest, bufs⟩ = trackMetadata c ⟨rest, bufs⟩ := by
        simp only [trackMetadata, List.foldl_cons]
        congr 1
        have h1 := (h i (by simp)).1
        have h2 := (h i (by simp)).2
        rcases i with ⟨op, sv, nv, iv, jv, kv, rv⟩
        cases op <;> first | rfl | simp_all [tmStep]
      rw [hstep]
      exact ih bufs c hrest

theorem trackMetadata_id (c : StreamConverter) (prog : Program)
    (h : ∀ i ∈ prog.code, i.op ≠ Opcode.RESP_ID ∧ i.op ≠ Opcode.RESP_MODEL) :
    trackMetadata c prog = c := by
  obtain ⟨code, bufs⟩ := prog
  exact trackMetadata_id_aux code bufs c h

/-- C10.  Under the default passthrough strategy the single emittable
    unit is the very Program object the caller passed to PushProgram, and
    injectMetadata mutates it in place: when the converter has previously
    seen RESP_ID/RESP_MODEL values and the pushed program carries
    neither, the caller's program comes back with a RESP_ID and a
    RESP_MODEL instruction prepended to its Code — observably different
    from what the caller passed in. -/
theorem pushProgram_mutates_caller_program (c : StreamConverter) (prog : Program)
    (hsplit : targetNeedsSplitting c = false) (hbt : c.bufferTools = false)
    (hid : c.respID ≠ []) (hmodel : c.respModel ≠ [])
    (hnometa : ∀ i ∈ prog.code, i.op ≠ Opcode.RESP_ID ∧ i.op ≠ Opcode.RESP_MODEL)
    (hne : prog.code ≠ []) :
    (pushProgramLocked c prog).callerProg =
      { prog with code := { op := Opcode.RESP_ID, str := c.respID } ::
                          ({ op := Opcode.RESP_MODEL, str := c.respModel } :: prog.code) }
  ∧ (pushProgramLocked c prog).callerProg ≠ prog := by
  have htrack : trackMetadata c prog = c := trackMetadata_id c prog hnometa
  have hlen : prog.code.length ≠ 0 := by
    intro h0; exact hne (List.length_eq_zero.mp h0)
  have hhasID : hasOpIn prog Opcode.RESP_ID = false := by
    simp only [hasOpIn, List.any_eq_false, decide_eq_true_eq]
    intro i hi; exact (hnometa i hi).1
  have hhasModel : hasOpIn prog Opcode.RESP_MODEL = false := by
    simp only [hasOpIn, List.any_eq_false, decide_eq_true_eq]
    intro i hi; exact (hnometa i hi).2
  have hinj : injectMetadata c prog =
      { prog with code := { op := Opcode.RESP_ID, str := c.respID } ::
                          ({ op := Opcode.RESP_MODEL, str := c.respModel } :: prog.code) } := by
    unfold injectMetadata
    rw [hhasID, hhasModel]
    simp [hid, hmodel]
  have hproc : processInstructions c prog = (c, [prog]) := by
    unfold processInstructions
    rw [hsplit]
    simp [hbt]
  have hcaller : (pushProgramLocked c prog).callerProg = injectMetadata c prog := by
    unfold pushProgramLocked
    rw [if_neg hlen]
    simp only [htrack, hproc]
    rw [if_pos ⟨hsplit, hbt⟩]
  refine ⟨hcaller.trans hinj, ?_⟩
  rw [hcaller.trans hinj]
  intro heq
  have := congrArg (fun p => p.code.length) heq
  simp at this
  omega

/-- Witness for C10 at a concrete input. -/
theorem pushProgram_mutates_caller_program_witness :
    (pushProgramLocked
        { sourceStyle := StyleAnthropic, targetStyle := StyleChatCompletions,
          respID := gs "id9", respModel := gs "m9" }
        { code := [{ op := Opcode.STREAM_DELTA, str := gs "x" }] }).callerProg =
      { code := [{ op := Opcode.RESP_ID, str := gs "id9" },
                 { op := Opcode.RESP_MODEL, str := gs "m9" },
                 { op := Opcode.STREAM_DELTA, str := gs "x" }] } ∧
    (pushProgramLocked
        { sourceStyle := StyleAnthropic, targetStyle := StyleChatCompletions,
          respID := gs "id9", respModel := gs "m9" }
        { code := [{ op := Opcode.STREAM_DELTA, str := gs "x" }] }).callerProg ≠
      { code := [{ op := Opcode.STREAM_DELTA, str := gs "x" }] } :=
  pushProgram_mutates_caller_program _ _ (by decide) rfl (by decide) (by decide)
    (by decide) (by decide)

/-- C5 (counterexample).  Source OpenAI Chat Completions, target Anthropic
    Messages.  The first push carries RESP_ID "msg_01" and RESP_MODEL
    "claude-3-opus" (with STREAM_START).  The second push carries a text
    delta; the converter injects RESP_ID/RESP_MODEL instructions into the
    unit, but the Anthropic stream emitter renders a text delta as a
    `content_block_delta` event, whose schema carries neither a
    response-id field nor a model field — the emitted chunk contains no
    "id" and no "model" key at any depth, refuting the claim for this
    target. -/
theorem anthropic_target_chunk_lacks_id_model_counterexample :
    (pushProgramLocked
        (pushProgramLocked (NewStreamConverter StyleChatCompletions StyleAnthropic)
          { code := [{ op := Opcode.RESP_ID, str := gs "msg_01" },
                     { op := Opcode.RESP_MODEL, str := gs "claude-3-opus" },
                     { op := Opcode.STREAM_START }] }).conv
        { code := [{ op := Opcode.STREAM_DELTA, str := gs "Hello" }] }).outputs =
      [Json.obj [(gs "type", .str (gs "content_block_delta")),
                 (gs "delta", .obj [(gs "type", .str (gs "text_delta")),
                                    (gs "text", .str (gs "Hello"))])]]
  ∧ (pushProgramLocked
        (pushProgramLocked (NewStreamConverter StyleChatCompletions StyleAnthropic)
          { code := [{ op := Opcode.RESP_ID, str := gs "msg_01" },
                     { op := Opcode.RESP_MODEL, str := gs "claude-3-opus" },
                     { op := Opcode.STREAM_START }] }).conv
        { code := [{ op := Opcode.STREAM_DELTA, str := gs "Hello" }] }).outputs.map
      (fun out => (containsKeyDeep (gs "id") out, containsKeyDeep (gs "model") out)) =
      [(false, false)] :=
  ⟨rfl, rfl⟩

/- ─── SMap lemmas (Go map semantics) ────────────────────────────────────── -/

theorem hasKeyF_smapSet_self (m : List (GoStr × Json)) (k : GoStr) (v : Json) :
    hasKeyF (smapSet m k v) k = true := by
  induction m with
  | nil => simp [smapSet, hasKeyF]
  | cons kv rest ih =>
      obtain ⟨k2, v2⟩ := kv
      by_cases h : k2 = k
      · simp [smapSet, h, hasKeyF]
      · simp only [smapSet, hasKeyF] at *
        simp [h, ih]

theorem hasKeyF_smapSet_mono (m : List (GoStr × Json)) (k k2 : GoStr) (v : Json)
    (h : hasKeyF m k2 = true) : hasKeyF (smapSet m k v) k2 = true := by
  induction m with
  | nil => simp [hasKeyF] at h
  | cons kv rest ih =>
      obtain ⟨ka, va⟩ := kv
      simp only [hasKeyF, List.any_cons, Bool.or_eq_true, decide_eq_true_eq] at h
      by_cases hk : ka = k
      · subst hk
        rw [show smapSet ((ka, va) :: rest) ka v = (ka, v) :: rest from by simp [smapSet]]
        simp only [hasKeyF, List.any_cons, Bool.or_eq_true, decide_eq_true_eq]
        rcases h with h | h
        · exact Or.inl h
        · exact Or.inr (by simpa [hasKeyF] using h)
      · simp only [smapSet, if_neg hk, hasKeyF, List.any_cons, Bool.or_eq_true,
                   decide_eq_true_eq]
        rcases h with h | h
        · exact Or.inl h
        · exact Or.inr (by simpa [hasKeyF] using ih (by simpa [hasKeyF] using h))

theorem countKey_smapSet_of_has (m : List (GoStr × Json)) (k : GoStr) (v : Json)
    (h : hasKeyF m k = true) : countKey (smapSet m k v) k = countKey m k := by
  induction m with
  | nil => simp [hasKeyF] at h
  | cons kv rest ih =>
      obtain ⟨ka, va⟩ := kv
      by_cases hk : ka = k
      · subst hk
        simp [smapSet, countKey, List.countP_cons]
      · simp only [hasKeyF, List.any_cons, Bool.or_eq_true, decide_eq_true_eq] at h
        rcases h with h | h
        · exact absurd h hk
        · simp only [smapSet, if_neg hk, countKey, List.countP_cons]
          have := ih (by simpa [hasKeyF] using h)
          simp only [countKey] at this
          omega

theorem countKey_smapSet_of_not (m : List (GoStr × Json)) (k : GoStr) (v : Json)
    (h : hasKeyF m k = false) : countKey (smapSet m k v) k = countKey m k + 1 := by
  induction m with
  | nil => simp [smapSet, countKey, List.countP_cons]
  | cons kv rest ih =>
      obtain ⟨ka, va⟩ := kv
      simp only [hasKeyF, List.any_cons, Bool.or_eq_false_iff, decide_eq_false_iff_not] at h
      obtain ⟨h1, h2⟩ := h
      simp only [smapSet, if_neg h1, countKey, List.countP_cons]
      have := ih (by simpa [hasKeyF] using h2)
      simp only [countKey] at this
      simp [h1, this]

theorem countKey_smapSet_other (m : List (GoStr × Json)) (k k2 : GoStr) (v : Json)
    (h : k2 ≠ k) : countKey (smapSet m k v) k2 = countKey m k2 := by
  induction m with
  | nil => simp [smapSet, countKey, List.countP_cons, Ne.symm h]
  | cons kv rest ih =>
      obtain ⟨ka, va⟩ := kv
      by_cases hk : ka = k
      · subst hk
        simp [smapSet, countKey, List.countP_cons, Ne.symm h, h]
      · simp only [smapSet, if_neg hk, countKey, List.countP_cons]
        simp only [countKey] at ih
        omega

theorem hasKeyF_true_iff_countKey_pos (m : List (GoStr × Json)) (k : GoStr) :
    hasKeyF m k = true ↔ 0 < countKey m k := by
  induction m with
  | nil => simp [hasKeyF, countKey]
  | cons kv rest ih =>
      obtain ⟨ka, va⟩ := kv
      simp only [hasKeyF, List.any_cons, Bool.or_eq_true, decide_eq_true_eq,
                 countKey, List.countP_cons] at *
      by_cases hk : ka = k <;> simp [hk, ih]

/-- All key counts at most one (maps have unique keys). -/
def SMapWF (m : List (GoStr × Json)) : Prop := ∀ k, countKey m k ≤ 1

theorem SMapWF_smapSet (m : List (GoStr × Json)) (k : GoStr) (v : Json)
    (h : SMapWF m) : SMapWF (smapSet m k v) := by
  intro k2
  by_cases hk : k2 = k
  · subst hk
    cases hh : hasKeyF m k2 with
    | true => rw [countKey_smapSet_of_has m k2 v hh]; exact h k2
    | false =>
        rw [countKey_smapSet_of_not m k2 v hh]
        have : ¬(0 < countKey m k2) := by
          rw [← hasKeyF_true_iff_countKey_pos]; simp [hh]
        omega
  · rw [countKey_smapSet_other m k k2 v hk]; exact h k2

theorem SMapWF_singleton (k : GoStr) (v : Json) : SMapWF [(k, v)] := by
  intro k2
  simp only [countKey, List.countP_cons, List.countP_nil]
  by_cases h : k = k2 <;> simp [h]

/- ─── OpenAI stream-emitter result-object lemmas (for C5 amended) ──────── -/

theorem oSetDelta_result (st : OEmitState) (k : GoStr) (v : Json) :
    (oSetDelta st k v).result = st.result := by
  unfold oSetDelta
  cases st.cur <;> rfl

/-- Every step leaves the result object alone or assigns one key. -/
theorem oStep_result_shape (st : OEmitState) (inst : Instruction) :
    (oStep st inst).result = st.result ∨
    ∃ k v, (oStep st inst).result = smapSet st.result k v := by
  have hst1 : (if st.cur = none then oNewDelta st [] else st).result = st.result := by
    by_cases hcur : st.cur = none <;> simp [hcur, oNewDelta]
  rcases inst with ⟨op, sv, nv, iv, jv, kv, rv⟩
  cases op
  case RESP_ID => exact Or.inr ⟨_, _, rfl⟩
  case RESP_MODEL => exact Or.inr ⟨_, _, rfl⟩
  case USAGE => exact Or.inr ⟨_, _, rfl⟩
  case STREAM_START => exact Or.inl rfl
  case STREAM_DELTA =>
      refine Or.inl ?_
      show (oSetDelta (if st.cur = none then oNewDelta st [] else st) _ _).result = _
      rw [oSetDelta_result]
      exact hst1
  case STREAM_TOOL_DELTA =>
      refine Or.inl ?_
      simp only [oStep]
      cases hj : (jsonParse jv).map
          (fun j => match j with | Json.obj td => some td | Json.null => some [] | _ => none) with
      | none => exact hst1
      | some o =>
          cases o with
          | none => exact hst1
          | some td => rw [oSetDelta_result]; exact hst1
  all_goals exact Or.inl rfl

theorem oStep_result_has_mono (st : OEmitState) (inst : Instruction) (k : GoStr)
    (h : hasKeyF st.result k = true) : hasKeyF (oStep st inst).result k = true := by
  rcases oStep_result_shape st inst with hs | ⟨k2, v2, hs⟩
  · rw [hs]; exact h
  · rw [hs]; exact hasKeyF_smapSet_mono _ _ _ _ h

theorem oStep_result_wf (st : OEmitState) (inst : Instruction)
    (h : SMapWF st.result) : SMapWF (oStep st inst).result := by
  rcases oStep_result_shape st inst with hs | ⟨k2, v2, hs⟩
  · rw [hs]; exact h
  · rw [hs]; exact SMapWF_smapSet _ _ _ h

theorem oFold_result_has_mono (code : List Instruction) (st : OEmitState) (k : GoStr)
    (h : hasKeyF st.result k = true) :
    hasKeyF (code.foldl oStep st).result k = true := by
  induction code generalizing st with
  | nil => exact h
  | cons i rest ih =>
      rw [List.foldl_cons]
      exact ih (oStep st i) (oStep_result_has_mono st i k h)

theorem oFold_result_wf (code : List Instruction) (st : OEmitState)
    (h : SMapWF st.result) : SMapWF (code.foldl oStep st).result := by
  induction code generalizing st with
  | nil => exact h
  | cons i rest ih =>
      rw [List.foldl_cons]
      exact ih (oStep st i) (oStep_result_wf st i h)

theorem oStep_RESP_ID (st : OEmitState) (inst : Instruction) (h : inst.op = .RESP_ID) :
    (oStep st inst).result = smapSet st.result (gs "id") (.str inst.str) := by
  rcases inst with ⟨op, sv, nv, iv, jv, kv, rv⟩
  obtain rfl : op = .RESP_ID := h
  rfl

theorem oStep_RESP_MODEL (st : OEmitState) (inst : Instruction)
    (h : inst.op = .RESP_MODEL) :
    (oStep st inst).result = smapSet st.result (gs "model") (.str inst.str) := by
  rcases inst with ⟨op, sv, nv, iv, jv, kv, rv⟩
  obtain rfl : op = .RESP_MODEL := h
  rfl

theorem oFold_result_has_id (code : List Instruction) (st : OEmitState)
    (h : ∃ i ∈ code, i.op = Opcode.RESP_ID) :
    hasKeyF (code.foldl oStep st).result (gs "id") = true := by
  induction code generalizing st with
  | nil => simp at h
  | cons i rest ih =>
      rw [List.foldl_cons]
      rcases h with ⟨j, hj, hop⟩
      rcases List.mem_cons.mp hj with rfl | hmem
      · refine oFold_result_has_mono rest (oStep st j) (gs "id") ?_
        rw [oStep_RESP_ID st j hop]
        exact hasKeyF_smapSet_self _ _ _
      · exact ih (oStep st i) ⟨j, hmem, hop⟩

theorem oFold_result_has_model (code : List Instruction) (st : OEmitState)
    (h : ∃ i ∈ code, i.op = Opcode.RESP_MODEL) :
    hasKeyF (code.foldl oStep st).result (gs "model") = true := by
  induction code generalizing st with
  | nil => simp at h
  | cons i rest ih =>
      rw [List.foldl_cons]
      rcases h with ⟨j, hj, hop⟩
      rcases List.mem_cons.mp hj with rfl | hmem
      · refine oFold_result_has_mono rest (oStep st j) (gs "model") ?_
        rw [oStep_RESP_MODEL st j hop]
        exact hasKeyF_smapSet_self _ _ _
      · exact ih (oStep st i) ⟨j, hmem, hop⟩

/-- The OpenAI stream emitter's chunk carries the id and model fields
    exactly once whenever the program contains RESP_ID and RESP_MODEL
    instructions. -/
theorem emitStreamChunkOpenAI_id_model (prog : Program)
    (hid : ∃ i ∈ prog.code, i.op = Opcode.RESP_ID)
    (hmodel : ∃ i ∈ prog.code, i.op = Opcode.RESP_MODEL) :
    ∃ m, emitStreamChunkOpenAI prog = .obj m ∧
      countKey m (gs "id") = 1 ∧ countKey m (gs "model") = 1 := by
  unfold emitStreamChunkOpenAI
  set st0 : OEmitState := { result := [(gs "object", Json.str (gs "chat.completion.chunk"))] }
    with hst0
  set stF := prog.code.foldl oStep st0 with hstF
  have hwf : SMapWF stF.result :=
    oFold_result_wf prog.code st0 (SMapWF_singleton _ _)
  have hhid : hasKeyF stF.result (gs "id") = true := oFold_result_has_id prog.code st0 hid
  have hhm : hasKeyF stF.result (gs "model") = true :=
    oFold_result_has_model prog.code st0 hmodel
  refine ⟨smapSet stF.result (gs "choices") _, rfl, ?_, ?_⟩
  · rw [countKey_smapSet_other _ _ _ _ (by decide)]
    have hpos := (hasKeyF_true_iff_countKey_pos _ _).mp hhid
    have := hwf (gs "id")
    omega
  · rw [countKey_smapSet_other _ _ _ _ (by decide)]
    have hpos := (hasKeyF_true_iff_countKey_pos _ _).mp hhm
    have := hwf (gs "model")
    omega

/- ─── trackMetadata / injectMetadata lemmas (for C5 amended) ────────────── -/

theorem tmStep_fields (c : StreamConverter) (i : Instruction) :
    (tmStep c i).targetStyle = c.targetStyle ∧ (tmStep c i).bufferTools = c.bufferTools := by
  rcases i with ⟨op, sv, nv, iv, jv, kv, rv⟩
  cases op <;> exact ⟨rfl, rfl⟩

theorem trackMetadata_fields (c : StreamConverter) (p : Program) :
    (trackMetadata c p).targetStyle = c.targetStyle ∧
    (trackMetadata c p).bufferTools = c.bufferTools := by
  obtain ⟨code, bufs⟩ := p
  simp only [trackMetadata]
  induction code generalizing c with
  | nil => exact ⟨rfl, rfl⟩
  | cons i rest ih =>
      rw [List.foldl_cons]
      obtain ⟨h1, h2⟩ := ih (tmStep c i)
      obtain ⟨h3, h4⟩ := tmStep_fields c i
      exact ⟨h1.trans h3, h2.trans h4⟩

theorem tmStep_respID_ne (c : StreamConverter) (i : Instruction)
    (h : i.op = Opcode.RESP_ID → i.str ≠ []) (hc : c.respID ≠ []) :
    (tmStep c i).respID ≠ [] := by
  rcases i with ⟨op, sv, nv, iv, jv, kv, rv⟩
  cases op <;> first | exact hc | exact h rfl

theorem tmStep_respModel_ne (c : StreamConverter) (i : Instruction)
    (h : i.op = Opcode.RESP_MODEL → i.str ≠ []) (hc : c.respModel ≠ []) :
    (tmStep c i).respModel ≠ [] := by
  rcases i with ⟨op, sv, nv, iv, jv, kv, rv⟩
  cases op <;> first | exact hc | exact h rfl

theorem tmFold_respID_ne (code : List Instruction) :
    ∀ (c : StreamConverter),
      (∀ i ∈ code, i.op = Opcode.RESP_ID → i.str ≠ []) → c.respID ≠ [] →
      (code.foldl tmStep c).respID ≠ [] := by
  induction code with
  | nil => intro c _ hc; exact hc
  | cons i rest ih =>
      intro c h hc
      rw [List.foldl_cons]
      exact ih (tmStep c i) (fun j hj => h j (List.mem_cons_of_mem _ hj))
        (tmStep_respID_ne c i (h i (by simp)) hc)

theorem tmFold_respModel_ne (code : List Instruction) :
    ∀ (c : StreamConverter),
      (∀ i ∈ code, i.op = Opcode.RESP_MODEL → i.str ≠ []) → c.respModel ≠ [] →
      (code.foldl tmStep c).respModel ≠ [] := by
  induction code with
  | nil => intro c _ hc; exact hc
  | cons i rest ih =>
      intro c h hc
      rw [List.foldl_cons]
      exact ih (tmStep c i) (fun j hj => h j (List.mem_cons_of_mem _ hj))
        (tmStep_respModel_ne c i (h i (by simp)) hc)

theorem tmStep_respID_set (c : StreamConverter) (i : Instruction)
    (h : i.op = Opcode.RESP_ID) : (tmStep c i).respID = i.str := by
  rcases i with ⟨op, sv, nv, iv, jv, kv, rv⟩
  obtain rfl : op = Opcode.RESP_ID := h
  rfl

theorem tmStep_respModel_set (c : StreamConverter) (i : Instruction)
    (h : i.op = Opcode.RESP_MODEL) : (tmStep c i).respModel = i.str := by
  rcases i with ⟨op, sv, nv, iv, jv, kv, rv⟩
  obtain rfl : op = Opcode.RESP_MODEL := h
  rfl

theorem tmFold_respID_est (code : List Instruction) :
    ∀ (c : StreamConverter),
      (∀ i ∈ code, i.op = Opcode.RESP_ID → i.str ≠ []) →
      (∃ i ∈ code, i.op = Opcode.RESP_ID) →
      (code.foldl tmStep c).respID ≠ [] := by
  induction code with
  | nil => intro c _ hex; simp at hex
  | cons i rest ih =>
      intro c h hex
      rw [List.foldl_cons]
      rcases hex with ⟨j, hj, hop⟩
      rcases List.mem_cons.mp hj with rfl | hmem
      · refine tmFold_respID_ne rest (tmStep c j)
          (fun k hk => (h k (List.mem_cons_of_mem _ hk))) ?_
        rw [tmStep_respID_set c j hop]
        exact h j (by simp) hop
      · exact ih (tmStep c i) (fun k hk => h k (List.mem_cons_of_mem _ hk)) ⟨j, hmem, hop⟩

theorem tmFold_respModel_est (code : List Instruction) :
    ∀ (c : StreamConverter),
      (∀ i ∈ code, i.op = Opcode.RESP_MODEL → i.str ≠ []) →
      (∃ i ∈ code, i.op = Opcode.RESP_MODEL) →
      (code.foldl tmStep c).respModel ≠ [] := by
  induction code with
  | nil => intro c _ hex; simp at hex
  | cons i rest ih =>
      intro c h hex
      rw [List.foldl_cons]
      rcases hex with ⟨j, hj, hop⟩
      rcases List.mem_cons.mp hj with rfl | hmem
      · refine tmFold_respModel_ne rest (tmStep c j)
          (fun k hk => (h k (List.mem_cons_of_mem _ hk))) ?_
        rw [tmStep_respModel_set c j hop]
        exact h j (by simp) hop
      · exact ih (tmStep c i) (fun k hk => h k (List.mem_cons_of_mem _ hk)) ⟨j, hmem, hop⟩

/-- bufferToolDelta touches only pendingTools and toolOrder. -/
theorem bufferToolDelta_meta (c : StreamConverter) (j : GoStr) :
    (bufferToolDelta c j).respID = c.respID ∧
    (bufferToolDelta c j).respModel = c.respModel ∧
    (bufferToolDelta c j).targetStyle = c.targetStyle ∧
    (bufferToolDelta c j).bufferTools = c.bufferTools := by
  simp only [bufferToolDelta]
  split
  · split
    · exact ⟨rfl, rfl, rfl, rfl⟩
    · exact ⟨rfl, rfl, rfl, rfl⟩
  · exact ⟨rfl, rfl, rfl, rfl⟩
  · exact ⟨rfl, rfl, rfl, rfl⟩

/-- drainPendingTools touches only pendingTools and toolOrder. -/
theorem drainPendingTools_meta (c : StreamConverter) :
    (drainPendingTools c).1.respID = c.respID ∧
    (drainPendingTools c).1.respModel = c.respModel ∧
    (drainPendingTools c).1.targetStyle = c.targetStyle ∧
    (drainPendingTools c).1.bufferTools = c.bufferTools := by
  unfold drainPendingTools
  split
  · exact ⟨rfl, rfl, rfl, rfl⟩
  · exact ⟨rfl, rfl, rfl, rfl⟩

theorem pwbStep_meta (st : StreamConverter × List Program × List Instruction)
    (inst : Instruction) :
    (pwbStep st inst).1.respID = st.1.respID ∧
    (pwbStep st inst).1.respModel = st.1.respModel ∧
    (pwbStep st inst).1.targetStyle = st.1.targetStyle ∧
    (pwbStep st inst).1.bufferTools = st.1.bufferTools := by
  obtain ⟨c, results, current⟩ := st
  rcases inst with ⟨op, sv, nv, iv, jv, kv, rv⟩
  cases op <;>
    first
      | exact ⟨rfl, rfl, rfl, rfl⟩
      | exact bufferToolDelta_meta c jv
      | exact drainPendingTools_meta c

theorem pwbFold_meta (code : List Instruction) :
    ∀ (st : StreamConverter × List Program × List Instruction),
      (code.foldl pwbStep st).1.respID = st.1.respID ∧
      (code.foldl pwbStep st).1.respModel = st.1.respModel ∧
      (code.foldl pwbStep st).1.targetStyle = st.1.targetStyle ∧
      (code.foldl pwbStep st).1.bufferTools = st.1.bufferTools := by
  induction code with
  | nil => intro st; exact ⟨rfl, rfl, rfl, rfl⟩
  | cons i rest ih =>
      intro st
      rw [List.foldl_cons]
      obtain ⟨h1, h2, h3, h4⟩ := ih (pwbStep st i)
      obtain ⟨g1, g2, g3, g4⟩ := pwbStep_meta st i
      exact ⟨h1.trans g1, h2.trans g2, h3.trans g3, h4.trans g4⟩

theorem processWithBuffering_meta (c : StreamConverter) (prog : Program) :
    (processWithBuffering c prog).1.respID = c.respID ∧
    (processWithBuffering c prog).1.respModel = c.respModel ∧
    (processWithBuffering c prog).1.targetStyle = c.targetStyle ∧
    (processWithBuffering c prog).1.bufferTools = c.bufferTools :=
  pwbFold_meta prog.code (c, ([], []))

/-- processInstructions leaves the metadata and configuration fields of
    the converter untouched in every strategy. -/
theorem processInstructions_meta (c : StreamConverter) (prog : Program) :
    (processInstructions c prog).1.respID = c.respID ∧
    (processInstructions c prog).1.respModel = c.respModel ∧
    (processInstructions c prog).1.targetStyle = c.targetStyle ∧
    (processInstructions c prog).1.bufferTools = c.bufferTools := by
  unfold processInstructions
  split
  · exact ⟨rfl, rfl, rfl, rfl⟩
  · split
    · exact processWithBuffering_meta c prog
    · exact ⟨rfl, rfl, rfl, rfl⟩

theorem pushProgramLocked_conv (c : StreamConverter) (q : Program)
    (hne : q.code.length ≠ 0) :
    (pushProgramLocked c q).conv = (processInstructions (trackMetadata c q) q).1 := by
  unfold pushProgramLocked
  rw [if_neg hne]

/-- injectMetadata keeps the pushed program's code as a suffix. -/
theorem injectMetadata_code_suffix (c : StreamConverter) (p : Program) :
    ∃ pre : List Instruction, (injectMetadata c p).code = pre ++ p.code := by
  simp only [injectMetadata]
  repeat' split
  all_goals first
    | exact ⟨_, rfl⟩
    | exact ⟨[], (List.nil_append _).symm⟩

theorem injectMetadata_has_RESP_ID (c : StreamConverter) (p : Program)
    (h : c.respID ≠ []) :
    ∃ i ∈ (injectMetadata c p).code, i.op = Opcode.RESP_ID := by
  by_cases hid : hasOpIn p Opcode.RESP_ID = false
  · refine ⟨{ op := Opcode.RESP_ID, str := c.respID }, ?_, rfl⟩
    by_cases hm : (hasOpIn p Opcode.RESP_MODEL = false ∧ c.respModel ≠ []) <;>
      simp [injectMetadata, hid, h, hm]
  · have hid2 : hasOpIn p Opcode.RESP_ID = true := by
      cases hh : hasOpIn p Opcode.RESP_ID
      · exact absurd hh hid
      · rfl
    obtain ⟨i, hi, hop⟩ := by
      simpa only [hasOpIn, List.any_eq_true, decide_eq_true_eq] using hid2
    obtain ⟨pre, hpre⟩ := injectMetadata_code_suffix c p
    exact ⟨i, by rw [hpre]; exact List.mem_append_right _ hi, hop⟩

theorem injectMetadata_has_RESP_MODEL (c : StreamConverter) (p : Program)
    (h : c.respModel ≠ []) :
    ∃ i ∈ (injectMetadata c p).code, i.op = Opcode.RESP_MODEL := by
  by_cases hm : hasOpIn p Opcode.RESP_MODEL = false
  · refine ⟨{ op := Opcode.RESP_MODEL, str := c.respModel }, ?_, rfl⟩
    by_cases hid : (hasOpIn p Opcode.RESP_ID = false ∧ c.respID ≠ []) <;>
      simp [injectMetadata, hid, hm, h]
  · have hm2 : hasOpIn p Opcode.RESP_MODEL = true := by
      cases hh : hasOpIn p Opcode.RESP_MODEL
      · exact absurd hh hm
      · rfl
    obtain ⟨i, hi, hop⟩ := by
      simpa only [hasOpIn, List.any_eq_true, decide_eq_true_eq] using hm2
    obtain ⟨pre, hpre⟩ := injectMetadata_code_suffix c p
    exact ⟨i, by rw [hpre]; exact List.mem_append_right _ hi, hop⟩

/-- Decomposition of a push at an OpenAI Chat Completions target (the
    default passthrough strategy, one unit, one emitted chunk). -/
theorem pushProgramLocked_openai (c : StreamConverter) (q : Program)
    (ht : c.targetStyle = StyleChatCompletions) (hbt : c.bufferTools = false)
    (hne : q.code.length ≠ 0) :
    pushProgramLocked c q =
      ⟨trackMetadata c q,
       [emitStreamChunkOpenAI (injectMetadata (trackMetadata c q) q)],
       injectMetadata (trackMetadata c q) q⟩ := by
  have ht2 : (trackMetadata c q).targetStyle = StyleChatCompletions :=
    (trackMetadata_fields c q).1.trans ht
  have hbt2 : (trackMetadata c q).bufferTools = false :=
    (trackMetadata_fields c q).2.trans hbt
  have hsplit2 : targetNeedsSplitting (trackMetadata c q) = false := by
    unfold targetNeedsSplitting
    rw [ht2]
    rfl
  have hproc : processInstructions (trackMetadata c q) q = (trackMetadata c q, [q]) := by
    unfold processInstructions
    rw [hsplit2]
    simp [hbt2]
  have hemit : ∀ p, emitChunk (trackMetadata c q) p = emitStreamChunkOpenAI p := by
    intro p
    unfold emitChunk
    rw [ht2]
    rfl
  unfold pushProgramLocked
  rw [if_neg hne]
  simp only [hproc, List.map_cons, List.map_nil, hemit]
  rw [if_pos ⟨hsplit2, hbt2⟩]

/-- C5 (amended).  For a converter whose target is OpenAI Chat
    Completions (whose chunk schema carries id/model on every chunk):
    (1) a push whose program carries RESP_ID and RESP_MODEL instructions,
    all with non-empty values, leaves the converter with non-empty
    remembered id/model; (2) from any such state, every chunk emitted by
    any subsequent push (whose RESP_ID/RESP_MODEL instructions, if any,
    are non-empty) is a JSON object containing the `id` field and the
    `model` field, each exactly once, and the state keeps non-empty
    id/model, so the property persists for all later pushes. -/
theorem openai_target_metadata_injection :
    (∀ (c : StreamConverter) (q : Program),
        (∀ i ∈ q.code, (i.op = Opcode.RESP_ID → i.str ≠ []) ∧
                       (i.op = Opcode.RESP_MODEL → i.str ≠ [])) →
        (∃ i ∈ q.code, i.op = Opcode.RESP_ID) →
        (∃ i ∈ q.code, i.op = Opcode.RESP_MODEL) →
        (pushProgramLocked c q).conv.respID ≠ [] ∧
        (pushProgramLocked c q).conv.respModel ≠ [])
  ∧ (∀ (c : StreamConverter) (q : Program),
        c.targetStyle = StyleChatCompletions → c.bufferTools = false →
        c.respID ≠ [] → c.respModel ≠ [] →
        (∀ i ∈ q.code, (i.op = Opcode.RESP_ID → i.str ≠ []) ∧
                       (i.op = Opcode.RESP_MODEL → i.str ≠ [])) →
        ((pushProgramLocked c q).conv.respID ≠ [] ∧
         (pushProgramLocked c q).conv.respModel ≠ [] ∧
         (pushProgramLocked c q).conv.targetStyle = StyleChatCompletions ∧
         (pushProgramLocked c q).conv.bufferTools = false)
        ∧ ∀ out ∈ (pushProgramLocked c q).outputs,
            ∃ m, out = Json.obj m ∧
              countKey m (gs "id") = 1 ∧ countKey m (gs "model") = 1) := by
  constructor
  · intro c q hboth hexID hexModel
    have hne : q.code.length ≠ 0 := by
      rcases hexID with ⟨i, hi, _⟩
      intro h0
      rw [List.length_eq_zero] at h0
      rw [h0] at hi
      exact absurd hi (List.not_mem_nil i)
    have hconv := pushProgramLocked_conv c q hne
    have hmeta := processInstructions_meta (trackMetadata c q) q
    constructor
    · rw [hconv, hmeta.1]
      exact tmFold_respID_est q.code c (fun i hi => (hboth i hi).1) hexID
    · rw [hconv, hmeta.2.1]
      exact tmFold_respModel_est q.code c (fun i hi => (hboth i hi).2) hexModel
  · intro c q ht hbt hcid hcmod hboth
    by_cases hz : q.code.length = 0
    · have hpush : pushProgramLocked c q = ⟨c, [], q⟩ := by
        unfold pushProgramLocked
        rw [if_pos hz]
      rw [hpush]
      refine ⟨⟨hcid, hcmod, ht, hbt⟩, ?_⟩
      intro out hout
      exact absurd hout (List.not_mem_nil out)
    · have hpush := pushProgramLocked_openai c q ht hbt hz
      have hid2 : (trackMetadata c q).respID ≠ [] :=
        tmFold_respID_ne q.code c (fun i hi => (hboth i hi).1) hcid
      have hmod2 : (trackMetadata c q).respModel ≠ [] :=
        tmFold_respModel_ne q.code c (fun i hi => (hboth i hi).2) hcmod
      rw [hpush]
      refine ⟨⟨hid2, hmod2, (trackMetadata_fields c q).1.trans ht,
              (trackMetadata_fields c q).2.trans hbt⟩, ?_⟩
      intro out hout
      have hout2 : out = emitStreamChunkOpenAI (injectMetadata (trackMetadata c q) q) := by
        simpa using hout
      rw [hout2]
      exact emitStreamChunkOpenAI_id_model _
        (injectMetadata_has_RESP_ID _ _ hid2)
        (injectMetadata_has_RESP_MODEL _ _ hmod2)

/-- Concrete run of the amended C5 theorem: pushing RESP_ID "resp-1" /
    RESP_MODEL "gpt-4o" establishes non-empty remembered metadata, and from
    such a state a push of a plain text-delta program emits chunks that all
    carry `id` and `model` exactly once. -/
theorem openai_target_metadata_injection_witness :
    ((pushProgramLocked
        { sourceStyle := StyleAnthropic, targetStyle := StyleChatCompletions }
        { code := [{ op := Opcode.RESP_ID, str := gs "resp-1" },
                   { op := Opcode.RESP_MODEL, str := gs "gpt-4o" }] }).conv.respID ≠ [] ∧
     (pushProgramLocked
        { sourceStyle := StyleAnthropic, targetStyle := StyleChatCompletions }
        { code := [{ op := Opcode.RESP_ID, str := gs "resp-1" },
                   { op := Opcode.RESP_MODEL, str := gs "gpt-4o" }] }).conv.respModel ≠ [])
    ∧ (((pushProgramLocked
          { sourceStyle := StyleAnthropic, targetStyle := StyleChatCompletions,
            respID := gs "resp-1", respModel := gs "gpt-4o" }
          { code := [{ op := Opcode.TXT_CHUNK, str := gs "hi" }] }).conv.respID ≠ [] ∧
        (pushProgramLocked
          { sourceStyle := StyleAnthropic, targetStyle := StyleChatCompletions,
            respID := gs "resp-1", respModel := gs "gpt-4o" }
          { code := [{ op := Opcode.TXT_CHUNK, str := gs "hi" }] }).conv.respModel ≠ [] ∧
        (pushProgramLocked
          { sourceStyle := StyleAnthropic, targetStyle := StyleChatCompletions,
            respID := gs "resp-1", respModel := gs "gpt-4o" }
          { code := [{ op := Opcode.TXT_CHUNK, str := gs "hi" }] }).conv.targetStyle
            = StyleChatCompletions ∧
        (pushProgramLocked
          { sourceStyle := StyleAnthropic, targetStyle := StyleChatCompletions,
            respID := gs "resp-1", respModel := gs "gpt-4o" }
          { code := [{ op := Opcode.TXT_CHUNK, str := gs "hi" }] }).conv.bufferTools
            = false)
      ∧ ∀ out ∈ (pushProgramLocked
          { sourceStyle := StyleAnthropic, targetStyle := StyleChatCompletions,
            respID := gs "resp-1", respModel := gs "gpt-4o" }
          { code := [{ op := Opcode.TXT_CHUNK, str := gs "hi" }] }).outputs,
          ∃ m, out = Json.obj m ∧
            countKey m (gs "id") = 1 ∧ countKey m (gs "model") = 1) :=
  ⟨openai_target_metadata_injection.1
      { sourceStyle := StyleAnthropic, targetStyle := StyleChatCompletions }
      { code := [{ op := Opcode.RESP_ID, str := gs "resp-1" },
                 { op := Opcode.RESP_MODEL, str := gs "gpt-4o" }] }
      (by decide) (by decide) (by decide),
   openai_target_metadata_injection.2
      { sourceStyle := StyleAnthropic, targetStyle := StyleChatCompletions,
        respID := gs "resp-1", respModel := gs "gpt-4o" }
      { code := [{ op := Opcode.TXT_CHUNK, str := gs "hi" }] }
      rfl rfl (by decide) (by decide) (by decide)⟩

/- ─── Tool-buffer lemmas (C6) ───────────────────────────────────────────── -/

/-- Well-formedness of the tool buffers: `toolOrder` is exactly the
    key list of `pendingTools` (Go map keys in insertion order), with no
    index twice.  Holds for the fresh converter and is preserved by every
    buffer operation. -/
def toolBufferWF (c : StreamConverter) : Prop :=
  c.toolOrder = c.pendingTools.map Prod.fst ∧ c.toolOrder.Nodup

theorem assocFind_eq_none (m : List (Int × PendingToolCall)) (k : Int) :
    assocFind m k = none ↔ k ∉ m.map Prod.fst := by
  induction m with
  | nil => simp [assocFind]
  | cons kv rest ih =>
      obtain ⟨k2, v⟩ := kv
      by_cases h : k2 = k
      · subst h
        simp [assocFind]
      · simp [assocFind, h, ih, Ne.symm h]

theorem assocSet_keys (m : List (Int × PendingToolCall)) (k : Int) (v : PendingToolCall) :
    (assocSet m k v).map Prod.fst =
      if k ∈ m.map Prod.fst then m.map Prod.fst else m.map Prod.fst ++ [k] := by
  induction m with
  | nil => simp [assocSet]
  | cons kv rest ih =>
      obtain ⟨k2, v2⟩ := kv
      by_cases h : k2 = k
      · subst h
        simp [assocSet]
      · by_cases hk : k ∈ rest.map Prod.fst <;>
          simp [assocSet, h, ih, hk, Ne.symm h]

theorem btdStep_WF (c : StreamConverter) (idx : Int) (id nm args : GoStr)
    (h : toolBufferWF c) : toolBufferWF (btdStep c idx id nm args) := by
  obtain ⟨hkeys, hnd⟩ := h
  simp only [btdStep, toolBufferWF]
  cases hf : assocFind c.pendingTools idx with
  | none =>
      have hmem : idx ∉ c.pendingTools.map Prod.fst := (assocFind_eq_none _ _).mp hf
      constructor
      · simp [hf, assocSet_keys, hmem, hkeys]
      · simp only [hf, Option.isNone_none, if_pos]
        rw [List.nodup_append]
        refine ⟨hnd, List.nodup_singleton _, ?_⟩
        intro a ha hb
        rw [List.mem_singleton] at hb
        subst hb
        rw [hkeys] at ha
        exact hmem ha
  | some tc =>
      have hmem : idx ∈ c.pendingTools.map Prod.fst := by
        by_contra hc
        rw [← assocFind_eq_none] at hc
        rw [hf] at hc
        exact Option.noConfusion hc
      constructor
      · simp [hf, assocSet_keys, hmem, hkeys]
      · simpa [hf] using hnd

theorem bufferToolDelta_WF (c : StreamConverter) (j : GoStr)
    (h : toolBufferWF c) : toolBufferWF (bufferToolDelta c j) := by
  simp only [bufferToolDelta]
  split
  · split
    · exact btdStep_WF _ _ _ _ _ h
    · exact h
  · exact btdStep_WF _ _ _ _ _ h
  · exact h

/-- When the buffers are well-formed, draining leaves both the key map and
    the order list empty (when `toolOrder` is empty the map is too). -/
theorem drainPendingTools_clears (c : StreamConverter) (h : toolBufferWF c) :
    (drainPendingTools c).1.pendingTools = [] ∧ (drainPendingTools c).1.toolOrder = [] := by
  unfold drainPendingTools
  by_cases ht : c.toolOrder = []
  · rw [if_pos ht]
    refine ⟨?_, ht⟩
    have h1 := h.1
    rw [ht] at h1
    exact List.map_eq_nil_iff.mp h1.symm
  · rw [if_neg ht]
    exact ⟨rfl, rfl⟩

theorem drainPendingTools_WF (c : StreamConverter) (h : toolBufferWF c) :
    toolBufferWF (drainPendingTools c).1 := by
  obtain ⟨h1, h2⟩ := drainPendingTools_clears c h
  exact ⟨by rw [h1, h2]; rfl, by rw [h2]; exact List.nodup_nil⟩

theorem tmStep_tools (c : StreamConverter) (i : Instruction) :
    (tmStep c i).pendingTools = c.pendingTools ∧ (tmStep c i).toolOrder = c.toolOrder := by
  rcases i with ⟨op, sv, nv, iv, jv, kv, rv⟩
  cases op <;> exact ⟨rfl, rfl⟩

theorem trackMetadata_tools (c : StreamConverter) (p : Program) :
    (trackMetadata c p).pendingTools = c.pendingTools ∧
    (trackMetadata c p).toolOrder = c.toolOrder := by
  obtain ⟨code, bufs⟩ := p
  simp only [trackMetadata]
  induction code generalizing c with
  | nil => exact ⟨rfl, rfl⟩
  | cons i rest ih =>
      rw [List.foldl_cons]
      obtain ⟨h1, h2⟩ := ih (tmStep c i)
      obtain ⟨h3, h4⟩ := tmStep_tools c i
      exact ⟨h1.trans h3, h2.trans h4⟩

/-- Converters that agree on the tool buffers share well-formedness. -/
theorem toolBufferWF_of_eq (c c2 : StreamConverter)
    (hp : c2.pendingTools = c.pendingTools) (ho : c2.toolOrder = c.toolOrder)
    (h : toolBufferWF c) : toolBufferWF c2 :=
  ⟨by rw [hp, ho]; exact h.1, by rw [ho]; exact h.2⟩

theorem pwbStep_WF (st : StreamConverter × List Program × List Instruction)
    (i : Instruction) (h : toolBufferWF st.1) : toolBufferWF (pwbStep st i).1 := by
  rcases i with ⟨op, sv, nv, iv, jv, kv, rv⟩
  cases op <;>
    first
      | exact h
      | exact bufferToolDelta_WF st.1 jv h
      | exact drainPendingTools_WF st.1 h

theorem pwbFold_WF (code : List Instruction) :
    ∀ (st : StreamConverter × List Program × List Instruction),
      toolBufferWF st.1 → toolBufferWF (code.foldl pwbStep st).1 := by
  induction code with
  | nil => intro st h; exact h
  | cons i rest ih =>
      intro st h
      rw [List.foldl_cons]
      exact ih (pwbStep st i) (pwbStep_WF st i h)

theorem processInstructions_WF (c : StreamConverter) (q : Program)
    (h : toolBufferWF c) : toolBufferWF (processInstructions c q).1 := by
  unfold processInstructions
  split
  · exact h
  · split
    · exact pwbFold_WF q.code (c, ([], [])) h
    · exact h

/-- Every push preserves tool-buffer well-formedness (for any target). -/
theorem pushProgramLocked_WF (c : StreamConverter) (q : Program)
    (h : toolBufferWF c) : toolBufferWF (pushProgramLocked c q).conv := by
  by_cases hz : q.code.length = 0
  · have hp : pushProgramLocked c q = ⟨c, [], q⟩ := by
      unfold pushProgramLocked
      rw [if_pos hz]
    rw [hp]
    exact h
  · rw [pushProgramLocked_conv c q hz]
    refine processInstructions_WF _ _ ?_
    exact toolBufferWF_of_eq c _ (trackMetadata_tools c q).1 (trackMetadata_tools c q).2 h

theorem pwbStep_trigger (st : StreamConverter × List Program × List Instruction)
    (t : Instruction) (h : t.op = Opcode.RESP_DONE ∨ t.op = Opcode.STREAM_END) :
    (pwbStep st t).1 = (drainPendingTools st.1).1 := by
  rcases t with ⟨op, sv, nv, iv, jv, kv, rv⟩
  rcases h with h | h
  · obtain rfl : op = Opcode.RESP_DONE := h
    rfl
  · obtain rfl : op = Opcode.STREAM_END := h
    rfl

/-- After a push whose last instruction is RESP_DONE or STREAM_END (google
    target, buffering on), the pending-tools buffer and the order list are
    empty. -/
theorem pushProgramLocked_trigger_drains (c : StreamConverter) (body : List Instruction)
    (t : Instruction) (bufs : List GoStr)
    (ht : c.targetStyle = StyleGoogleGenAI) (hbt : c.bufferTools = true)
    (hwf : toolBufferWF c)
    (htrig : t.op = Opcode.RESP_DONE ∨ t.op = Opcode.STREAM_END) :
    (pushProgramLocked c { code := body ++ [t], buffers := bufs }).conv.pendingTools = [] ∧
    (pushProgramLocked c { code := body ++ [t], buffers := bufs }).conv.toolOrder = [] := by
  set q : Program := { code := body ++ [t], buffers := bufs } with hq
  have hz : q.code.length ≠ 0 := by simp [hq]
  rw [pushProgramLocked_conv c q hz]
  have ht2 : (trackMetadata c q).targetStyle = StyleGoogleGenAI :=
    (trackMetadata_fields c q).1.trans ht
  have hbt2 : (trackMetadata c q).bufferTools = true :=
    (trackMetadata_fields c q).2.trans hbt
  have hsplit2 : targetNeedsSplitting (trackMetadata c q) = false := by
    unfold targetNeedsSplitting
    rw [ht2]
    rfl
  have hproc : processInstructions (trackMetadata c q) q =
      processWithBuffering (trackMetadata c q) q := by
    unfold processInstructions
    rw [hsplit2]
    simp [hbt2]
  rw [hproc]
  have hwf2 : toolBufferWF (trackMetadata c q) :=
    toolBufferWF_of_eq c _ (trackMetadata_tools c q).1 (trackMetadata_tools c q).2 hwf
  have hfold : (processWithBuffering (trackMetadata c q) q).1 =
      (q.code.foldl pwbStep ((trackMetadata c q), ([], []))).1 := rfl
  rw [hfold]
  have hcode : q.code = body ++ [t] := rfl
  rw [hcode, List.foldl_append]
  simp only [List.foldl_cons, List.foldl_nil]
  rw [pwbStep_trigger _ t htrig]
  exact drainPendingTools_clears _ (pwbFold_WF body _ hwf2)

/-- With well-formed buffers and at least one pending tool, the drain
    produces a program with exactly one complete delta per buffered index
    (the order list is duplicate-free and matches the key map), every
    drained instruction a STREAM_TOOL_DELTA, and then both buffers are
    empty. -/
theorem drainPendingTools_exactly_once (c : StreamConverter) (h : toolBufferWF c)
    (hne : c.toolOrder ≠ []) :
    (drainPendingTools c).2 =
      some { code := c.toolOrder.map (drainDelta c), buffers := [] } ∧
    c.toolOrder.Nodup ∧ c.toolOrder = c.pendingTools.map Prod.fst ∧
    (∀ i ∈ c.toolOrder.map (drainDelta c), i.op = Opcode.STREAM_TOOL_DELTA) ∧
    (drainPendingTools c).1.pendingTools = [] ∧
    (drainPendingTools c).1.toolOrder = [] := by
  obtain ⟨h1, h2⟩ := drainPendingTools_clears c h
  refine ⟨?_, h.2, h.1, ?_, h1, h2⟩
  · unfold drainPendingTools
    rw [if_neg hne]
  · intro i hi
    obtain ⟨idx, _, rfl⟩ := List.mem_map.mp hi
    rfl

/-- Flush leaves the pending-tools buffer and the order list empty. -/
theorem flushConv_clears (c : StreamConverter) (h : toolBufferWF c) :
    (flushConv c).1.pendingTools = [] ∧ (flushConv c).1.toolOrder = [] := by
  obtain ⟨h1, h2⟩ := drainPendingTools_clears c h
  rcases hd : drainPendingTools c with ⟨c2, opt⟩
  rw [hd] at h1 h2
  cases opt <;> simp only [flushConv, hd] <;> exact ⟨h1, h2⟩

/- ─── No functionCall before the trigger (C6) ───────────────────────────── -/

theorem containsKeyDeep_obj (k : GoStr) (fs : List (GoStr × Json)) :
    containsKeyDeep k (.obj fs) = containsKeyFields k fs := rfl

theorem containsKeyDeep_arr (k : GoStr) (es : List Json) :
    containsKeyDeep k (.arr es) = containsKeyElems k es := rfl

theorem containsKeyFields_nil (k : GoStr) : containsKeyFields k [] = false := rfl

theorem containsKeyFields_cons (k k2 : GoStr) (v : Json) (rest : List (GoStr × Json)) :
    containsKeyFields k ((k2, v) :: rest) =
      (decide (k2 = k) || containsKeyDeep k v || containsKeyFields k rest) := rfl

theorem containsKeyElems_cons (k : GoStr) (e : Json) (rest : List Json) :
    containsKeyElems k (e :: rest) =
      (containsKeyDeep k e || containsKeyElems k rest) := rfl

theorem containsKeyElems_eq_false (k : GoStr) (l : List Json)
    (h : ∀ p ∈ l, containsKeyDeep k p = false) : containsKeyElems k l = false := by
  induction l with
  | nil => rfl
  | cons e rest ih =>
      rw [containsKeyElems_cons]
      rw [h e (by simp), ih (fun p hp => h p (List.mem_cons_of_mem _ hp))]
      rfl

/-- Setting a key other than `k`, to a value free of `k`, keeps an object
    free of `k`. -/
theorem containsKeyFields_smapSet_false (m : List (GoStr × Json)) (k2 k : GoStr) (v : Json)
    (hne : k2 ≠ k) (hm : containsKeyFields k m = false)
    (hv : containsKeyDeep k v = false) :
    containsKeyFields k (smapSet m k2 v) = false := by
  induction m with
  | nil =>
      rw [show smapSet [] k2 v = [(k2, v)] from rfl, containsKeyFields_cons, hv,
          containsKeyFields_nil]
      simp [hne]
  | cons kv rest ih =>
      obtain ⟨ka, va⟩ := kv
      rw [containsKeyFields_cons] at hm
      simp only [Bool.or_eq_false_iff, decide_eq_false_iff_not] at hm
      obtain ⟨⟨hka, hva⟩, hrest⟩ := hm
      by_cases h : ka = k2
      · subst h
        rw [show smapSet ((ka, va) :: rest) ka v = (ka, v) :: rest from by
              simp [smapSet]]
        rw [containsKeyFields_cons, hv, hrest]
        simp [hne]
      · rw [show smapSet ((ka, va) :: rest) k2 v = (ka, va) :: smapSet rest k2 v from by
              simp [smapSet, h]]
        rw [containsKeyFields_cons, hva, ih hrest]
        simp [hka]

theorem usageStructToGoogle_noFC (j : GoStr) (u : Json)
    (h : usageStructToGoogle j = some u) :
    containsKeyDeep (gs "functionCall") u = false := by
  unfold usageStructToGoogle at h
  split at h
  · split at h
    · cases h
      rfl
    · cases h
  · cases h
    rfl
  · cases h

/-- The invariant of GoogleGenAIEmitter's loop state: neither the result
    object nor any accumulated part mentions the key `functionCall`. -/
def gNoFC (st : List (GoStr × Json) × List Json × GoStr) : Prop :=
  containsKeyFields (gs "functionCall") st.1 = false ∧
  ∀ p ∈ st.2.1, containsKeyDeep (gs "functionCall") p = false

theorem gStep_noFC (st : List (GoStr × Json) × List Json × GoStr) (i : Instruction)
    (hop : i.op ≠ Opcode.STREAM_TOOL_DELTA) (h : gNoFC st) : gNoFC (gStep st i) := by
  obtain ⟨result, parts, fr⟩ := st
  obtain ⟨h1, h2⟩ := h
  rcases i with ⟨op, sv, nv, iv, jv, kv, rv⟩
  cases op <;>
    first
      | exact absurd rfl hop
      | exact ⟨h1, h2⟩
      | exact ⟨containsKeyFields_smapSet_false _ _ _ _ (by decide) h1 rfl, h2⟩
      | (refine ⟨h1, ?_⟩
         intro p hp
         rcases List.mem_append.mp hp with hp2 | hp2
         · exact h2 p hp2
         · rw [List.mem_singleton] at hp2
           subst hp2
           rfl)
      | (simp only [gStep]
         cases hu : usageStructToGoogle jv with
         | none => exact ⟨h1, h2⟩
         | some u =>
             exact ⟨containsKeyFields_smapSet_false _ _ _ _ (by decide) h1
               (usageStructToGoogle_noFC jv u hu), h2⟩)

theorem gFold_noFC (code : List Instruction) :
    ∀ (st : List (GoStr × Json) × List Json × GoStr),
      (∀ i ∈ code, i.op ≠ Opcode.STREAM_TOOL_DELTA) → gNoFC st →
      gNoFC (code.foldl gStep st) := by
  induction code with
  | nil => intro st _ h; exact h
  | cons i rest ih =>
      intro st hops h
      rw [List.foldl_cons]
      exact ih (gStep st i) (fun j hj => hops j (List.mem_cons_of_mem _ hj))
        (gStep_noFC st i (hops i (by simp)) h)

/-- A chunk emitted by the Google stream emitter from a program without
    STREAM_TOOL_DELTA instructions contains no `functionCall` key at any
    depth. -/
theorem emitStreamChunkGoogle_noFC (prog : Program)
    (h : ∀ i ∈ prog.code, i.op ≠ Opcode.STREAM_TOOL_DELTA) :
    containsKeyDeep (gs "functionCall") (emitStreamChunkGoogle prog) = false := by
  have hinv : gNoFC (prog.code.foldl gStep ([], [], [])) :=
    gFold_noFC prog.code ([], [], []) h
      ⟨rfl, fun p hp => absurd hp (List.not_mem_nil p)⟩
  rcases hst : prog.code.foldl gStep ([], [], []) with ⟨result, rest⟩
  rcases rest with ⟨parts, fr⟩
  rw [hst] at hinv
  obtain ⟨h1, h2⟩ := hinv
  simp only [emitStreamChunkGoogle, hst]
  rw [containsKeyDeep_obj]
  refine containsKeyFields_smapSet_false _ _ _ _ (by decide) h1 ?_
  rw [containsKeyDeep_arr, containsKeyElems_cons, containsKeyDeep_obj]
  have hcontent : containsKeyDeep (gs "functionCall")
      (.obj [(gs "role", .str (gs "model")), (gs "parts", .arr parts)]) = false := by
    rw [containsKeyDeep_obj, containsKeyFields_cons, containsKeyFields_cons]
    rw [containsKeyDeep_arr, containsKeyElems_eq_false _ _ h2]
    rfl
  have hc1 : containsKeyFields (gs "functionCall")
      (if parts.length > 0 then
         smapSet [(gs "index", Json.num (gs "0"))] (gs "content")
           (.obj [(gs "role", .str (gs "model")), (gs "parts", .arr parts)])
       else [(gs "index", Json.num (gs "0"))]) = false := by
    split
    · exact containsKeyFields_smapSet_false _ _ _ _ (by decide) rfl hcontent
    · rfl
  have hc2 : containsKeyFields (gs "functionCall")
      (if fr ≠ [] then
         smapSet
           (if parts.length > 0 then
              smapSet [(gs "index", Json.num (gs "0"))] (gs "content")
                (.obj [(gs "role", .str (gs "model")), (gs "parts", .arr parts)])
            else [(gs "index", Json.num (gs "0"))])
           (gs "finishReason") (.str fr)
       else
         (if parts.length > 0 then
            smapSet [(gs "index", Json.num (gs "0"))] (gs "content")
              (.obj [(gs "role", .str (gs "model")), (gs "parts", .arr parts)])
          else [(gs "index", Json.num (gs "0"))])) = false := by
    split
    · exact containsKeyFields_smapSet_false _ _ _ _ (by decide) hc1 rfl
    · exact hc1
  rw [hc2]
  rfl

theorem pwbStep_tool (c : StreamConverter) (res : List Program) (cur : List Instruction)
    (i : Instruction) (h : i.op = Opcode.STREAM_TOOL_DELTA) :
    pwbStep (c, (res, cur)) i = (bufferToolDelta c i.json, res, cur) := by
  rcases i with ⟨op, sv, nv, iv, jv, kv, rv⟩
  obtain rfl : op = Opcode.STREAM_TOOL_DELTA := h
  rfl

theorem pwbStep_other (c : StreamConverter) (res : List Program) (cur : List Instruction)
    (i : Instruction) (h1 : i.op ≠ Opcode.STREAM_TOOL_DELTA)
    (h2 : i.op ≠ Opcode.RESP_DONE) (h3 : i.op ≠ Opcode.STREAM_END) :
    pwbStep (c, (res, cur)) i = (c, res, cur ++ [i]) := by
  rcases i with ⟨op, sv, nv, iv, jv, kv, rv⟩
  cases op <;>
    first
      | exact absurd rfl h1
      | exact absurd rfl h2
      | exact absurd rfl h3
      | rfl

/-- Over a program without RESP_DONE / STREAM_END, the buffering loop
    flushes nothing and accumulates exactly the non-tool-delta
    instructions. -/
theorem pwbFold_triggerFree (code : List Instruction) :
    ∀ (c : StreamConverter) (res : List Program) (cur : List Instruction),
      (∀ i ∈ code, i.op ≠ Opcode.RESP_DONE ∧ i.op ≠ Opcode.STREAM_END) →
      (code.foldl pwbStep (c, (res, cur))).2.1 = res ∧
      (code.foldl pwbStep (c, (res, cur))).2.2 =
        cur ++ code.filter (fun i => !decide (i.op = Opcode.STREAM_TOOL_DELTA)) := by
  induction code with
  | nil =>
      intro c res cur _
      exact ⟨rfl, by simp⟩
  | cons i rest ih =>
      intro c res cur h
      have hi := h i (by simp)
      have hrest : ∀ j ∈ rest, j.op ≠ Opcode.RESP_DONE ∧ j.op ≠ Opcode.STREAM_END :=
        fun j hj => h j (List.mem_cons_of_mem _ hj)
      rw [List.foldl_cons]
      by_cases htool : i.op = Opcode.STREAM_TOOL_DELTA
      · rw [pwbStep_tool c res cur i htool]
        obtain ⟨ha, hb⟩ := ih (bufferToolDelta c i.json) res cur hrest
        refine ⟨ha, ?_⟩
        rw [hb, List.filter_cons]
        simp [htool]
      · rw [pwbStep_other c res cur i htool hi.1 hi.2]
        obtain ⟨ha, hb⟩ := ih c res (cur ++ [i]) hrest
        refine ⟨ha, ?_⟩
        rw [hb, List.filter_cons]
        simp [htool]

/-- Every instruction of the metadata-injected program either comes from
    the program itself or is one of the two prepended metadata
    instructions. -/
theorem injectMetadata_mem (c : StreamConverter) (p : Program) (i : Instruction)
    (h : i ∈ (injectMetadata c p).code) :
    i ∈ p.code ∨ i.op = Opcode.RESP_ID ∨ i.op = Opcode.RESP_MODEL := by
  simp only [injectMetadata] at h
  by_cases h1 : (hasOpIn p Opcode.RESP_ID = false ∧ c.respID ≠ [])
  · rw [if_pos h1] at h
    by_cases h2 : (hasOpIn p Opcode.RESP_MODEL = false ∧ c.respModel ≠ [])
    · rw [if_pos h2, if_pos (by simp)] at h
      simp only [List.cons_append, List.nil_append, List.mem_cons] at h
      rcases h with rfl | rfl | h
      · exact Or.inr (Or.inl rfl)
      · exact Or.inr (Or.inr rfl)
      · exact Or.inl h
    · rw [if_neg h2, if_pos (by simp)] at h
      simp only [List.append_nil, List.cons_append, List.nil_append, List.mem_cons] at h
      rcases h with rfl | h
      · exact Or.inr (Or.inl rfl)
      · exact Or.inl h
  · rw [if_neg h1] at h
    by_cases h2 : (hasOpIn p Opcode.RESP_MODEL = false ∧ c.respModel ≠ [])
    · rw [if_pos h2, if_pos (by simp)] at h
      simp only [List.cons_append, List.nil_append, List.mem_cons] at h
      rcases h with rfl | h
      · exact Or.inr (Or.inr rfl)
      · exact Or.inl h
    · rw [if_neg h2, if_neg (by simp)] at h
      exact Or.inl h

/-- A push at a Google target with buffering on: the converter is the
    buffering fold, every unit is emitted by the Google stream emitter
    after metadata injection, and the caller's program is untouched. -/
theorem pushProgramLocked_google (c : StreamConverter) (q : Program)
    (ht : c.targetStyle = StyleGoogleGenAI) (hbt : c.bufferTools = true)
    (hne : q.code.length ≠ 0) :
    pushProgramLocked c q =
      ⟨(processWithBuffering (trackMetadata c q) q).1,
       (processWithBuffering (trackMetadata c q) q).2.map
         (fun u => emitStreamChunkGoogle
           (injectMetadata (processWithBuffering (trackMetadata c q) q).1 u)),
       q⟩ := by
  have ht2 : (trackMetadata c q).targetStyle = StyleGoogleGenAI :=
    (trackMetadata_fields c q).1.trans ht
  have hbt2 : (trackMetadata c q).bufferTools = true :=
    (trackMetadata_fields c q).2.trans hbt
  have hsplit2 : targetNeedsSplitting (trackMetadata c q) = false := by
    unfold targetNeedsSplitting
    rw [ht2]
    rfl
  have hproc : processInstructions (trackMetadata c q) q =
      processWithBuffering (trackMetadata c q) q := by
    unfold processInstructions
    rw [hsplit2]
    simp [hbt2]
  have ht3 : (processWithBuffering (trackMetadata c q) q).1.targetStyle =
      StyleGoogleGenAI :=
    (processWithBuffering_meta (trackMetadata c q) q).2.2.1.trans ht2
  have hbt3 : (processWithBuffering (trackMetadata c q) q).1.bufferTools = true :=
    (processWithBuffering_meta (trackMetadata c q) q).2.2.2.trans hbt2
  have hemit : ∀ p, emitChunk (processWithBuffering (trackMetadata c q) q).1 p =
      emitStreamChunkGoogle p := by
    intro p
    unfold emitChunk
    rw [ht3]
    rfl
  unfold pushProgramLocked
  rw [if_neg hne]
  simp only [hproc, hemit]
  rw [if_neg (fun hcond => absurd (hbt3.symm.trans hcond.2) (by decide))]

/-- Before any RESP_DONE / STREAM_END, a push at a Google target emits no
    chunk mentioning `functionCall` anywhere. -/
theorem google_push_no_functionCall (c : StreamConverter) (q : Program)
    (ht : c.targetStyle = StyleGoogleGenAI) (hbt : c.bufferTools = true)
    (hfree : ∀ i ∈ q.code, i.op ≠ Opcode.RESP_DONE ∧ i.op ≠ Opcode.STREAM_END) :
    ∀ out ∈ (pushProgramLocked c q).outputs,
      containsKeyDeep (gs "functionCall") out = false := by
  by_cases hz : q.code.length = 0
  · have hp : pushProgramLocked c q = ⟨c, [], q⟩ := by
      unfold pushProgramLocked
      rw [if_pos hz]
    rw [hp]
    intro out hout
    exact absurd hout (List.not_mem_nil out)
  · rw [pushProgramLocked_google c q ht hbt hz]
    intro out hout
    obtain ⟨u, hu, rfl⟩ := List.mem_map.mp hout
    have hunits := pwbFold_triggerFree q.code (trackMetadata c q) [] [] hfree
    have hchar : (processWithBuffering (trackMetadata c q) q).2 =
        (if ((q.code.filter
              (fun i => !decide (i.op = Opcode.STREAM_TOOL_DELTA))).length > 0)
         then [{ code := q.code.filter
                   (fun i => !decide (i.op = Opcode.STREAM_TOOL_DELTA)),
                 buffers := [] }]
         else []) := by
      show ((q.code.foldl pwbStep ((trackMetadata c q), ([], []))).2.1 ++
            (if ((q.code.foldl pwbStep ((trackMetadata c q), ([], []))).2.2).length > 0
             then [{ code := (q.code.foldl pwbStep ((trackMetadata c q), ([], []))).2.2,
                     buffers := [] }]
             else [])) = _
      rw [hunits.1, hunits.2]
      simp
    rw [hchar] at hu
    have hcode : ∀ i ∈ u.code, i.op ≠ Opcode.STREAM_TOOL_DELTA := by
      intro i hi
      split at hu
      · rw [List.mem_singleton] at hu
        subst hu
        have := (List.mem_filter.mp hi).2
        simpa using this
      · exact absurd hu (List.not_mem_nil u)
    refine emitStreamChunkGoogle_noFC _ ?_
    intro i hi
    rcases injectMetadata_mem _ u i hi with hmem | hop | hop
    · exact hcode i hmem
    · rw [hop]
      intro hc
      exact Opcode.noConfusion hc
    · rw [hop]
      intro hc
      exact Opcode.noConfusion hc

/-- Any push preserves the converter's target style and buffering flag. -/
theorem pushProgramLocked_meta (c : StreamConverter) (q : Program) :
    (pushProgramLocked c q).conv.targetStyle = c.targetStyle ∧
    (pushProgramLocked c q).conv.bufferTools = c.bufferTools := by
  by_cases hz : q.code.length = 0
  · have hp : pushProgramLocked c q = ⟨c, [], q⟩ := by
      unfold pushProgramLocked
      rw [if_pos hz]
    rw [hp]
    exact ⟨rfl, rfl⟩
  · rw [pushProgramLocked_conv c q hz]
    exact ⟨(processInstructions_meta _ _).2.2.1.trans (trackMetadata_fields c q).1,
           (processInstructions_meta _ _).2.2.2.trans (trackMetadata_fields c q).2⟩

/-- C6.  Google-target tool buffering.  (1) A fresh converter has
    well-formed tool buffers, and every push preserves the configuration
    and buffer well-formedness, so the other conjuncts apply along any
    sequence of pushes.  (2) A push without RESP_DONE / STREAM_END emits
    no chunk mentioning `functionCall` at any depth.  (3) A push whose
    last instruction is RESP_DONE or STREAM_END leaves both tool buffers
    empty.  (4) With at least one pending tool, the drain emits a unit
    holding exactly one complete delta per buffered index — the
    duplicate-free insertion-order key list of the pending map — and
    clears both buffers; (5) Flush likewise leaves both buffers empty.
    (6) A concrete run: two argument fragments for index 0 buffer without
    any output (arguments concatenated in fragment order), and the
    RESP_DONE push emits the `functionCall` chunk exactly then, leaving
    the buffers empty. -/
theorem google_target_tool_buffering :
    (∀ (src tgt : Style), toolBufferWF (NewStreamConverter src tgt))
  ∧ (∀ (c : StreamConverter) (q : Program),
      (pushProgramLocked c q).conv.targetStyle = c.targetStyle ∧
      (pushProgramLocked c q).conv.bufferTools = c.bufferTools ∧
      (toolBufferWF c → toolBufferWF (pushProgramLocked c q).conv))
  ∧ (∀ (c : StreamConverter) (q : Program),
      c.targetStyle = StyleGoogleGenAI → c.bufferTools = true →
      (∀ i ∈ q.code, i.op ≠ Opcode.RESP_DONE ∧ i.op ≠ Opcode.STREAM_END) →
      ∀ out ∈ (pushProgramLocked c q).outputs,
        containsKeyDeep (gs "functionCall") out = false)
  ∧ (∀ (c : StreamConverter) (body : List Instruction) (t : Instruction)
        (bufs : List GoStr),
      c.targetStyle = StyleGoogleGenAI → c.bufferTools = true → toolBufferWF c →
      (t.op = Opcode.RESP_DONE ∨ t.op = Opcode.STREAM_END) →
      (pushProgramLocked c { code := body ++ [t], buffers := bufs }).conv.pendingTools = []
      ∧ (pushProgramLocked c { code := body ++ [t], buffers := bufs }).conv.toolOrder = [])
  ∧ (∀ (c : StreamConverter), toolBufferWF c → c.toolOrder ≠ [] →
      (drainPendingTools c).2 =
        some { code := c.toolOrder.map (drainDelta c), buffers := [] } ∧
      c.toolOrder.Nodup ∧ c.toolOrder = c.pendingTools.map Prod.fst ∧
      (∀ i ∈ c.toolOrder.map (drainDelta c), i.op = Opcode.STREAM_TOOL_DELTA) ∧
      (drainPendingTools c).1.pendingTools = [] ∧
      (drainPendingTools c).1.toolOrder = [])
  ∧ (∀ (c : StreamConverter), toolBufferWF c →
      (flushConv c).1.pendingTools = [] ∧ (flushConv c).1.toolOrder = [])
  ∧ ((pushProgramLocked (NewStreamConverter StyleChatCompletions StyleGoogleGenAI)
        { code := [{ op := Opcode.STREAM_TOOL_DELTA,
                     json := gs "\x7b\"index\":0,\"id\":\"call_1\",\"name\":\"get_weather\",\"arguments\":\"\x7b\\\"ci\"\x7d" },
                   { op := Opcode.STREAM_TOOL_DELTA,
                     json := gs "\x7b\"index\":0,\"arguments\":\"ty\\\":\\\"Paris\\\"\x7d\"\x7d" }] }).outputs = []
     ∧ (pushProgramLocked (NewStreamConverter StyleChatCompletions StyleGoogleGenAI)
        { code := [{ op := Opcode.STREAM_TOOL_DELTA,
                     json := gs "\x7b\"index\":0,\"id\":\"call_1\",\"name\":\"get_weather\",\"arguments\":\"\x7b\\\"ci\"\x7d" },
                   { op := Opcode.STREAM_TOOL_DELTA,
                     json := gs "\x7b\"index\":0,\"arguments\":\"ty\\\":\\\"Paris\\\"\x7d\"\x7d" }] }).conv.pendingTools =
        [(0, { id := gs "call_1", name := gs "get_weather",
               args := gs "\x7b\"city\":\"Paris\"\x7d" })]
     ∧ (pushProgramLocked (NewStreamConverter StyleChatCompletions StyleGoogleGenAI)
        { code := [{ op := Opcode.STREAM_TOOL_DELTA,
                     json := gs "\x7b\"index\":0,\"id\":\"call_1\",\"name\":\"get_weather\",\"arguments\":\"\x7b\\\"ci\"\x7d" },
                   { op := Opcode.STREAM_TOOL_DELTA,
                     json := gs "\x7b\"index\":0,\"arguments\":\"ty\\\":\\\"Paris\\\"\x7d\"\x7d" }] }).conv.toolOrder = [0]
     ∧ (pushProgramLocked
          (pushProgramLocked (NewStreamConverter StyleChatCompletions StyleGoogleGenAI)
            { code := [{ op := Opcode.STREAM_TOOL_DELTA,
                         json := gs "\x7b\"index\":0,\"id\":\"call_1\",\"name\":\"get_weather\",\"arguments\":\"\x7b\\\"ci\"\x7d" },
                       { op := Opcode.STREAM_TOOL_DELTA,
                         json := gs "\x7b\"index\":0,\"arguments\":\"ty\\\":\\\"Paris\\\"\x7d\"\x7d" }] }).conv
          { code := [{ op := Opcode.RESP_DONE, str := gs "tool_calls" }] }).outputs.map
        (fun o => containsKeyDeep (gs "functionCall") o) = [true, false]
     ∧ (pushProgramLocked
          (pushProgramLocked (NewStreamConverter StyleChatCompletions StyleGoogleGenAI)
            { code := [{ op := Opcode.STREAM_TOOL_DELTA,
                         json := gs "\x7b\"index\":0,\"id\":\"call_1\",\"name\":\"get_weather\",\"arguments\":\"\x7b\\\"ci\"\x7d" },
                       { op := Opcode.STREAM_TOOL_DELTA,
                         json := gs "\x7b\"index\":0,\"arguments\":\"ty\\\":\\\"Paris\\\"\x7d\"\x7d" }] }).conv
          { code := [{ op := Opcode.RESP_DONE, str := gs "tool_calls" }] }).conv.pendingTools = []
     ∧ (pushProgramLocked
          (pushProgramLocked (NewStreamConverter StyleChatCompletions StyleGoogleGenAI)
            { code := [{ op := Opcode.STREAM_TOOL_DELTA,
                         json := gs "\x7b\"index\":0,\"id\":\"call_1\",\"name\":\"get_weather\",\"arguments\":\"\x7b\\\"ci\"\x7d" },
                       { op := Opcode.STREAM_TOOL_DELTA,
                         json := gs "\x7b\"index\":0,\"arguments\":\"ty\\\":\\\"Paris\\\"\x7d\"\x7d" }] }).conv
          { code := [{ op := Opcode.RESP_DONE, str := gs "tool_calls" }] }).conv.toolOrder = []) := by
  refine ⟨?_, ?_, ?_, ?_, ?_, ?_, ?_⟩
  · intro src tgt
    exact ⟨rfl, List.nodup_nil⟩
  · intro c q
    exact ⟨(pushProgramLocked_meta c q).1, (pushProgramLocked_meta c q).2,
           fun h => pushProgramLocked_WF c q h⟩
  · intro c q ht hbt hfree
    exact google_push_no_functionCall c q ht hbt hfree
  · intro c body t bufs ht hbt hwf htrig
    exact pushProgramLocked_trigger_drains c body t bufs ht hbt hwf htrig
  · intro c hwf hne
    exact drainPendingTools_exactly_once c hwf hne
  · intro c hwf
    exact flushConv_clears c hwf
  · exact ⟨rfl, rfl, rfl, rfl, rfl, rfl⟩

/- ─── AnthropicParser.ParseRequest, messages loop (C4) ──────────────────── -/

/-- `json.Unmarshal` of an object into `map[string]json.RawMessage`: later
    duplicate keys overwrite earlier ones.  Go's map iteration order is
    unspecified; the leftover-field loops are modelled in first-insertion
    order (the claim under study does not depend on leftover order). -/
def mapNorm (fs : List (GoStr × Json)) : List (GoStr × Json) :=
  fs.foldl (fun m kv => smapSet m kv.1 kv.2) []

/-- Go's `delete(m, k)`. -/
def mapDel (fs : List (GoStr × Json)) (k : GoStr) : List (GoStr × Json) :=
  fs.filter (fun kv => !decide (kv.1 = k))

/-- An error-ignored `json.Unmarshal(raw, &s)` for a `string` variable:
    the zero value on a missing key, a type error, or `null`. -/
def strOr (o : Option Json) : GoStr := (goStrField o).getD []

/-- `prog.EmitKeyJSON(EXT_DATA, key, val)` over the leftover fields.  A
    `json.RawMessage` is a verbatim sub-slice of the request; it is
    modelled as the compact re-marshalling of the parsed value (equal for
    compact input, and no theorem here depends on the payload bytes). -/
def extData (fs : List (GoStr × Json)) : List Instruction :=
  fs.map (fun kv => { op := Opcode.EXT_DATA, key := kv.1, json := jsonMarshal kv.2 })

/-- The `source` struct unmarshal of the image case (media_type, data);
    a present field of the wrong type fails the whole unmarshal. -/
def imgSource (v : Json) : Option (GoStr × GoStr) :=
  match v with
  | .obj fs =>
      (match goStrField (lookupLast fs (gs "type")),
             goStrField (lookupLast fs (gs "media_type")),
             goStrField (lookupLast fs (gs "data")) with
       | some _, some mt, some dt => some (mt, dt)
       | _, _, _ => none)
  | .null => some ([], [])
  | _ => none

/-- One content block of the messages loop of AnthropicParser.ParseRequest
    (parse_anthropic_request.go:166-276): the instructions this block
    appends and the new buffer list.  A non-object block (other than
    `null`, which unmarshals into a nil map) is skipped. -/
def anthropicBlockEmit (bufs : List GoStr) (rb : Json) : List Instruction × List GoStr :=
  match rb with
  | .obj fs0 =>
      let fs := mapNorm fs0
      let blockType := strOr (lookupLast fs (gs "type"))
      if blockType = gs "text" then
        let text := strOr (lookupLast fs (gs "text"))
        ([{ op := Opcode.TXT_CHUNK, str := text }] ++
           extData (mapDel (mapDel fs (gs "type")) (gs "text")), bufs)
      else if blockType = gs "thinking" then
        let thinking := strOr (lookupLast fs (gs "thinking"))
        let sigPart : List Instruction × List GoStr :=
          match lookupLast fs (gs "signature") with
          | some v =>
              (match goStrField (some v) with
               | some sig =>
                   if sig ≠ [] then
                     ([{ op := Opcode.THINK_REF, ref := bufs.length }], bufs ++ [sig])
                   else ([], bufs)
               | none => ([], bufs))
          | none => ([], bufs)
        ([{ op := Opcode.THINK_START }] ++
           (if thinking ≠ [] then [{ op := Opcode.THINK_CHUNK, str := thinking }] else []) ++
           sigPart.1 ++ [{ op := Opcode.THINK_END }], sigPart.2)
      else if blockType = gs "image" then
        let srcPart : List Instruction × List GoStr × List (GoStr × Json) :=
          match lookupLast fs (gs "source") with
          | some v =>
              (match imgSource v with
               | some (mt, dt) =>
                   ((if mt ≠ [] then
                       [{ op := Opcode.SET_META, key := gs "media_type", str := mt }]
                     else []) ++ [{ op := Opcode.IMG_REF, ref := bufs.length }],
                    bufs ++ [dt], mapDel fs (gs "source"))
               | none => ([], bufs, mapDel fs (gs "source")))
          | none => ([], bufs, fs)
        (srcPart.1 ++ extData (mapDel (mapDel srcPart.2.2 (gs "type")) (gs "text")),
         srcPart.2.1)
      else if blockType = gs "tool_use" then
        let id := strOr (lookupLast fs (gs "id"))
        let nm := strOr (lookupLast fs (gs "name"))
        let fs1 := mapDel (mapDel fs (gs "id")) (gs "name")
        let argsPart : List Instruction × List (GoStr × Json) :=
          match lookupLast fs1 (gs "input") with
          | some v => ([{ op := Opcode.CALL_ARGS, json := jsonMarshal v }],
                       mapDel fs1 (gs "input"))
          | none => ([], fs1)
        ([{ op := Opcode.CALL_START, str := id },
          { op := Opcode.CALL_NAME, str := nm }] ++ argsPart.1 ++
           extData (mapDel argsPart.2 (gs "type")) ++ [{ op := Opcode.CALL_END }], bufs)
      else if blockType = gs "tool_result" then
        let tui := strOr (lookupLast fs (gs "tool_use_id"))
        let fs1 := mapDel fs (gs "tool_use_id")
        let dataPart : List Instruction × List (GoStr × Json) :=
          match lookupLast fs1 (gs "content") with
          | some v =>
              ((match goStrField (some v) with
                | some s => [{ op := Opcode.RESULT_DATA, str := s }]
                | none => []), mapDel fs1 (gs "content"))
          | none => ([], fs1)
        ([{ op := Opcode.RESULT_START, str := tui }] ++ dataPart.1 ++
           extData (mapDel dataPart.2 (gs "type")) ++ [{ op := Opcode.RESULT_END }], bufs)
      else
        (extData (mapDel (mapDel fs (gs "type")) (gs "text")), bufs)
  | _ => ([], bufs)

/-- One message of the messages loop (parse_anthropic_request.go:139-290):
    MSG_START, the role switch — which maps only "user" and "assistant",
    and emits nothing for any other role string —, the content (a string,
    `null`, or a block array), leftover fields, MSG_END.  The surrounding
    envelope handling of ParseRequest (model/temperature/…/system/tools)
    emits only SET_* / ROLE_SYS / DEF_* / EXT_DATA instructions and so
    never contributes a ROLE_TOOL either. -/
def anthropicMsgEmit (bufs : List GoStr) (rm : Json) : List Instruction × List GoStr :=
  match rm with
  | .obj fs0 =>
      let fs := mapNorm fs0
      let roleInstrs : List Instruction :=
        match lookupLast fs (gs "role") with
        | some v =>
            (match goStrField (some v) with
             | some r =>
                 if r = gs "user" then [{ op := Opcode.ROLE_USR }]
                 else if r = gs "assistant" then [{ op := Opcode.ROLE_AST }]
                 else []
             | none => [])
        | none => []
      let fs1 := mapDel fs (gs "role")
      let contentPart : List Instruction × List GoStr :=
        match lookupLast fs1 (gs "content") with
        | some (.str sv) => ([{ op := Opcode.TXT_CHUNK, str := sv }], bufs)
        | some .null => ([{ op := Opcode.TXT_CHUNK, str := [] }], bufs)
        | some (.arr blocks) =>
            blocks.foldl
              (fun st b =>
                let e := anthropicBlockEmit st.2 b
                (st.1 ++ e.1, e.2))
              ([], bufs)
        | some _ => ([], bufs)
        | none => ([], bufs)
      let fs2 := mapDel fs1 (gs "content")
      ([{ op := Opcode.MSG_START }] ++ roleInstrs ++ contentPart.1 ++
         extData fs2 ++ [{ op := Opcode.MSG_END }], contentPart.2)
  | .null => ([{ op := Opcode.MSG_START }, { op := Opcode.MSG_END }], bufs)
  | _ => ([], bufs)

/-- The messages loop of AnthropicParser.ParseRequest over the unmarshalled
    `messages` array. -/
def anthropicParseMessages (msgs : List Json) : List Instruction × List GoStr :=
  msgs.foldl
    (fun st rm =>
      let e := anthropicMsgEmit st.2 rm
      (st.1 ++ e.1, e.2))
    ([], [])

theorem extData_op (fs : List (GoStr × Json)) (i : Instruction)
    (h : i ∈ extData fs) : i.op = Opcode.EXT_DATA := by
  obtain ⟨kv, _, rfl⟩ := List.mem_map.mp h
  rfl

theorem anthropicBlockEmit_no_role_tool (bufs : List GoStr) (rb : Json) :
    ∀ i ∈ (anthropicBlockEmit bufs rb).1, i.op ≠ Opcode.ROLE_TOOL := by
  intro i hi
  cases rb <;> simp only [anthropicBlockEmit] at hi <;>
    try exact absurd hi (List.not_mem_nil i)
  repeat' split at hi
  all_goals
    repeat' rcases List.mem_append.mp hi with hi | hi
  all_goals
    first
      | exact absurd hi (List.not_mem_nil i)
      | (rw [List.mem_singleton] at hi
         subst hi
         exact fun hc => Opcode.noConfusion hc)
      | (rw [extData_op _ i hi]
         exact fun hc => Opcode.noConfusion hc)
      | (rcases List.mem_cons.mp hi with h | h
         · subst h
           exact fun hc => Opcode.noConfusion hc
         · rw [List.mem_singleton] at h
           subst h
           exact fun hc => Opcode.noConfusion hc)

theorem anthropicBlockFold_no_role_tool (blocks : List Json) :
    ∀ (st : List Instruction × List GoStr),
      (∀ i ∈ st.1, i.op ≠ Opcode.ROLE_TOOL) →
      ∀ i ∈ (blocks.foldl
          (fun st b =>
            let e := anthropicBlockEmit st.2 b
            (st.1 ++ e.1, e.2)) st).1,
        i.op ≠ Opcode.ROLE_TOOL := by
  induction blocks with
  | nil => intro st h; exact h
  | cons b rest ih =>
      intro st h
      rw [List.foldl_cons]
      refine ih _ ?_
      intro i hi
      rcases List.mem_append.mp hi with h2 | h2
      · exact h i h2
      · exact anthropicBlockEmit_no_role_tool st.2 b i h2

theorem anthropicMsgEmit_no_role_tool (bufs : List GoStr) (rm : Json) :
    ∀ i ∈ (anthropicMsgEmit bufs rm).1, i.op ≠ Opcode.ROLE_TOOL := by
  intro i hi
  cases rm <;> simp only [anthropicMsgEmit] at hi <;>
    try exact absurd hi (List.not_mem_nil i)
  case null =>
    rcases List.mem_cons.mp hi with h | h
    · subst h
      exact fun hc => Opcode.noConfusion hc
    · rw [List.mem_singleton] at h
      subst h
      exact fun hc => Opcode.noConfusion hc
  repeat' split at hi
  all_goals
    repeat' rcases List.mem_append.mp hi with hi | hi
  all_goals
    first
      | exact absurd hi (List.not_mem_nil i)
      | (rw [List.mem_singleton] at hi
         subst hi
         exact fun hc => Opcode.noConfusion hc)
      | (rw [extData_op _ i hi]
         exact fun hc => Opcode.noConfusion hc)
      | exact anthropicBlockFold_no_role_tool _ _
          (fun j hj => absurd hj (List.not_mem_nil j)) i hi

theorem anthropicParseMessages_aux (msgs : List Json) :
    ∀ (st : List Instruction × List GoStr),
      (∀ i ∈ st.1, i.op ≠ Opcode.ROLE_TOOL) →
      ∀ i ∈ (msgs.foldl
          (fun st rm =>
            let e := anthropicMsgEmit st.2 rm
            (st.1 ++ e.1, e.2)) st).1,
        i.op ≠ Opcode.ROLE_TOOL := by
  induction msgs with
  | nil => intro st h; exact h
  | cons m rest ih =>
      intro st h
      rw [List.foldl_cons]
      refine ih _ ?_
      intro i hi
      rcases List.mem_append.mp hi with h2 | h2
      · exact h i h2
      · exact anthropicMsgEmit_no_role_tool st.2 m i h2

/-- C4.  The role switch of AnthropicParser.ParseRequest maps only "user"
    and "assistant"; no branch of the messages loop (or of the request
    envelope) ever emits ROLE_TOOL.  In particular the canonical Anthropic
    shape — a user message whose content holds a tool_result block — comes
    out as RESULT_START/RESULT_DATA/RESULT_END inside a ROLE_USR message,
    violating the claimed mapping (and invariant §3.3(3), which the spec
    states for exactly this construction). -/
theorem anthropic_tool_result_message_keeps_user_role :
    (∀ (msgs : List Json), ∀ i ∈ (anthropicParseMessages msgs).1,
        i.op ≠ Opcode.ROLE_TOOL)
    ∧ (anthropicParseMessages
        [Json.obj [(gs "role", .str (gs "user")),
                   (gs "content", .arr [Json.obj
                     [(gs "type", .str (gs "tool_result")),
                      (gs "tool_use_id", .str (gs "call_1")),
                      (gs "content", .str (gs "ok"))]])]]).1 =
      [{ op := Opcode.MSG_START },
       { op := Opcode.ROLE_USR },
       { op := Opcode.RESULT_START, str := gs "call_1" },
       { op := Opcode.RESULT_DATA, str := gs "ok" },
       { op := Opcode.RESULT_END },
       { op := Opcode.MSG_END }] :=
  ⟨fun msgs => anthropicParseMessages_aux msgs ([], [])
      (fun j hj => absurd hj (List.not_mem_nil j)),
   rfl⟩

/- ─── Asm / Disasm (C2) ─────────────────────────────────────────────────── -/

/-- ASCII whitespace, as `strings.TrimSpace` treats it.  (Go also trims
    non-ASCII Unicode spaces; the listings handled here — opcode mnemonics,
    ASCII arguments, base64 — never place non-ASCII bytes where trimming
    looks.) -/
def isWS (b : Nat) : Bool :=
  b == 9 || b == 10 || b == 11 || b == 12 || b == 13 || b == 32

def trimLeft : GoStr → GoStr
  | [] => []
  | b :: r => if isWS b then trimLeft r else b :: r

def trimRight (s : GoStr) : GoStr := (trimLeft s.reverse).reverse

def trimSpace (s : GoStr) : GoStr := trimRight (trimLeft s)

/-- splitFirst (asm.go:232-238): split on the first space byte. -/
def splitFirst : GoStr → GoStr × GoStr
  | [] => ([], [])
  | b :: r =>
      if b = 32 then ([], r)
      else
        let p := splitFirst r
        (b :: p.1, p.2)

/-- `strings.Split(text, "\n")`. -/
def splitNl : GoStr → List GoStr
  | [] => [[]]
  | b :: r =>
      if b = 10 then [] :: splitNl r
      else
        match splitNl r with
        | [] => [[b]]
        | l :: ls => (b :: l) :: ls

/-- The standard base64 alphabet. -/
def b64Char (n : Nat) : Nat :=
  if n < 26 then 65 + n
  else if n < 52 then 97 + (n - 26)
  else if n < 62 then 48 + (n - 52)
  else if n = 62 then 43
  else 47

def b64Val (c : Nat) : Option Nat :=
  if 65 ≤ c ∧ c ≤ 90 then some (c - 65)
  else if 97 ≤ c ∧ c ≤ 122 then some (c - 97 + 26)
  else if 48 ≤ c ∧ c ≤ 57 then some (c - 48 + 52)
  else if c = 43 then some 62
  else if c = 47 then some 63
  else none

/-- `base64.StdEncoding.EncodeToString`. -/
def b64Enc : GoStr → GoStr
  | [] => []
  | [a] => [b64Char (a / 4), b64Char (a % 4 * 16), 61, 61]
  | [a, b] => [b64Char (a / 4), b64Char (a % 4 * 16 + b / 16), b64Char (b % 16 * 4), 61]
  | a :: b :: c :: r =>
      b64Char (a / 4) :: b64Char (a % 4 * 16 + b / 16) ::
      b64Char (b % 16 * 4 + c / 64) :: b64Char (c % 64) :: b64Enc r

/-- `base64.StdEncoding.DecodeString` (non-strict: trailing bits are not
    checked; padding only at the very end). -/
def b64Dec : GoStr → Option GoStr
  | [] => some []
  | c1 :: c2 :: c3 :: c4 :: r =>
      (match b64Val c1, b64Val c2 with
       | some v1, some v2 =>
           if c3 = 61 then
             if c4 = 61 ∧ r = [] then some [v1 * 4 + v2 / 16] else none
           else
             (match b64Val c3 with
              | some v3 =>
                  if c4 = 61 then
                    if r = [] then some [v1 * 4 + v2 / 16, v2 % 16 * 16 + v3 / 4]
                    else none
                  else
                    (match b64Val c4 with
                     | some v4 =>
                         (b64Dec r).map
                           (fun t => (v1 * 4 + v2 / 16) :: (v2 % 16 * 16 + v3 / 4) ::
                                     (v3 % 4 * 64 + v4) :: t)
                     | none => none)
              | none => none)
       | _, _ => none)
  | _ => none

/-- `strconv.ParseUint(s, 10, 32)`. -/
def parseUintGo (s : GoStr) : Option Nat :=
  (decNat s).bind (fun n => if n < 2 ^ 32 then some n else none)

/-- `strconv.ParseInt(s, 10, 32)`. -/
def parseIntGo (s : GoStr) : Option Int :=
  match s with
  | 45 :: r => (decNat r).bind (fun n => if n ≤ 2 ^ 31 then some (-(n : Int)) else none)
  | 43 :: r => (decNat r).bind (fun n => if n < 2 ^ 31 then some ((n : Int)) else none)
  | _ => (decNat s).bind (fun n => if n < 2 ^ 31 then some ((n : Int)) else none)

/-- The copying loop of `json.Compact`: drop whitespace outside string
    literals, keep everything else byte-for-byte (no re-escaping). -/
def compactScan : Bool → Bool → GoStr → GoStr
  | _, _, [] => []
  | true, true, b :: r => b :: compactScan true false r
  | true, false, b :: r =>
      if b = 92 then b :: compactScan true true r
      else if b = 34 then 34 :: compactScan false false r
      else b :: compactScan true false r
  | false, es, b :: r =>
      if jsWS b then compactScan false es r
      else if b = 34 then 34 :: compactScan true false r
      else b :: compactScan false es r

/-- `json.Valid` — one JSON value plus optional trailing whitespace. -/
def jsonValid (bs : GoStr) : Bool := (jsonParse bs).isSome

/-- `compactJSON` of Asm (asm.go:89-96): `json.Compact` succeeds exactly on
    valid input; on error the raw bytes come back unchanged. -/
def compactJSON (raw : GoStr) : GoStr :=
  if jsonValid raw then compactScan false false raw else raw

/-- Every opcode of opcodes.go (the domain of `opcodeNames`). -/
def opcodeList : List Opcode :=
  [.MSG_START, .MSG_END, .ROLE_SYS, .ROLE_USR, .ROLE_AST, .ROLE_TOOL,
   .TXT_CHUNK, .IMG_REF, .AUD_REF, .TXT_REF,
   .THINK_START, .THINK_CHUNK, .THINK_END, .THINK_REF,
   .DEF_START, .DEF_NAME, .DEF_DESC, .DEF_SCHEMA, .DEF_END,
   .CALL_START, .CALL_NAME, .CALL_ARGS, .CALL_END,
   .RESULT_START, .RESULT_DATA, .RESULT_END,
   .RESP_ID, .RESP_MODEL, .RESP_DONE, .USAGE,
   .STREAM_START, .STREAM_DELTA, .STREAM_TOOL_DELTA, .STREAM_END,
   .STREAM_THINK_DELTA,
   .SET_MODEL, .SET_TEMP, .SET_TOPP, .SET_STOP, .SET_MAX, .SET_STREAM,
   .SET_THINK, .EXT_DATA, .SET_META]

/-- The reverse mnemonic lookup `nameToOpcode`. -/
def nameToOpcode (n : GoStr) : Option Opcode :=
  opcodeList.find? (fun op => decide (opcodeName op = n))

/-- The argument-category sets of asm.go:22-51. -/
def stringArgOp : Opcode → Bool
  | .TXT_CHUNK | .DEF_NAME | .DEF_DESC | .CALL_START | .CALL_NAME
  | .RESULT_START | .RESULT_DATA | .RESP_ID | .RESP_MODEL | .RESP_DONE
  | .SET_MODEL | .SET_STOP | .STREAM_DELTA | .THINK_CHUNK
  | .STREAM_THINK_DELTA => true
  | _ => false

def floatArgOp : Opcode → Bool
  | .SET_TEMP | .SET_TOPP => true
  | _ => false

def intArgOp : Opcode → Bool
  | .SET_MAX => true
  | _ => false

def jsonArgOp : Opcode → Bool
  | .DEF_SCHEMA | .CALL_ARGS | .USAGE | .STREAM_TOOL_DELTA | .SET_THINK => true
  | _ => false

def refArgOp : Opcode → Bool
  | .IMG_REF | .AUD_REF | .TXT_REF | .THINK_REF => true
  | _ => false

/-- Left-zero padding of the 4-digit fractional field of `%.4f`. -/
def pad4 (n : Nat) : GoStr :=
  let d := natDec n
  List.replicate (4 - d.length) 48 ++ d

/-- `fmt.Sprintf("%.4f", f)` on a float64 bit pattern: the exact binary
    value rounded (half to even) to four decimals; `-0.0` keeps its sign;
    non-finite values render as `+Inf` / `-Inf` / `NaN`. -/
def f64Fmt (bits : Nat) : GoStr :=
  let sgn := bits / 2 ^ 63 % 2
  let e := bits / 2 ^ 52 % 2 ^ 11
  let f := bits % 2 ^ 52
  if e = 2047 then
    if f = 0 then (if sgn = 1 then gs "-Inf" else gs "+Inf") else gs "NaN"
  else
    let m := if e = 0 then f else 2 ^ 52 + f
    let p := if e = 0 then 1 else e
    let num := m * 10 ^ 4 * 2 ^ p
    let den := 2 ^ 1075
    let q := num / den
    let r := num % den
    let q2 := if 2 * r > den then q + 1
              else if 2 * r < den then q
              else if q % 2 = 1 then q + 1 else q
    let digits := natDec (q2 / 10 ^ 4) ++ (46 :: pad4 (q2 % 10 ^ 4))
    if sgn = 1 then 45 :: digits else digits

/-- `a / d` rounded to the nearest integer, ties to even. -/
def roundDiv (a d : Nat) : Nat :=
  let q := a / d
  let r := a % d
  if 2 * r > d then q + 1 else if 2 * r < d then q else if q % 2 = 1 then q + 1 else q

/-- The mantissa of `num/den` at binary exponent `P`: round(num/den · 2^-P). -/
def mantAt (num den : Nat) (P : Int) : Nat :=
  if P ≤ 0 then roundDiv (num * 2 ^ (-P).toNat) den
  else roundDiv num (den * 2 ^ P.toNat)

/-- The binary64 bit pattern nearest `(-1)^sgn · num/den` (ties to even);
    `none` models strconv's ErrRange (overflow to ±Inf or underflow to 0),
    on which Asm fails. -/
def f64OfRat (sgn : Nat) (num den : Nat) : Option Nat :=
  if num = 0 then some (sgn * 2 ^ 63)
  else
    let shift := den.log2 + 66
    let q := num * 2 ^ shift / den
    let E : Int := (q.log2 : Int) - shift
    let P0 : Int := max (E - 52) (-1074)
    let m0 := mantAt num den P0
    let s1 : Nat × Int :=
      if m0 ≥ 2 ^ 53 then (mantAt num den (P0 + 1), P0 + 1)
      else if m0 < 2 ^ 52 ∧ P0 > -1074 then (mantAt num den (P0 - 1), P0 - 1)
      else (m0, P0)
    let s2 : Nat × Int :=
      if s1.1 ≥ 2 ^ 53 then (mantAt num den (s1.2 + 1), s1.2 + 1) else s1
    if s2.1 = 0 then none
    else if s2.2 + 1075 ≥ 2047 then none
    else if s2.1 ≥ 2 ^ 52 then
      some (sgn * 2 ^ 63 + (s2.2 + 1075).toNat * 2 ^ 52 + (s2.1 - 2 ^ 52))
    else some (sgn * 2 ^ 63 + s2.1)

def asciiLower (b : Nat) : Nat := if 65 ≤ b ∧ b ≤ 90 then b + 32 else b

/-- `strconv.ParseFloat(s, 64)` for the forms Disasm can meet — decimal
    literals with optional fraction/exponent, and the Inf/NaN words.
    (Hexadecimal float literals and digit-separating underscores, which no
    listing produced by Disasm contains, are not modelled.)  `none` is the
    error case, on which Asm fails. -/
def parseFloatGo (s : GoStr) : Option Nat :=
  let low := s.map asciiLower
  if low = gs "inf" ∨ low = gs "+inf" ∨ low = gs "infinity" ∨ low = gs "+infinity" then
    some (2047 * 2 ^ 52)
  else if low = gs "-inf" ∨ low = gs "-infinity" then
    some (2 ^ 63 + 2047 * 2 ^ 52)
  else if low = gs "nan" then
    some (2047 * 2 ^ 52 + 2 ^ 51)
  else
    let sp : Nat × GoStr :=
      match s with
      | 45 :: r => (1, r)
      | 43 :: r => (0, r)
      | _ => (0, s)
    let d1 := sp.2.takeWhile isDigit
    let t1 := sp.2.drop d1.length
    let fr : Option (GoStr × GoStr) :=
      match t1 with
      | 46 :: r =>
          let d2 := r.takeWhile isDigit
          some (d2, r.drop d2.length)
      | _ => some ([], t1)
    match fr with
    | none => none
    | some (d2, t2) =>
        if d1 = [] ∧ d2 = [] then none
        else
          let ex : Option (Int × GoStr) :=
            match t2 with
            | 101 :: r | 69 :: r =>
                (match r with
                 | 45 :: r2 =>
                     let d3 := r2.takeWhile isDigit
                     if d3 = [] then none
                     else some (-(((decNat d3).getD 0 : Nat) : Int), r2.drop d3.length)
                 | 43 :: r2 =>
                     let d3 := r2.takeWhile isDigit
                     if d3 = [] then none
                     else some (((decNat d3).getD 0 : Nat), r2.drop d3.length)
                 | _ =>
                     let d3 := r.takeWhile isDigit
                     if d3 = [] then none
                     else some (((decNat d3).getD 0 : Nat), r.drop d3.length))
            | _ => some (0, t2)
          match ex with
          | none => none
          | some (e10, t3) =>
              if t3 ≠ [] then none
              else
                let mant := (decNat (d1 ++ d2)).getD 0
                let e' : Int := e10 - (d2.length : Int)
                let num := if e' ≥ 0 then mant * 10 ^ e'.toNat else mant
                let den := if e' ≥ 0 then 1 else 10 ^ (-e').toNat
                f64OfRat sp.1 num den

def isEndOp : Opcode → Bool
  | .MSG_END | .DEF_END | .CALL_END | .RESULT_END | .STREAM_END | .THINK_END => true
  | _ => false

def isStartOp : Opcode → Bool
  | .MSG_START | .DEF_START | .CALL_START | .RESULT_START | .STREAM_START
  | .THINK_START => true
  | _ => false

/-- The argument bytes one instruction contributes to its Disasm line
    (disasm.go:46-106).  The category case lists are those of the disasm
    switch (its `SET_FMT` JSON case names an opcode defined outside the
    sources at hand and is omitted, like `COMMENT` in the binary codec). -/
def disasmArg (inst : Instruction) : GoStr :=
  if stringArgOp inst.op then
    (if 10 ∈ inst.str then (gs " <<<" ++ [10]) ++ inst.str ++ (10 :: gs ">>>")
     else 32 :: inst.str)
  else if floatArgOp inst.op then 32 :: f64Fmt inst.num
  else if intArgOp inst.op then 32 :: intDec inst.int
  else if refArgOp inst.op then gs " ref:" ++ natDec inst.ref
  else if jsonArgOp inst.op then 32 :: compactJSON inst.json
  else if inst.op = .SET_META then 32 :: (inst.key ++ (32 :: inst.str))
  else if inst.op = .EXT_DATA then 32 :: (inst.key ++ (32 :: compactJSON inst.json))
  else []

/-- One instruction of Program.Disasm (disasm.go:31-110): threading the
    indent level and appending this instruction's line bytes. -/
def disasmInstr (st : Nat × GoStr) (inst : Instruction) : Nat × GoStr :=
  let ind1 := if isEndOp inst.op then st.1 - 1 else st.1
  let ind2 := if isStartOp inst.op then ind1 + 1 else ind1
  (ind2,
   st.2 ++ ((List.replicate (2 * ind1) 32 ++ opcodeName inst.op ++ disasmArg inst) ++ [10]))

/-- The `.ref i base64` directive lines of Disasm's buffer loop
    (disasm.go:23-28), indices counting from `n`. -/
def refLines : Nat → List GoStr → List GoStr
  | _, [] => []
  | n, b :: rest => ((gs ".ref " ++ natDec n) ++ (32 :: b64Enc b)) :: refLines (n + 1) rest

/-- Program.Disasm (disasm.go:19-113) as the byte string it builds:
    base64 `.ref` directives and a blank separator when there are buffers,
    then the indented instruction listing. -/
def disasmStr (p : Program) : GoStr :=
  (if p.buffers.length > 0 then
     ((refLines 0 p.buffers).map (· ++ [10])).flatten ++ [10]
   else []) ++
  (p.code.foldl disasmInstr (0, [])).2

def gsPrefix : GoStr → GoStr → Bool
  | [], _ => true
  | _ :: _, [] => false
  | a :: pre, b :: s => a == b && gsPrefix pre s

/-- collectHeredoc (asm.go:77-87): the body lines before the first line
    whose trimmed content is `>>>`, and the lines after it. -/
def collectHeredocLines : List GoStr → Option (List GoStr × List GoStr)
  | [] => none
  | l :: rest =>
      if trimSpace l = gs ">>>" then some ([], rest)
      else (collectHeredocLines rest).map (fun pr => (l :: pr.1, pr.2))

/-- `strings.Join(parts, "\n")`. -/
def joinNl : List GoStr → GoStr
  | [] => []
  | [l] => l
  | l :: ls => l ++ 10 :: joinNl ls

/-- The argument handling of one mnemonic line of Asm (asm.go:140-221):
    the single instruction the line emits and the lines processing resumes
    with (heredoc bodies are consumed from the following lines), or the
    error. -/
def asmArg (op : Opcode) (restArg : GoStr) (rest : List GoStr) :
    Except Unit (Instruction × List GoStr) :=
  if stringArgOp op then
    (if trimSpace restArg = gs "<<<" then
       match collectHeredocLines rest with
       | some (bodyLines, rest2) => .ok ({ op := op, str := joinNl bodyLines }, rest2)
       | none => .error ()
     else .ok ({ op := op, str := restArg }, rest))
  else if floatArgOp op then
    (match parseFloatGo (trimSpace restArg) with
     | some bits => .ok ({ op := op, num := bits }, rest)
     | none => .error ())
  else if intArgOp op then
    (match parseIntGo (trimSpace restArg) with
     | some n => .ok ({ op := op, int := n }, rest)
     | none => .error ())
  else if jsonArgOp op then
    (if trimSpace restArg = gs "<<<" then
       match collectHeredocLines rest with
       | some (bodyLines, rest2) =>
           let j2 := compactJSON (trimSpace (joinNl bodyLines))
           if jsonValid j2 then .ok (({ op := op, json := j2 } : Instruction), rest2)
           else .error ()
       | none => .error ()
     else
       let j2 := compactJSON (trimSpace restArg)
       if jsonValid j2 then .ok (({ op := op, json := j2 } : Instruction), rest)
       else .error ())
  else if refArgOp op then
    (let r := trimSpace restArg
     if gsPrefix (gs "ref:") r then
       match parseUintGo (r.drop 4) with
       | some n => .ok ({ op := op, ref := n }, rest)
       | none => .error ()
     else .error ())
  else if op = .SET_META then
    (let kv := splitFirst restArg
     if kv.1 = [] then .error ()
     else .ok ({ op := op, key := kv.1, str := kv.2 }, rest))
  else if op = .EXT_DATA then
    (let kv := splitFirst restArg
     if kv.1 = [] then .error ()
     else
       if trimSpace kv.2 = gs "<<<" then
         match collectHeredocLines rest with
         | some (bodyLines, rest2) =>
             if trimSpace (joinNl bodyLines) = [] then .error ()
             else
               let j2 := compactJSON (trimSpace (joinNl bodyLines))
               if jsonValid j2 then
                 .ok (({ op := op, key := kv.1, json := j2 } : Instruction), rest2)
               else .error ()
         | none => .error ()
       else
         if kv.2 = [] then .error ()
         else
           let j2 := compactJSON kv.2
           if jsonValid j2 then
             .ok (({ op := op, key := kv.1, json := j2 } : Instruction), rest)
           else .error ())
  else .ok ({ op := op }, rest)

/-- The line loop of Asm (asm.go:71-227), fuel-bounded (every step consumes
    at least the current line, so the line count is enough fuel). -/
def asmGo : Nat → List GoStr → Program → Except Unit Program
  | _, [], p => .ok p
  | 0, _ :: _, _ => .error ()
  | fuel + 1, lraw :: rest, p =>
      let line := trimSpace lraw
      if line = [] then asmGo fuel rest p
      else if line.head? = some 59 then asmGo fuel rest p
      else if gsPrefix (gs ".ref ") line then
        (let body := line.drop 5
         if 32 ∈ body then
           let pr := splitFirst body
           match parseUintGo (trimSpace pr.1), b64Dec (trimSpace pr.2) with
           | some idx, some data =>
               let bufs1 := p.buffers ++ List.replicate (idx + 1 - p.buffers.length) []
               asmGo fuel rest { p with buffers := bufs1.set idx data }
           | _, _ => .error ()
         else .error ())
      else
        let pr := splitFirst line
        match nameToOpcode pr.1 with
        | none => .error ()
        | some op =>
            match asmArg op pr.2 rest with
            | .ok (inst, rest2) => asmGo fuel rest2 { p with code := p.code ++ [inst] }
            | .error () => .error ()

/-- Asm (asm.go:71-230). -/
def asmRun (text : GoStr) : Except Unit Program :=
  asmGo (splitNl text).length (splitNl text) { code := [], buffers := [] }

/-- A byte list free of ASCII whitespace. -/
def noWS (s : GoStr) : Bool := s.all (fun b => !isWS b)

/-- The exact-round-trip class of instructions (see the C2 analysis): the
    argument fields outside the opcode's category are at their zero
    values; string arguments are ASCII, single-line, with no trailing
    whitespace and not trimming to `<<<` (trailing whitespace is eaten by
    TrimSpace, a lone `<<<` triggers heredoc mode); float instructions are
    excluded (`%.4f` is lossy); ints are in int32 range and refs in uint32
    range; JSON arguments are ASCII, valid and already compact (Disasm
    re-compacts, so only compact arguments round-trip byte-identically);
    SET_META / EXT_DATA keys are non-empty and whitespace-free (the key
    ends at the first space). -/
def instrWFb (i : Instruction) : Bool :=
  if stringArgOp i.op then
    decide (10 ∉ i.str) && decide (trimRight i.str = i.str) &&
    decide (trimSpace i.str ≠ gs "<<<") && i.str.all (· < 128) &&
    decide (i.num = 0) && decide (i.int = 0) && decide (i.json = []) &&
    decide (i.key = []) && decide (i.ref = 0)
  else if floatArgOp i.op then false
  else if intArgOp i.op then
    decide (-(2 ^ 31 : Int) ≤ i.int) && decide (i.int < 2 ^ 31) &&
    decide (i.str = []) && decide (i.num = 0) && decide (i.json = []) &&
    decide (i.key = []) && decide (i.ref = 0)
  else if jsonArgOp i.op then
    jsonValid i.json && decide (compactScan false false i.json = i.json) &&
    decide (trimSpace i.json = i.json) && decide (10 ∉ i.json) &&
    i.json.all (· < 128) && decide (i.json ≠ []) &&
    decide (i.str = []) && decide (i.num = 0) && decide (i.int = 0) &&
    decide (i.key = []) && decide (i.ref = 0)
  else if refArgOp i.op then
    decide (i.ref < 2 ^ 32) &&
    decide (i.str = []) && decide (i.num = 0) && decide (i.int = 0) &&
    decide (i.json = []) && decide (i.key = [])
  else if i.op = .SET_META then
    decide (i.key ≠ []) && noWS i.key && i.key.all (· < 128) &&
    decide (10 ∉ i.str) && decide (trimRight i.str = i.str) && i.str.all (· < 128) &&
    decide (i.num = 0) && decide (i.int = 0) && decide (i.json = []) &&
    decide (i.ref = 0)
  else if i.op = .EXT_DATA then
    decide (i.key ≠ []) && noWS i.key && i.key.all (· < 128) &&
    jsonValid i.json && decide (compactScan false false i.json = i.json) &&
    decide (trimSpace i.json = i.json) && decide (10 ∉ i.json) &&
    i.json.all (· < 128) && decide (i.json ≠ []) &&
    decide (i.str = []) && decide (i.num = 0) && decide (i.int = 0) &&
    decide (i.ref = 0)
  else
    decide (i.str = []) && decide (i.num = 0) && decide (i.int = 0) &&
    decide (i.json = []) && decide (i.key = []) && decide (i.ref = 0)

/-- The exact-round-trip class of programs: every instruction in the class
    above, every buffer non-empty with byte values (Go bytes), and fewer
    than 2^32 buffers (the `.ref` index must parse as a uint32). -/
def progWFb (p : Program) : Bool :=
  p.code.all instrWFb &&
  p.buffers.all (fun b => decide (b ≠ []) && b.all (· < 256)) &&
  decide (p.buffers.length < 2 ^ 32)

/-- C2 (counterexample).  The one-instruction program `TXT_CHUNK "a "`:
    Disasm renders the line `TXT_CHUNK a ` and Asm's TrimSpace eats the
    trailing space, so the round trip yields `TXT_CHUNK "a"` — a program
    whose binary encoding differs from the original's. -/
theorem asm_disasm_trailing_space_counterexample :
    disasmStr { code := [{ op := Opcode.TXT_CHUNK, str := gs "a " }] } =
      gs "TXT_CHUNK a \n"
  ∧ asmRun (disasmStr { code := [{ op := Opcode.TXT_CHUNK, str := gs "a " }] }) =
      Except.ok { code := [{ op := Opcode.TXT_CHUNK, str := gs "a" }] }
  ∧ (encode { code := [{ op := Opcode.TXT_CHUNK, str := gs "a " }] }).toOption ≠
      (encode { code := [{ op := Opcode.TXT_CHUNK, str := gs "a" }] }).toOption :=
  ⟨rfl, rfl, by decide⟩

/- ─── Round-trip support lemmas (C2) ────────────────────────────────────── -/

theorem trimLeft_replicate_space (k : Nat) (x : GoStr) :
    trimLeft (List.replicate k 32 ++ x) = trimLeft x := by
  induction k with
  | zero => rfl
  | succ n ih => simpa [trimLeft, isWS] using ih

theorem trimLeft_cons_nonWS (b : Nat) (r : GoStr) (h : isWS b = false) :
    trimLeft (b :: r) = b :: r := by
  simp [trimLeft, h]

theorem trimLeft_length_le (s : GoStr) : (trimLeft s).length ≤ s.length := by
  induction s with
  | nil => exact Nat.le_refl 0
  | cons b r ih =>
      unfold trimLeft
      split
      · exact Nat.le_trans ih (by simp)
      · simp

theorem trimRight_concat_nonWS (x : GoStr) (b : Nat) (h : isWS b = false) :
    trimRight (x ++ [b]) = x ++ [b] := by
  unfold trimRight
  rw [List.reverse_append, List.reverse_singleton, List.singleton_append,
      trimLeft_cons_nonWS b _ h]
  simp

theorem trimRight_concat_WS (x : GoStr) (b : Nat) (h : isWS b = true) :
    trimRight (x ++ [b]) = trimRight x := by
  unfold trimRight
  rw [List.reverse_append, List.reverse_singleton, List.singleton_append]
  congr 1
  simp [trimLeft, h]

theorem last_nonWS_of_trimRight_eq (s : GoStr) (hne : s ≠ []) (h : trimRight s = s) :
    ∃ y b, s = y ++ [b] ∧ isWS b = false := by
  rcases List.eq_nil_or_concat s with rfl | ⟨y, b, rfl⟩
  · exact absurd rfl hne
  · rw [List.concat_eq_append] at h hne ⊢
    refine ⟨y, b, rfl, ?_⟩
    by_contra hc
    rw [Bool.not_eq_false] at hc
    rw [trimRight_concat_WS y b hc] at h
    have h1 : (trimRight y).length ≤ y.length := by
      unfold trimRight
      simpa using trimLeft_length_le y.reverse
    rw [h] at h1
    simp at h1

theorem splitFirst_append_space (a b : GoStr) (h : 32 ∉ a) :
    splitFirst (a ++ 32 :: b) = (a, b) := by
  induction a with
  | nil => simp [splitFirst]
  | cons x r ih =>
      have hx : x ≠ 32 := fun hc => h (hc ▸ List.mem_cons_self x r)
      have hr : 32 ∉ r := fun hc => h (List.mem_cons_of_mem _ hc)
      simp [splitFirst, hx, ih hr]

theorem splitFirst_no_space (a : GoStr) (h : 32 ∉ a) : splitFirst a = (a, []) := by
  induction a with
  | nil => rfl
  | cons x r ih =>
      have hx : x ≠ 32 := fun hc => h (hc ▸ List.mem_cons_self x r)
      have hr : 32 ∉ r := fun hc => h (List.mem_cons_of_mem _ hc)
      simp [splitFirst, hx, ih hr]

theorem splitNl_append (a b : GoStr) (h : 10 ∉ a) :
    splitNl (a ++ 10 :: b) = a :: splitNl b := by
  induction a with
  | nil => simp [splitNl]
  | cons x r ih =>
      have hx : x ≠ 10 := fun hc => h (hc ▸ List.mem_cons_self x r)
      have hr : 10 ∉ r := fun hc => h (List.mem_cons_of_mem _ hc)
      rw [List.cons_append]
      have hstep : splitNl (x :: (r ++ 10 :: b)) =
          (if x = 10 then [] :: splitNl (r ++ 10 :: b)
           else match splitNl (r ++ 10 :: b) with
                | [] => [[x]]
                | l :: ls => (x :: l) :: ls) := rfl
      rw [hstep, if_neg hx, ih hr]

theorem gsPrefix_append (a b : GoStr) : gsPrefix a (a ++ b) = true := by
  induction a with
  | nil => rfl
  | cons x r ih => simp [gsPrefix, ih]

theorem natDecAux_ne_nil (fuel n : Nat) : natDecAux fuel n ≠ [] := by
  cases fuel with
  | zero => simp [natDecAux]
  | succ fuel =>
      unfold natDecAux
      split
      · simp
      · simp

/-- Digit-list evaluation of `natDecAux` under decNat's fold. -/
theorem natDecAux_fold (fuel : Nat) :
    ∀ n, n ≤ fuel →
      ∃ k, k ≠ 0 ∧ ∀ (m : Nat),
        (natDecAux fuel n).foldl
          (fun acc b =>
            match acc with
            | none => none
            | some v => if 48 ≤ b ∧ b ≤ 57 then some (v * 10 + (b - 48)) else none)
          (some m) = some (m * 10 ^ k + n) := by
  induction fuel with
  | zero =>
      intro n hn
      obtain rfl : n = 0 := Nat.le_zero.mp hn
      exact ⟨1, one_ne_zero, fun m => by simp [natDecAux]⟩
  | succ fuel ih =>
      intro n hn
      by_cases h10 : n < 10
      · refine ⟨1, one_ne_zero, fun m => ?_⟩
        simp only [natDecAux, if_pos h10, List.foldl_cons, List.foldl_nil]
        rw [if_pos (by omega : 48 ≤ 48 + n ∧ 48 + n ≤ 57)]
        rw [pow_one]
        congr 1
        omega
      · have hdiv : n / 10 ≤ fuel := by
          have := Nat.div_lt_self (by omega : 0 < n) (by omega : 1 < 10)
          omega
        obtain ⟨k, hk0, hk⟩ := ih (n / 10) hdiv
        refine ⟨k + 1, Nat.succ_ne_zero k, fun m => ?_⟩
        simp only [natDecAux, if_neg h10, List.foldl_append, List.foldl_cons,
                   List.foldl_nil]
        simp only [hk m]
        rw [if_pos (by omega : 48 ≤ 48 + n % 10 ∧ 48 + n % 10 ≤ 57)]
        congr 1
        have h48 : 48 + n % 10 - 48 = n % 10 := by omega
        rw [h48]
        calc (m * 10 ^ k + n / 10) * 10 + n % 10
            = m * (10 ^ k * 10) + (n / 10 * 10 + n % 10) := by ring
          _ = m * (10 ^ k * 10) + n := by
                congr 1
                omega
          _ = m * 10 ^ (k + 1) + n := by rw [pow_succ]

theorem decNat_natDec (n : Nat) : decNat (natDec n) = some n := by
  obtain ⟨k, _, hk⟩ := natDecAux_fold n n (Nat.le_refl n)
  unfold decNat natDec
  rw [if_neg (natDecAux_ne_nil n n)]
  simpa using hk 0

theorem natDecAux_digits (fuel : Nat) : ∀ n, ∀ b ∈ natDecAux fuel n, 48 ≤ b ∧ b ≤ 57 := by
  induction fuel with
  | zero =>
      intro n b hb
      simp [natDecAux] at hb
      omega
  | succ fuel ih =>
      intro n b hb
      unfold natDecAux at hb
      split at hb
      · rename_i h10
        rw [List.mem_singleton] at hb
        omega
      · rcases List.mem_append.mp hb with hb | hb
        · exact ih _ b hb
        · rw [List.mem_singleton] at hb
          omega

theorem natDec_digits (n : Nat) : ∀ b ∈ natDec n, 48 ≤ b ∧ b ≤ 57 :=
  natDecAux_digits n n

theorem natDec_ne_nil (n : Nat) : natDec n ≠ [] := natDecAux_ne_nil n n

theorem parseUintGo_natDec (n : Nat) (h : n < 2 ^ 32) :
    parseUintGo (natDec n) = some n := by
  unfold parseUintGo
  rw [decNat_natDec]
  show (if n < 2 ^ 32 then some n else none) = some n
  rw [if_pos h]

theorem parseIntGo_intDec (i : Int) (h1 : -(2 ^ 31) ≤ i) (h2 : i < 2 ^ 31) :
    parseIntGo (intDec i) = some i := by
  by_cases hneg : i < 0
  · have hi : intDec i = 45 :: natDec (-i).toNat := by
      unfold intDec
      rw [if_pos hneg]
    rw [hi]
    unfold parseIntGo
    split
    · rename_i r heq
      obtain rfl : natDec (-i).toNat = r := by injection heq
      rw [decNat_natDec]
      have hr : (((-i).toNat : Nat) : Int) = -i := Int.toNat_of_nonneg (by omega)
      have hbind : ((some ((-i).toNat)).bind
          (fun n => if n ≤ 2 ^ 31 then some (-(n : Int)) else none)) =
          (if ((-i).toNat : Nat) ≤ 2 ^ 31 then
             some (-(((-i).toNat : Nat) : Int)) else none) := rfl
      rw [hbind, if_pos (by omega : ((-i).toNat : Nat) ≤ 2 ^ 31), hr, neg_neg]
    · rename_i r heq
      exfalso
      have h2 := congrArg List.head? heq
      simp at h2
    · rename_i hcon1 hcon2
      exact absurd rfl (hcon1 (natDec (-i).toNat))
  · obtain ⟨b, t, hbt⟩ : ∃ b t, natDec i.toNat = b :: t := by
      cases hs : natDec i.toNat with
      | nil => exact absurd hs (natDec_ne_nil _)
      | cons b t => exact ⟨b, t, rfl⟩
    have hb := natDec_digits i.toNat b (hbt ▸ List.mem_cons_self b t)
    have hi : intDec i = b :: t := by
      unfold intDec
      rw [if_neg hneg]
      exact hbt
    rw [hi]
    unfold parseIntGo
    split
    · rename_i r heq
      exfalso
      have hb45 : b = 45 := by
        have h2 := congrArg List.head? heq
        simpa using h2
      omega
    · rename_i r heq
      exfalso
      have hb43 : b = 43 := by
        have h2 := congrArg List.head? heq
        simpa using h2
      omega
    · rw [← hbt, decNat_natDec]
      have hlt : i.toNat < 2 ^ 31 := by omega
      show (if i.toNat < 2 ^ 31 then some ((i.toNat : Nat) : Int) else none) = some i
      rw [if_pos hlt]
      congr 1
      omega

theorem b64Val_b64Char : ∀ x, x < 64 → b64Val (b64Char x) = some x := by decide

theorem b64Char_ne_61 : ∀ x, x < 64 → b64Char x ≠ 61 := by decide

theorem b64_roundtrip : ∀ (bs : GoStr), (∀ b ∈ bs, b < 256) →
    b64Dec (b64Enc bs) = some bs
  | [], _ => rfl
  | [a], h => by
      have ha : a < 256 := h a (by simp)
      have h1 := b64Val_b64Char (a / 4) (by omega)
      have h2 := b64Val_b64Char (a % 4 * 16) (by omega)
      have e1 : a / 4 * 4 + a % 4 * 16 / 16 = a := by omega
      simp only [b64Enc, b64Dec, h1, h2, if_true, and_self, e1]
  | [a, b], h => by
      have ha : a < 256 := h a (by simp)
      have hb : b < 256 := h b (by simp)
      have h1 := b64Val_b64Char (a / 4) (by omega)
      have h2 := b64Val_b64Char (a % 4 * 16 + b / 16) (by omega)
      have h3 := b64Val_b64Char (b % 16 * 4) (by omega)
      have hne := b64Char_ne_61 (b % 16 * 4) (by omega)
      have e1 : a / 4 * 4 + (a % 4 * 16 + b / 16) / 16 = a := by omega
      have e2 : (a % 4 * 16 + b / 16) % 16 * 16 + b % 16 * 4 / 4 = b := by omega
      simp only [b64Enc, b64Dec, h1, h2]
      rw [if_neg hne]
      simp only [h3, if_true, e1, e2]
  | a :: b :: c :: r, h => by
      have ha : a < 256 := h a (by simp)
      have hb : b < 256 := h b (by simp)
      have hc : c < 256 := h c (by simp)
      have h1 := b64Val_b64Char (a / 4) (by omega)
      have h2 := b64Val_b64Char (a % 4 * 16 + b / 16) (by omega)
      have h3 := b64Val_b64Char (b % 16 * 4 + c / 64) (by omega)
      have h4 := b64Val_b64Char (c % 64) (by omega)
      have hne3 := b64Char_ne_61 (b % 16 * 4 + c / 64) (by omega)
      have hne4 := b64Char_ne_61 (c % 64) (by omega)
      have hr := b64_roundtrip r (fun x hx => h x (by simp [hx]))
      have e1 : a / 4 * 4 + (a % 4 * 16 + b / 16) / 16 = a := by omega
      have e2 : (a % 4 * 16 + b / 16) % 16 * 16 + (b % 16 * 4 + c / 64) / 4 = b := by
        omega
      have e3 : (b % 16 * 4 + c / 64) % 4 * 64 + c % 64 = c := by omega
      simp only [b64Enc, b64Dec, h1, h2]
      rw [if_neg hne3]
      simp only [h3]
      rw [if_neg hne4]
      simp only [h4, hr, e1, e2, e3]
      simp

theorem opcodeName_facts (op : Opcode) :
    opcodeName op ≠ [] ∧
    (∀ b ∈ opcodeName op, (65 ≤ b ∧ b ≤ 90) ∨ b = 95) ∧
    nameToOpcode (opcodeName op) = some op := by
  cases op <;> exact ⟨by decide, by decide, by decide⟩

/-- The shape facts about a mnemonic that the Asm line scanner looks at:
    it is a non-empty word of upper-case letters and underscores, so it is
    whitespace-free, no comment or `.ref` line starts with it, and the
    reverse lookup recovers the opcode. -/
theorem opcodeName_shape (op : Opcode) :
    ∃ nb nt, opcodeName op = nb :: nt ∧ isWS nb = false ∧ nb ≠ 59 ∧ nb ≠ 46 ∧
      32 ∉ opcodeName op ∧ 10 ∉ opcodeName op ∧
      (∀ y b2, opcodeName op = y ++ [b2] → isWS b2 = false) ∧
      nameToOpcode (opcodeName op) = some op := by
  obtain ⟨hne, hb, hl⟩ := opcodeName_facts op
  have hWS : ∀ b ∈ opcodeName op, isWS b = false := by
    intro b hmem
    rcases hb b hmem with ⟨h1, h2⟩ | h3 <;> (simp [isWS]; omega)
  rcases hn : opcodeName op with _ | ⟨nb, nt⟩
  · exact absurd hn hne
  · have hnb : nb ∈ opcodeName op := by
      rw [hn]
      exact List.mem_cons_self _ _
    refine ⟨nb, nt, rfl, hWS nb hnb, ?_, ?_, ?_, ?_, ?_, hn ▸ hl⟩
    · rcases hb nb hnb with ⟨h1, h2⟩ | h3 <;> omega
    · rcases hb nb hnb with ⟨h1, h2⟩ | h3 <;> omega
    · intro hmem
      rw [← hn] at hmem
      rcases hb 32 hmem with ⟨h1, h2⟩ | h3 <;> omega
    · intro hmem
      rw [← hn] at hmem
      rcases hb 10 hmem with ⟨h1, h2⟩ | h3 <;> omega
    · intro y b2 heq
      refine hWS b2 ?_
      rw [hn, heq]
      exact List.mem_append_right y (List.mem_singleton.mpr rfl)

theorem gsPrefix_ref_false (b : Nat) (t : GoStr) (h : b ≠ 46) :
    gsPrefix (gs ".ref ") (b :: t) = false := by
  have hgs : gs ".ref " = 46 :: gs "ref " := rfl
  rw [hgs]
  simp [gsPrefix]
  intro hc
  exact absurd hc.symm h

theorem trimLeft_eq_self (s : GoStr) (h : ∀ b ∈ s, isWS b = false) : trimLeft s = s := by
  cases s with
  | nil => rfl
  | cons b r => exact trimLeft_cons_nonWS b r (h b (List.mem_cons_self _ _))

theorem trimSpace_eq_self (s : GoStr) (h : ∀ b ∈ s, isWS b = false) : trimSpace s = s := by
  unfold trimSpace trimRight
  rw [trimLeft_eq_self s h,
      trimLeft_eq_self s.reverse (fun b hb => h b (List.mem_reverse.mp hb)),
      List.reverse_reverse]

theorem trimLeft_suffix (s : GoStr) : trimLeft s <:+ s := by
  induction s with
  | nil => exact List.suffix_refl []
  | cons b r ih =>
      unfold trimLeft
      split
      · exact ih.trans (List.suffix_cons b r)
      · exact List.suffix_refl _

theorem trim_parts_of_trimSpace_eq (s : GoStr) (h : trimSpace s = s) :
    trimLeft s = s ∧ trimRight s = s := by
  have h1 : (trimLeft s).length ≤ s.length := trimLeft_length_le s
  have h2 : (trimRight (trimLeft s)).length ≤ (trimLeft s).length := by
    unfold trimRight
    simpa using trimLeft_length_le (trimLeft s).reverse
  unfold trimSpace at h
  have hlen : (trimRight (trimLeft s)).length = s.length := by rw [h]
  have hlL : (trimLeft s).length = s.length := by omega
  have hEq : trimLeft s = s := (trimLeft_suffix s).eq_of_length hlL
  rw [hEq] at h
  exact ⟨hEq, h⟩

/-- An instruction line whose last byte is not whitespace trims to the
    mnemonic plus argument (the indentation goes, nothing else). -/
theorem trimSpace_line_keep (k : Nat) (op : Opcode) (arg : GoStr)
    (hlast : ∃ y b, opcodeName op ++ arg = y ++ [b] ∧ isWS b = false) :
    trimSpace (List.replicate k 32 ++ (opcodeName op ++ arg)) = opcodeName op ++ arg := by
  obtain ⟨nb, nt, hn, hnbWS, _⟩ := opcodeName_shape op
  unfold trimSpace
  rw [trimLeft_replicate_space]
  have hleft : trimLeft (opcodeName op ++ arg) = opcodeName op ++ arg := by
    rw [hn, List.cons_append]
    exact trimLeft_cons_nonWS _ _ hnbWS
  rw [hleft]
  obtain ⟨y, b, heq, hbWS⟩ := hlast
  rw [heq]
  exact trimRight_concat_nonWS y b hbWS

/-- An instruction line ending in a single separator space trims to the
    mnemonic plus argument without that space. -/
theorem trimSpace_line_drop (k : Nat) (op : Opcode) (arg : GoStr)
    (hpref : trimRight (opcodeName op ++ arg) = opcodeName op ++ arg) :
    trimSpace (List.replicate k 32 ++ (opcodeName op ++ (arg ++ [32]))) =
      opcodeName op ++ arg := by
  obtain ⟨nb, nt, hn, hnbWS, _⟩ := opcodeName_shape op
  unfold trimSpace
  rw [trimLeft_replicate_space]
  have hleft : trimLeft (opcodeName op ++ (arg ++ [32])) =
      opcodeName op ++ (arg ++ [32]) := by
    rw [hn, List.cons_append]
    exact trimLeft_cons_nonWS _ _ hnbWS
  rw [hleft, show opcodeName op ++ (arg ++ [32]) = (opcodeName op ++ arg) ++ [32] from
        (List.append_assoc _ _ _).symm]
  rw [trimRight_concat_WS _ _ (by simp [isWS])]
  exact hpref

/-- Stepping the Asm loop over a mnemonic line: once the trimmed line is
    known to be the mnemonic (with or without an argument part after one
    space), the loop dispatches to the argument handler. -/
theorem asmGo_cons_op (fuel : Nat) (lraw : GoStr) (rest : List GoStr) (p : Program)
    (op : Opcode) (rest2 : GoStr)
    (htrim : trimSpace lraw = opcodeName op ++ 32 :: rest2 ∨
             (trimSpace lraw = opcodeName op ∧ rest2 = [])) :
    asmGo (fuel + 1) (lraw :: rest) p =
      (match asmArg op rest2 rest with
       | .ok (inst, rest3) => asmGo fuel rest3 { p with code := p.code ++ [inst] }
       | .error () => .error ()) := by
  obtain ⟨nb, nt, hn, hnbWS, hnb59, hnb46, hnsp, _, _, hlook⟩ := opcodeName_shape op
  simp only [asmGo]
  rcases htrim with htrim | ⟨htrim, hrest2⟩
  · rw [htrim, hn]
    simp only [List.cons_append]
    rw [if_neg (by simp : ¬(nb :: (nt ++ 32 :: rest2) = []))]
    rw [if_neg (by
          simp only [List.head?_cons, Option.some.injEq]
          exact hnb59)]
    rw [gsPrefix_ref_false nb _ hnb46]
    simp only [Bool.false_eq_true, if_false]
    rw [show (nb :: (nt ++ 32 :: rest2)) = (nb :: nt) ++ 32 :: rest2 from by simp]
    rw [splitFirst_append_space _ _ (hn ▸ hnsp)]
    rw [← hn, hlook]
  · rw [htrim, hrest2, hn]
    rw [if_neg (by simp : ¬(nb :: nt = []))]
    rw [if_neg (by
          simp only [List.head?_cons, Option.some.injEq]
          exact hnb59)]
    rw [gsPrefix_ref_false nb _ hnb46]
    simp only [Bool.false_eq_true, if_false]
    rw [splitFirst_no_space _ (hn ▸ hnsp)]
    rw [← hn, hlook]

theorem asmArg_string (op : Opcode) (sv : GoStr) (rest : List GoStr)
    (hcat : stringArgOp op = true) (hlt : trimSpace sv ≠ gs "<<<") :
    asmArg op sv rest = .ok ({ op := op, str := sv }, rest) := by
  unfold asmArg
  rw [if_pos hcat, if_neg hlt]

theorem intDec_nonWS (i : Int) : ∀ b ∈ intDec i, isWS b = false := by
  unfold intDec
  split
  · intro b hb
    rcases List.mem_cons.mp hb with rfl | hb
    · decide
    · have h2 := natDec_digits _ b hb
      simp [isWS]
      omega
  · intro b hb
    have h2 := natDec_digits _ b hb
    simp [isWS]
    omega

theorem asmArg_int (iv : Int) (rest : List GoStr)
    (h1 : -(2 ^ 31) ≤ iv) (h2 : iv < 2 ^ 31) :
    asmArg Opcode.SET_MAX (intDec iv) rest =
      .ok ({ op := Opcode.SET_MAX, int := iv }, rest) := by
  unfold asmArg
  rw [if_neg (by decide : ¬(stringArgOp Opcode.SET_MAX = true)),
      if_neg (by decide : ¬(floatArgOp Opcode.SET_MAX = true)),
      if_pos (by decide : intArgOp Opcode.SET_MAX = true)]
  rw [trimSpace_eq_self (intDec iv) (intDec_nonWS iv), parseIntGo_intDec iv h1 h2]

theorem asmArg_ref (op : Opcode) (rv : Nat) (rest : List GoStr)
    (hs : stringArgOp op = false) (hf : floatArgOp op = false)
    (hi : intArgOp op = false) (hj : jsonArgOp op = false)
    (hcat : refArgOp op = true) (hlt : rv < 2 ^ 32) :
    asmArg op (gs "ref:" ++ natDec rv) rest =
      .ok ({ op := op, ref := rv }, rest) := by
  unfold asmArg
  rw [if_neg (by simp [hs]), if_neg (by simp [hf]), if_neg (by simp [hi]),
      if_neg (by simp [hj]), if_pos hcat]
  have hWSr : ∀ b ∈ gs "ref:" ++ natDec rv, isWS b = false := by
    intro b hb
    rcases List.mem_append.mp hb with hb | hb
    · have h4 : b = 114 ∨ b = 101 ∨ b = 102 ∨ b = 58 := by
        have hgs : gs "ref:" = [114, 101, 102, 58] := rfl
        rw [hgs] at hb
        simpa using hb
      rcases h4 with rfl | rfl | rfl | rfl <;> decide
    · have h2 := natDec_digits _ b hb
      simp [isWS]
      omega
  rw [trimSpace_eq_self _ hWSr]
  rw [if_pos (gsPrefix_append (gs "ref:") (natDec rv))]
  rw [show (gs "ref:" ++ natDec rv).drop 4 = natDec rv from by
        rw [show (4 : Nat) = (gs "ref:").length from rfl]
        exact List.drop_left _ _]
  rw [parseUintGo_natDec rv hlt]

theorem jsonValid_heredoc_marker : jsonValid (gs "<<<") = false := by decide

theorem asmArg_json (op : Opcode) (jv : GoStr) (rest : List GoStr)
    (hs : stringArgOp op = false) (hf : floatArgOp op = false)
    (hi : intArgOp op = false) (hcat : jsonArgOp op = true)
    (hvalid : jsonValid jv = true) (hfix : compactScan false false jv = jv)
    (htrim : trimSpace jv = jv) :
    asmArg op jv rest = .ok ({ op := op, json := jv }, rest) := by
  unfold asmArg
  rw [if_neg (by simp [hs]), if_neg (by simp [hf]), if_neg (by simp [hi]),
      if_pos hcat]
  rw [htrim]
  have hne : jv ≠ gs "<<<" := by
    intro hc
    rw [hc, jsonValid_heredoc_marker] at hvalid
    exact Bool.noConfusion hvalid
  rw [if_neg hne]
  have hcj : compactJSON jv = jv := by
    unfold compactJSON
    rw [if_pos hvalid, hfix]
  simp only [htrim, hcj, hvalid, if_true]

theorem asmArg_meta_val (kv sv : GoStr) (rest : List GoStr)
    (hk : kv ≠ []) (hksp : 32 ∉ kv) :
    asmArg Opcode.SET_META (kv ++ 32 :: sv) rest =
      .ok ({ op := Opcode.SET_META, key := kv, str := sv }, rest) := by
  unfold asmArg
  rw [if_neg (by decide : ¬(stringArgOp Opcode.SET_META = true)),
      if_neg (by decide : ¬(floatArgOp Opcode.SET_META = true)),
      if_neg (by decide : ¬(intArgOp Opcode.SET_META = true)),
      if_neg (by decide : ¬(jsonArgOp Opcode.SET_META = true)),
      if_neg (by decide : ¬(refArgOp Opcode.SET_META = true)),
      if_pos rfl]
  rw [splitFirst_append_space kv sv hksp]
  rw [if_neg hk]

theorem asmArg_meta_noval (kv : GoStr) (rest : List GoStr)
    (hk : kv ≠ []) (hksp : 32 ∉ kv) :
    asmArg Opcode.SET_META kv rest =
      .ok ({ op := Opcode.SET_META, key := kv, str := [] }, rest) := by
  unfold asmArg
  rw [if_neg (by decide : ¬(stringArgOp Opcode.SET_META = true)),
      if_neg (by decide : ¬(floatArgOp Opcode.SET_META = true)),
      if_neg (by decide : ¬(intArgOp Opcode.SET_META = true)),
      if_neg (by decide : ¬(jsonArgOp Opcode.SET_META = true)),
      if_neg (by decide : ¬(refArgOp Opcode.SET_META = true)),
      if_pos rfl]
  rw [splitFirst_no_space kv hksp]
  rw [if_neg hk]

theorem asmArg_ext (kv jv : GoStr) (rest : List GoStr)
    (hk : kv ≠ []) (hksp : 32 ∉ kv)
    (hvalid : jsonValid jv = true) (hfix : compactScan false false jv = jv)
    (htrim : trimSpace jv = jv) (hjne : jv ≠ []) :
    asmArg Opcode.EXT_DATA (kv ++ 32 :: jv) rest =
      .ok ({ op := Opcode.EXT_DATA, key := kv, json := jv }, rest) := by
  unfold asmArg
  rw [if_neg (by decide : ¬(stringArgOp Opcode.EXT_DATA = true)),
      if_neg (by decide : ¬(floatArgOp Opcode.EXT_DATA = true)),
      if_neg (by decide : ¬(intArgOp Opcode.EXT_DATA = true)),
      if_neg (by decide : ¬(jsonArgOp Opcode.EXT_DATA = true)),
      if_neg (by decide : ¬(refArgOp Opcode.EXT_DATA = true)),
      if_neg (by decide : ¬(Opcode.EXT_DATA = Opcode.SET_META)),
      if_pos rfl]
  rw [splitFirst_append_space kv jv hksp]
  rw [if_neg hk]
  rw [htrim]
  have hne : jv ≠ gs "<<<" := by
    intro hc
    rw [hc, jsonValid_heredoc_marker] at hvalid
    exact Bool.noConfusion hvalid
  rw [if_neg hne, if_neg hjne]
  have hcj : compactJSON jv = jv := by
    unfold compactJSON
    rw [if_pos hvalid, hfix]
  simp only [hcj, hvalid, if_true]

theorem asmArg_noarg (op : Opcode) (rest : List GoStr)
    (hs : stringArgOp op = false) (hf : floatArgOp op = false)
    (hi : intArgOp op = false) (hj : jsonArgOp op = false)
    (hr : refArgOp op = false) (hm : op ≠ .SET_META) (he : op ≠ .EXT_DATA) :
    asmArg op [] rest = .ok ({ op := op }, rest) := by
  unfold asmArg
  rw [if_neg (by simp [hs]), if_neg (by simp [hf]), if_neg (by simp [hi]),
      if_neg (by simp [hj]), if_neg (by simp [hr]), if_neg hm, if_neg he]

theorem trimRight_name (op : Opcode) : trimRight (opcodeName op) = opcodeName op := by
  obtain ⟨hne, _, _⟩ := opcodeName_facts op
  obtain ⟨_, _, _, _, _, _, _, _, hlastf, _⟩ := opcodeName_shape op
  rcases List.eq_nil_or_concat (opcodeName op) with h | ⟨y, b, hyb⟩
  · exact absurd h hne
  · rw [List.concat_eq_append] at hyb
    rw [hyb]
    exact trimRight_concat_nonWS y b (hlastf y b hyb)

theorem name_last_fact (op : Opcode) :
    ∃ y b, opcodeName op ++ ([] : GoStr) = y ++ [b] ∧ isWS b = false := by
  obtain ⟨hne, _, _⟩ := opcodeName_facts op
  obtain ⟨_, _, _, _, _, _, _, _, hlastf, _⟩ := opcodeName_shape op
  rcases List.eq_nil_or_concat (opcodeName op) with h | ⟨y, b, hyb⟩
  · exact absurd h hne
  · rw [List.concat_eq_append] at hyb
    exact ⟨y, b, by rw [List.append_nil, hyb], hlastf y b hyb⟩

theorem intDec_ne_nil (i : Int) : intDec i ≠ [] := by
  unfold intDec
  split
  · simp
  · exact natDec_ne_nil _

/-- One well-formed instruction line: the Asm loop consumes it and appends
    exactly the original instruction. -/
theorem asmGo_instr (fuel k : Nat) (rest : List GoStr) (p : Program) (i : Instruction)
    (hwf : instrWFb i = true) :
    asmGo (fuel + 1)
        ((List.replicate k 32 ++ (opcodeName i.op ++ disasmArg i)) :: rest) p =
      asmGo fuel rest { p with code := p.code ++ [i] } := by
  rcases i with ⟨op, sv, nv, iv, jv, kv, rv⟩
  simp only [instrWFb] at hwf
  by_cases hs : stringArgOp op = true
  · rw [if_pos hs] at hwf
    simp only [Bool.and_eq_true, decide_eq_true_eq] at hwf
    obtain ⟨⟨⟨⟨⟨⟨⟨⟨hnl, htr⟩, hlt⟩, hascii⟩, hnv⟩, hiv⟩, hjv⟩, hkv⟩, hrv⟩ := hwf
    subst hnv hiv hjv hkv hrv
    have harg : disasmArg ⟨op, sv, 0, 0, [], [], 0⟩ = 32 :: sv := by
      simp only [disasmArg, hs, if_true]
      rw [if_neg hnl]
    rw [harg]
    by_cases hsv : sv = []
    · subst hsv
      have htrim := trimSpace_line_drop k op [] (by
        rw [List.append_nil]
        exact trimRight_name op)
      rw [show (32 : Nat) :: ([] : GoStr) = ([] : GoStr) ++ [32] from rfl]
      rw [asmGo_cons_op fuel _ rest p op [] (Or.inr ⟨by
            rw [htrim, List.append_nil], rfl⟩)]
      rw [asmArg_string op [] rest hs (by decide)]
    · obtain ⟨y, b, hyb, hbWS⟩ := last_nonWS_of_trimRight_eq sv hsv htr
      have htrim := trimSpace_line_keep k op (32 :: sv)
        ⟨opcodeName op ++ 32 :: y, b, by rw [hyb]; simp, hbWS⟩
      rw [asmGo_cons_op fuel _ rest p op sv (Or.inl htrim)]
      rw [asmArg_string op sv rest hs hlt]
  · rw [if_neg hs] at hwf
    by_cases hf : floatArgOp op = true
    · rw [if_pos hf] at hwf
      exact Bool.noConfusion hwf
    · rw [if_neg hf] at hwf
      by_cases hi : intArgOp op = true
      · rw [if_pos hi] at hwf
        simp only [Bool.and_eq_true, decide_eq_true_eq] at hwf
        obtain ⟨⟨⟨⟨⟨⟨h1, h2⟩, hsv⟩, hnv⟩, hjv⟩, hkv⟩, hrv⟩ := hwf
        subst hsv hnv hjv hkv hrv
        have hop : op = Opcode.SET_MAX := by
          cases op <;> first | rfl | exact Bool.noConfusion hi
        subst hop
        have harg : disasmArg ⟨Opcode.SET_MAX, [], 0, iv, [], [], 0⟩ =
            32 :: intDec iv := by
          simp only [disasmArg]
          rw [if_neg (by decide), if_neg (by decide), if_pos (by decide)]
        rw [harg]
        obtain ⟨y, b, hyb, hbWS⟩ := last_nonWS_of_trimRight_eq (intDec iv)
          (intDec_ne_nil iv)
          (trim_parts_of_trimSpace_eq _ (trimSpace_eq_self _ (intDec_nonWS iv))).2
        have htrim := trimSpace_line_keep k Opcode.SET_MAX (32 :: intDec iv)
          ⟨opcodeName Opcode.SET_MAX ++ 32 :: y, b, by rw [hyb]; simp, hbWS⟩
        rw [asmGo_cons_op fuel _ rest p Opcode.SET_MAX (intDec iv) (Or.inl htrim)]
        rw [asmArg_int iv rest h1 h2]
      · rw [if_neg hi] at hwf
        by_cases hj : jsonArgOp op = true
        · rw [if_pos hj] at hwf
          simp only [Bool.and_eq_true, decide_eq_true_eq] at hwf
          obtain ⟨⟨⟨⟨⟨⟨⟨⟨⟨⟨hval, hfix⟩, hjt⟩, hjnl⟩, hjascii⟩, hjne⟩, hsv⟩, hnv⟩,
                  hiv⟩, hkv⟩, hrv⟩ := hwf
          subst hsv hnv hiv hkv hrv
          have hcj : compactJSON jv = jv := by
            unfold compactJSON
            rw [if_pos hval, hfix]
          have harg : disasmArg ⟨op, [], 0, 0, jv, [], 0⟩ = 32 :: jv := by
            simp only [disasmArg]
            rw [if_neg (by simp [hs]), if_neg (by simp [hf]), if_neg (by simp [hi])]
            have hr2 : refArgOp op = false := by
              cases op <;> first | rfl | exact Bool.noConfusion hj
            rw [if_neg (by simp [hr2]), if_pos hj, hcj]
          rw [harg]
          obtain ⟨y, b, hyb, hbWS⟩ := last_nonWS_of_trimRight_eq jv hjne
            (trim_parts_of_trimSpace_eq _ hjt).2
          have htrim := trimSpace_line_keep k op (32 :: jv)
            ⟨opcodeName op ++ 32 :: y, b, by rw [hyb]; simp, hbWS⟩
          rw [asmGo_cons_op fuel _ rest p op jv (Or.inl htrim)]
          rw [asmArg_json op jv rest (Bool.eq_false_iff.mpr hs) (Bool.eq_false_iff.mpr hf) (Bool.eq_false_iff.mpr hi) hj hval hfix hjt]
        · rw [if_neg hj] at hwf
          by_cases hr : refArgOp op = true
          · rw [if_pos hr] at hwf
            simp only [Bool.and_eq_true, decide_eq_true_eq] at hwf
            obtain ⟨⟨⟨⟨⟨hlt, hsv⟩, hnv⟩, hiv⟩, hjv⟩, hkv⟩ := hwf
            subst hsv hnv hiv hjv hkv
            have harg : disasmArg ⟨op, [], 0, 0, [], [], rv⟩ =
                32 :: (gs "ref:" ++ natDec rv) := by
              simp only [disasmArg]
              rw [if_neg (by simp [hs]), if_neg (by simp [hf]),
                  if_neg (by simp [hi]), if_pos hr]
              rfl
            rw [harg]
            obtain ⟨y, b, hyb, hbWS⟩ : ∃ y b, gs "ref:" ++ natDec rv = y ++ [b] ∧
                isWS b = false := by
              rcases List.eq_nil_or_concat (natDec rv) with h | ⟨y, b, hyb⟩
              · exact absurd h (natDec_ne_nil rv)
              · rw [List.concat_eq_append] at hyb
                refine ⟨gs "ref:" ++ y, b, by rw [hyb, List.append_assoc], ?_⟩
                have hd := natDec_digits rv b
                  (hyb ▸ List.mem_append_right y (List.mem_singleton.mpr rfl))
                simp [isWS]
                omega
            have htrim := trimSpace_line_keep k op (32 :: (gs "ref:" ++ natDec rv))
              ⟨opcodeName op ++ 32 :: y, b, by rw [hyb]; simp, hbWS⟩
            rw [asmGo_cons_op fuel _ rest p op (gs "ref:" ++ natDec rv)
                  (Or.inl htrim)]
            rw [asmArg_ref op rv rest (Bool.eq_false_iff.mpr hs) (Bool.eq_false_iff.mpr hf) (Bool.eq_false_iff.mpr hi) (Bool.eq_false_iff.mpr hj) hr hlt]
          · rw [if_neg hr] at hwf
            by_cases hm : op = Opcode.SET_META
            · subst hm
              rw [if_pos rfl] at hwf
              simp only [Bool.and_eq_true, decide_eq_true_eq] at hwf
              obtain ⟨⟨⟨⟨⟨⟨⟨⟨⟨hkne, hknoWS⟩, hkascii⟩, hvnl⟩, hvtr⟩, hvascii⟩,
                      hnv⟩, hiv⟩, hjv⟩, hrv⟩ := hwf
              subst hnv hiv hjv hrv
              have hknw : ∀ b2 ∈ kv, isWS b2 = false := by
                intro b2 hb2
                have := List.all_eq_true.mp hknoWS b2 hb2
                simpa using this
              have hksp : 32 ∉ kv := by
                intro hmem
                have := hknw 32 hmem
                simp [isWS] at this
              have harg : disasmArg ⟨Opcode.SET_META, sv, 0, 0, [], kv, 0⟩ =
                  32 :: (kv ++ (32 :: sv)) := by
                simp [disasmArg, stringArgOp, floatArgOp, intArgOp, jsonArgOp,
                      refArgOp]
              rw [harg]
              by_cases hsv : sv = []
              · subst hsv
                have hpref : trimRight (opcodeName Opcode.SET_META ++ (32 :: kv)) =
                    opcodeName Opcode.SET_META ++ (32 :: kv) := by
                  rcases List.eq_nil_or_concat kv with h | ⟨y, b, hyb⟩
                  · exact absurd h hkne
                  · rw [List.concat_eq_append] at hyb
                    rw [hyb, show opcodeName Opcode.SET_META ++ (32 :: (y ++ [b])) =
                          (opcodeName Opcode.SET_META ++ 32 :: y) ++ [b] from by simp]
                    exact trimRight_concat_nonWS _ b
                      (hknw b (hyb ▸ List.mem_append_right y (List.mem_singleton.mpr rfl)))
                have htrim := trimSpace_line_drop k Opcode.SET_META (32 :: kv) hpref
                rw [show (32 : Nat) :: (kv ++ (32 :: ([] : GoStr))) =
                      (32 :: kv) ++ [32] from by simp]
                rw [asmGo_cons_op fuel _ rest p Opcode.SET_META kv
                      (Or.inl (by rw [htrim]))]
                rw [asmArg_meta_noval kv rest hkne hksp]
              · obtain ⟨y, b, hyb, hbWS⟩ := last_nonWS_of_trimRight_eq sv hsv hvtr
                have htrim := trimSpace_line_keep k Opcode.SET_META
                  (32 :: (kv ++ (32 :: sv)))
                  ⟨opcodeName Opcode.SET_META ++ 32 :: (kv ++ 32 :: y), b,
                   by rw [hyb]; simp, hbWS⟩
                rw [asmGo_cons_op fuel _ rest p Opcode.SET_META (kv ++ 32 :: sv)
                      (Or.inl htrim)]
                rw [asmArg_meta_val kv sv rest hkne hksp]
            · rw [if_neg hm] at hwf
              by_cases he : op = Opcode.EXT_DATA
              · subst he
                rw [if_pos rfl] at hwf
                simp only [Bool.and_eq_true, decide_eq_true_eq] at hwf
                obtain ⟨⟨⟨⟨⟨⟨⟨⟨⟨⟨⟨⟨hkne, hknoWS⟩, hkascii⟩, hval⟩, hfix⟩, hjt⟩,
                        hjnl⟩, hjascii⟩, hjne⟩, hsv⟩, hnv⟩, hiv⟩, hrv⟩ := hwf
                subst hsv hnv hiv hrv
                have hknw : ∀ b2 ∈ kv, isWS b2 = false := by
                  intro b2 hb2
                  have := List.all_eq_true.mp hknoWS b2 hb2
                  simpa using this
                have hksp : 32 ∉ kv := by
                  intro hmem
                  have := hknw 32 hmem
                  simp [isWS] at this
                have hcj : compactJSON jv = jv := by
                  unfold compactJSON
                  rw [if_pos hval, hfix]
                have harg : disasmArg ⟨Opcode.EXT_DATA, [], 0, 0, jv, kv, 0⟩ =
                    32 :: (kv ++ (32 :: jv)) := by
                  simp [disasmArg, stringArgOp, floatArgOp, intArgOp, jsonArgOp,
                        refArgOp, hcj]
                rw [harg]
                obtain ⟨y, b, hyb, hbWS⟩ := last_nonWS_of_trimRight_eq jv hjne
                  (trim_parts_of_trimSpace_eq _ hjt).2
                have htrim := trimSpace_line_keep k Opcode.EXT_DATA
                  (32 :: (kv ++ (32 :: jv)))
                  ⟨opcodeName Opcode.EXT_DATA ++ 32 :: (kv ++ 32 :: y), b,
                   by rw [hyb]; simp, hbWS⟩
                rw [asmGo_cons_op fuel _ rest p Opcode.EXT_DATA (kv ++ 32 :: jv)
                      (Or.inl htrim)]
                rw [asmArg_ext kv jv rest hkne hksp hval hfix hjt hjne]
              · rw [if_neg he] at hwf
                simp only [Bool.and_eq_true, decide_eq_true_eq] at hwf
                obtain ⟨⟨⟨⟨⟨hsv, hnv⟩, hiv⟩, hjv⟩, hkv⟩, hrv⟩ := hwf
                subst hsv hnv hiv hjv hkv hrv
                have harg : disasmArg ⟨op, [], 0, 0, [], [], 0⟩ = [] := by
                  simp only [disasmArg]
                  rw [if_neg (by simp [hs]), if_neg (by simp [hf]),
                      if_neg (by simp [hi]), if_neg (by simp [hr]),
                      if_neg (by simp [hj]), if_neg hm, if_neg he]
                rw [harg]
                have htrim := trimSpace_line_keep k op [] (name_last_fact op)
                rw [asmGo_cons_op fuel _ rest p op [] (Or.inr ⟨by
                      rw [htrim, List.append_nil], rfl⟩)]
                rw [asmArg_noarg op rest (Bool.eq_false_iff.mpr hs) (Bool.eq_false_iff.mpr hf) (Bool.eq_false_iff.mpr hi) (Bool.eq_false_iff.mpr hj) (Bool.eq_false_iff.mpr hr) hm he]

/-- The lines of Disasm's instruction listing, indent threaded as by
    `disasmInstr` (without the terminating newline of each line). -/
def instrLines : Nat → List Instruction → List GoStr
  | _, [] => []
  | ind, i :: rest =>
      (List.replicate (2 * (if isEndOp i.op then ind - 1 else ind)) 32 ++
         (opcodeName i.op ++ disasmArg i)) ::
        instrLines
          (if isStartOp i.op then (if isEndOp i.op then ind - 1 else ind) + 1
           else (if isEndOp i.op then ind - 1 else ind)) rest

theorem instrLines_length (code : List Instruction) :
    ∀ ind, (instrLines ind code).length = code.length := by
  induction code with
  | nil => intro ind; rfl
  | cons i tl ih => intro ind; simp [instrLines, ih]

theorem refLines_length (bufs : List GoStr) :
    ∀ n, (refLines n bufs).length = bufs.length := by
  induction bufs with
  | nil => intro n; rfl
  | cons b tl ih => intro n; simp [refLines, ih]

/-- The byte accumulator of the Disasm instruction fold is the accumulator
    followed by the newline-terminated instruction lines. -/
theorem disasmInstr_fold_lines (code : List Instruction) :
    ∀ (ind : Nat) (acc : GoStr),
      (code.foldl disasmInstr (ind, acc)).2 =
        acc ++ ((instrLines ind code).map (· ++ [10])).flatten := by
  induction code with
  | nil => intro ind acc; simp [instrLines]
  | cons i tl ih =>
      intro ind acc
      rw [List.foldl_cons]
      have hstep : disasmInstr (ind, acc) i =
          ((if isStartOp i.op then (if isEndOp i.op then ind - 1 else ind) + 1
            else (if isEndOp i.op then ind - 1 else ind)),
           acc ++ (((List.replicate (2 * (if isEndOp i.op then ind - 1 else ind)) 32 ++
             opcodeName i.op) ++ disasmArg i) ++ [10])) := rfl
      rw [hstep, ih]
      simp [instrLines, List.append_assoc]

theorem splitNl_flatten_append (ls : List GoStr) (t : GoStr)
    (h : ∀ l ∈ ls, (10 : Nat) ∉ l) :
    splitNl (((ls.map (· ++ [10])).flatten) ++ t) = ls ++ splitNl t := by
  induction ls with
  | nil => simp
  | cons l tl ih =>
      simp only [List.map_cons, List.flatten_cons, List.append_assoc]
      rw [show ([10] : GoStr) ++ (((tl.map (· ++ [10])).flatten) ++ t) =
            10 :: (((tl.map (· ++ [10])).flatten) ++ t) from rfl]
      rw [splitNl_append l _ (h l (List.mem_cons_self _ _)),
          ih (fun x hx => h x (List.mem_cons_of_mem _ hx))]
      rfl

theorem splitNl_flatten (ls : List GoStr) (h : ∀ l ∈ ls, (10 : Nat) ∉ l) :
    splitNl ((ls.map (· ++ [10])).flatten) = ls ++ [[]] := by
  rw [← List.append_nil ((ls.map (· ++ [10])).flatten),
      splitNl_flatten_append ls [] h]
  rfl

theorem asmGo_blank (fuel : Nat) (rest : List GoStr) (p : Program) :
    asmGo (fuel + 1) ([] :: rest) p = asmGo fuel rest p := rfl

/-- Stepping the Asm loop over the whole instruction listing: each
    well-formed line appends its instruction, in order. -/
theorem asmGo_codeLines (code : List Instruction) :
    ∀ (ind fuel : Nat) (rest : List GoStr) (p : Program),
      (∀ i ∈ code, instrWFb i = true) →
      asmGo (fuel + code.length) (instrLines ind code ++ rest) p =
        asmGo fuel rest { p with code := p.code ++ code } := by
  induction code with
  | nil =>
      intro ind fuel rest p _
      simp only [instrLines, List.length_nil, Nat.add_zero, List.nil_append,
                 List.append_nil]
  | cons i tl ih =>
      intro ind fuel rest p h
      simp only [instrLines, List.length_cons, List.cons_append]
      rw [show fuel + (tl.length + 1) = (fuel + tl.length) + 1 from rfl]
      rw [asmGo_instr (fuel + tl.length) (2 * (if isEndOp i.op then ind - 1 else ind))
            _ p i (h i (List.mem_cons_self _ _))]
      rw [ih _ fuel rest _ (fun j hj => h j (List.mem_cons_of_mem _ hj))]
      have hap : (p.code ++ [i]) ++ tl = p.code ++ (i :: tl) := by simp
      rw [hap]

theorem disasmArg_no_nl (i : Instruction) (hwf : instrWFb i = true) :
    (10 : Nat) ∉ disasmArg i := by
  rcases i with ⟨op, sv, nv, iv, jv, kv, rv⟩
  simp only [instrWFb] at hwf
  by_cases hs : stringArgOp op = true
  · rw [if_pos hs] at hwf
    simp only [Bool.and_eq_true, decide_eq_true_eq] at hwf
    obtain ⟨⟨⟨⟨⟨⟨⟨⟨hnl, _⟩, _⟩, _⟩, _⟩, _⟩, _⟩, _⟩, _⟩ := hwf
    simp only [disasmArg, hs, if_true]
    rw [if_neg hnl]
    simp only [List.mem_cons, not_or]
    exact ⟨by decide, hnl⟩
  · rw [if_neg hs] at hwf
    by_cases hf : floatArgOp op = true
    · rw [if_pos hf] at hwf
      exact Bool.noConfusion hwf
    · rw [if_neg hf] at hwf
      by_cases hi : intArgOp op = true
      · have harg : disasmArg ⟨op, sv, nv, iv, jv, kv, rv⟩ = 32 :: intDec iv := by
          simp only [disasmArg]
          rw [if_neg (by simp [hs]), if_neg (by simp [hf]), if_pos hi]
        rw [harg]
        simp only [List.mem_cons, not_or]
        refine ⟨by decide, fun hm => ?_⟩
        have := intDec_nonWS iv 10 hm
        simp [isWS] at this
      · rw [if_neg hi] at hwf
        by_cases hj : jsonArgOp op = true
        · rw [if_pos hj] at hwf
          simp only [Bool.and_eq_true, decide_eq_true_eq] at hwf
          obtain ⟨⟨⟨⟨⟨⟨⟨⟨⟨⟨hval, hfix⟩, _⟩, hjnl⟩, _⟩, _⟩, _⟩, _⟩, _⟩, _⟩, _⟩ := hwf
          have hcj : compactJSON jv = jv := by
            unfold compactJSON
            rw [if_pos hval, hfix]
          have hr2 : refArgOp op = false := by
            cases op <;> first | rfl | exact Bool.noConfusion hj
          have harg : disasmArg ⟨op, sv, nv, iv, jv, kv, rv⟩ = 32 :: jv := by
            simp only [disasmArg]
            rw [if_neg (by simp [hs]), if_neg (by simp [hf]), if_neg (by simp [hi]),
                if_neg (by simp [hr2]), if_pos hj, hcj]
          rw [harg]
          simp only [List.mem_cons, not_or]
          exact ⟨by decide, hjnl⟩
        · by_cases hr : refArgOp op = true
          · have harg : disasmArg ⟨op, sv, nv, iv, jv, kv, rv⟩ =
                gs " ref:" ++ natDec rv := by
              simp only [disasmArg]
              rw [if_neg (by simp [hs]), if_neg (by simp [hf]), if_neg (by simp [hi]),
                  if_pos hr]
            rw [harg]
            intro hm2
            rcases List.mem_append.mp hm2 with h | h
            · revert h
              decide
            · have := natDec_digits rv 10 h
              omega
          · rw [if_neg hr, if_neg hj] at hwf
            by_cases hm : op = Opcode.SET_META
            · subst hm
              rw [if_pos rfl] at hwf
              simp only [Bool.and_eq_true, decide_eq_true_eq] at hwf
              obtain ⟨⟨⟨⟨⟨⟨⟨⟨⟨_, hknoWS⟩, _⟩, hvnl⟩, _⟩, _⟩, _⟩, _⟩, _⟩, _⟩ := hwf
              have harg : disasmArg ⟨Opcode.SET_META, sv, nv, iv, jv, kv, rv⟩ =
                  32 :: (kv ++ (32 :: sv)) := by
                simp [disasmArg, stringArgOp, floatArgOp, intArgOp, jsonArgOp,
                      refArgOp]
              rw [harg]
              intro hm2
              rcases List.mem_cons.mp hm2 with h | h
              · omega
              · rcases List.mem_append.mp h with h | h
                · have := List.all_eq_true.mp hknoWS 10 h
                  simp [isWS] at this
                · rcases List.mem_cons.mp h with h | h
                  · omega
                  · exact hvnl h
            · by_cases he : op = Opcode.EXT_DATA
              · subst he
                rw [if_neg hm, if_pos rfl] at hwf
                simp only [Bool.and_eq_true, decide_eq_true_eq] at hwf
                obtain ⟨⟨⟨⟨⟨⟨⟨⟨⟨⟨⟨⟨_, hknoWS⟩, _⟩, hval⟩, hfix⟩, _⟩, hjnl⟩, _⟩,
                        _⟩, _⟩, _⟩, _⟩, _⟩ := hwf
                have hcj : compactJSON jv = jv := by
                  unfold compactJSON
                  rw [if_pos hval, hfix]
                have harg : disasmArg ⟨Opcode.EXT_DATA, sv, nv, iv, jv, kv, rv⟩ =
                    32 :: (kv ++ (32 :: jv)) := by
                  simp [disasmArg, stringArgOp, floatArgOp, intArgOp, jsonArgOp,
                        refArgOp, hcj]
                rw [harg]
                intro hm2
                rcases List.mem_cons.mp hm2 with h | h
                · omega
                · rcases List.mem_append.mp h with h | h
                  · have := List.all_eq_true.mp hknoWS 10 h
                    simp [isWS] at this
                  · rcases List.mem_cons.mp h with h | h
                    · omega
                    · exact hjnl h
              · have harg : disasmArg ⟨op, sv, nv, iv, jv, kv, rv⟩ = [] := by
                  simp only [disasmArg]
                  rw [if_neg (by simp [hs]), if_neg (by simp [hf]),
                      if_neg (by simp [hi]), if_neg (by simp [hr]),
                      if_neg (by simp [hj]), if_neg hm, if_neg he]
                rw [harg]
                exact List.not_mem_nil 10

theorem instrLine_no_nl (k : Nat) (i : Instruction) (hwf : instrWFb i = true) :
    (10 : Nat) ∉ List.replicate k 32 ++ (opcodeName i.op ++ disasmArg i) := by
  obtain ⟨nb, nt, hn, h1, h2, h3, h4, h5, h6, h7⟩ := opcodeName_shape i.op
  intro hmem
  rcases List.mem_append.mp hmem with h | h
  · have := List.eq_of_mem_replicate h
    omega
  · rcases List.mem_append.mp h with h | h
    · exact h5 h
    · exact disasmArg_no_nl i hwf h

theorem instrLines_no_nl (code : List Instruction) :
    ∀ ind, (∀ i ∈ code, instrWFb i = true) →
      ∀ l ∈ instrLines ind code, (10 : Nat) ∉ l := by
  induction code with
  | nil => intro ind _ l hl; simp [instrLines] at hl
  | cons i tl ih =>
      intro ind h l hl
      simp only [instrLines, List.mem_cons] at hl
      rcases hl with rfl | hl
      · exact instrLine_no_nl _ i (h i (List.mem_cons_self _ _))
      · exact ih _ (fun j hj => h j (List.mem_cons_of_mem _ hj)) l hl

theorem b64Char_ge (n : Nat) : 43 ≤ b64Char n := by
  unfold b64Char
  split
  · omega
  · split
    · omega
    · split
      · omega
      · split <;> omega

theorem b64Enc_no_nl : ∀ (bs : GoStr), (10 : Nat) ∉ b64Enc bs
  | [] => by simp [b64Enc]
  | [a] => by
      have g1 := b64Char_ge (a / 4)
      have g2 := b64Char_ge (a % 4 * 16)
      intro hmem
      simp only [b64Enc, List.mem_cons, List.not_mem_nil, or_false] at hmem
      rcases hmem with h | h | h | h <;> omega
  | [a, b] => by
      have g1 := b64Char_ge (a / 4)
      have g2 := b64Char_ge (a % 4 * 16 + b / 16)
      have g3 := b64Char_ge (b % 16 * 4)
      intro hmem
      simp only [b64Enc, List.mem_cons, List.not_mem_nil, or_false] at hmem
      rcases hmem with h | h | h | h <;> omega
  | a :: b :: c :: r => by
      have g1 := b64Char_ge (a / 4)
      have g2 := b64Char_ge (a % 4 * 16 + b / 16)
      have g3 := b64Char_ge (b % 16 * 4 + c / 64)
      have g4 := b64Char_ge (c % 64)
      have hr := b64Enc_no_nl r
      intro hmem
      simp only [b64Enc, List.mem_cons] at hmem
      rcases hmem with h | h | h | h | h
      · omega
      · omega
      · omega
      · omega
      · exact hr h

theorem b64Enc_nonWS : ∀ (bs : GoStr), ∀ c ∈ b64Enc bs, isWS c = false
  | [] => by simp [b64Enc]
  | [a] => by
      have g1 := b64Char_ge (a / 4)
      have g2 := b64Char_ge (a % 4 * 16)
      intro c hmem
      simp only [b64Enc, List.mem_cons, List.not_mem_nil, or_false] at hmem
      rcases hmem with rfl | rfl | rfl | rfl <;> (simp [isWS]; try omega)
  | [a, b] => by
      have g1 := b64Char_ge (a / 4)
      have g2 := b64Char_ge (a % 4 * 16 + b / 16)
      have g3 := b64Char_ge (b % 16 * 4)
      intro c hmem
      simp only [b64Enc, List.mem_cons, List.not_mem_nil, or_false] at hmem
      rcases hmem with rfl | rfl | rfl | rfl <;> (simp [isWS]; try omega)
  | a :: b :: c :: r => by
      have g1 := b64Char_ge (a / 4)
      have g2 := b64Char_ge (a % 4 * 16 + b / 16)
      have g3 := b64Char_ge (b % 16 * 4 + c / 64)
      have g4 := b64Char_ge (c % 64)
      have hr := b64Enc_nonWS r
      intro x hmem
      simp only [b64Enc, List.mem_cons] at hmem
      rcases hmem with rfl | rfl | rfl | rfl | h
      · simp [isWS]; omega
      · simp [isWS]; omega
      · simp [isWS]; omega
      · simp [isWS]; omega
      · exact hr x h

theorem b64Enc_ne_nil (bs : GoStr) (h : bs ≠ []) : b64Enc bs ≠ [] := by
  match bs with
  | [] => exact absurd rfl h
  | [a] => simp [b64Enc]
  | [a, b] => simp [b64Enc]
  | a :: b :: c :: r => simp [b64Enc]

theorem refLines_no_nl (bufs : List GoStr) :
    ∀ n, ∀ l ∈ refLines n bufs, (10 : Nat) ∉ l := by
  induction bufs with
  | nil => intro n l hl; simp [refLines] at hl
  | cons b tl ih =>
      intro n l hl
      simp only [refLines, List.mem_cons] at hl
      rcases hl with rfl | hl
      · intro hmem
        rcases List.mem_append.mp hmem with h | h
        · rcases List.mem_append.mp h with h | h
          · revert h
            decide
          · have := natDec_digits n 10 h
            omega
        · rcases List.mem_cons.mp h with h | h
          · omega
          · exact b64Enc_no_nl b h
      · exact ih (n + 1) l hl

theorem set_append_singleton (l : List GoStr) (x y : GoStr) :
    (l ++ [x]).set l.length y = l ++ [y] := by
  induction l with
  | nil => rfl
  | cons a tl ih =>
      simp only [List.cons_append, List.length_cons, List.set_cons_succ, ih]

/-- One `.ref` directive line: the Asm loop decodes the base64 payload and
    appends it as the buffer at the stated index. -/
theorem asmGo_ref_line (fuel : Nat) (n : Nat) (b : GoStr) (rest : List GoStr)
    (p : Program) (hn : p.buffers.length = n) (hlt : n < 2 ^ 32)
    (hb : ∀ x ∈ b, x < 256) (hbne : b ≠ []) :
    asmGo (fuel + 1) (((gs ".ref " ++ natDec n) ++ (32 :: b64Enc b)) :: rest) p =
      asmGo fuel rest { p with buffers := p.buffers ++ [b] } := by
  subst hn
  have hline : (gs ".ref " ++ natDec (p.buffers.length)) ++ (32 :: b64Enc b) =
      46 :: ((gs "ref " ++ natDec (p.buffers.length)) ++ (32 :: b64Enc b)) := rfl
  obtain ⟨y, c, hyc⟩ :=
    (List.eq_nil_or_concat (b64Enc b)).resolve_left (b64Enc_ne_nil b hbne)
  rw [List.concat_eq_append] at hyc
  have hcWS : isWS c = false :=
    b64Enc_nonWS b c (hyc ▸ List.mem_append_right y (List.mem_singleton.mpr rfl))
  have hlast : (gs ".ref " ++ natDec (p.buffers.length)) ++ (32 :: b64Enc b) =
      ((gs ".ref " ++ natDec (p.buffers.length)) ++ (32 :: y)) ++ [c] := by
    rw [hyc]
    simp
  have htrim : trimSpace ((gs ".ref " ++ natDec (p.buffers.length)) ++ (32 :: b64Enc b)) =
      (gs ".ref " ++ natDec (p.buffers.length)) ++ (32 :: b64Enc b) := by
    unfold trimSpace
    rw [hline, trimLeft_cons_nonWS _ _ (by decide), ← hline, hlast,
        trimRight_concat_nonWS _ _ hcWS, ← hlast]
  simp only [asmGo]
  rw [htrim]
  rw [if_neg (by rw [hline]; simp)]
  rw [if_neg (by rw [hline]; simp)]
  have hpre : gsPrefix (gs ".ref ")
      ((gs ".ref " ++ natDec (p.buffers.length)) ++ (32 :: b64Enc b)) = true := by
    rw [List.append_assoc]
    exact gsPrefix_append _ _
  rw [if_pos hpre]
  have hdrop : (((gs ".ref " ++ natDec (p.buffers.length)) ++ (32 :: b64Enc b)).drop 5 :
      GoStr) = natDec (p.buffers.length) ++ (32 :: b64Enc b) := by
    rw [List.append_assoc]
    rfl
  rw [hdrop]
  have hsp32 : (32 : Nat) ∉ natDec (p.buffers.length) := by
    intro h
    have := natDec_digits (p.buffers.length) 32 h
    omega
  rw [if_pos (List.mem_append_right _ (List.mem_cons_self _ _))]
  rw [splitFirst_append_space _ _ hsp32]
  have htn : trimSpace (natDec (p.buffers.length)) = natDec (p.buffers.length) :=
    trimSpace_eq_self _ (fun x hx => by
      have := natDec_digits (p.buffers.length) x hx
      simp [isWS]
      omega)
  have htb : trimSpace (b64Enc b) = b64Enc b :=
    trimSpace_eq_self _ (b64Enc_nonWS b)
  simp only [htn, htb, parseUintGo_natDec (p.buffers.length) hlt, b64_roundtrip b hb]
  have hone : p.buffers.length + 1 - p.buffers.length = 1 := by omega
  rw [hone]
  rw [show (List.replicate 1 ([] : GoStr)) = [[]] from rfl]
  rw [set_append_singleton]

/-- Stepping the Asm loop over the whole `.ref` prologue: the buffers are
    rebuilt in order. -/
theorem asmGo_refLinesAux (bufs : List GoStr) :
    ∀ (fuel : Nat) (rest : List GoStr) (p : Program) (n : Nat),
      n = p.buffers.length →
      (∀ b ∈ bufs, b ≠ [] ∧ ∀ x ∈ b, x < 256) →
      p.buffers.length + bufs.length < 2 ^ 32 →
      asmGo (fuel + bufs.length) (refLines n bufs ++ rest) p =
        asmGo fuel rest { p with buffers := p.buffers ++ bufs } := by
  induction bufs with
  | nil =>
      intro fuel rest p n _ _ _
      simp only [refLines, List.length_nil, Nat.add_zero, List.nil_append,
                 List.append_nil]
  | cons b tl ih =>
      intro fuel rest p n hn h hlt
      subst hn
      simp only [refLines, List.length_cons, List.cons_append]
      rw [show fuel + (tl.length + 1) = (fuel + tl.length) + 1 from rfl]
      rw [asmGo_ref_line (fuel + tl.length) (p.buffers.length) b _ p rfl
            (by simp at hlt; omega) (h b (List.mem_cons_self _ _)).2
            (h b (List.mem_cons_self _ _)).1]
      rw [show refLines (p.buffers.length + 1) tl =
            refLines (({ p with buffers := p.buffers ++ [b] } : Program)).buffers.length tl
          from by simp]
      rw [ih fuel rest _ _ rfl (fun x hx => h x (List.mem_cons_of_mem _ hx))
            (by simp at hlt ⊢; omega)]
      have hap : (p.buffers ++ [b]) ++ tl = p.buffers ++ (b :: tl) := by simp
      rw [hap]

/-- A program drawn from every exactly-round-tripping argument category:
    structure opcodes, a string chunk, metadata with a spaced value,
    extension JSON, an int32 argument, a buffer reference and its buffer,
    and a JSON argument. -/
def sampleRoundTripProgram : Program :=
  { code := [
      { op := .MSG_START },
      { op := .ROLE_USR },
      { op := .TXT_CHUNK, str := gs "hi there" },
      { op := .SET_META, key := gs "k", str := gs "v 1" },
      { op := .EXT_DATA, key := gs "x", json := gs "\x7b\x22a\x22:1\x7d" },
      { op := .SET_MAX, int := -7 },
      { op := .IMG_REF, ref := 0 },
      { op := .CALL_ARGS, json := gs "[1,2]" },
      { op := .MSG_END } ],
    buffers := [[0, 255, 7]] }

/-- C2 (amended).  Asm ∘ Disasm is the identity — hence in particular
    encoding-preserving — on the round-trip class `progWFb`: no float
    arguments (`%.4f` loses precision), string arguments single-line with
    no trailing whitespace and not trimming to `<<<`, JSON arguments
    already compact, SET_META/EXT_DATA keys whitespace-free, int32/uint32
    ranges respected, buffers non-empty.  Outside the class the property
    fails (see the trailing-space counterexample). -/
theorem asm_disasm_roundtrip_on_wf (p : Program) (h : progWFb p = true) :
    asmRun (disasmStr p) = Except.ok p := by
  rcases p with ⟨code, bufs⟩
  simp only [progWFb, Bool.and_eq_true, decide_eq_true_eq] at h
  obtain ⟨⟨hcode, hbufs⟩, hlen⟩ := h
  have hcode2 : ∀ i ∈ code, instrWFb i = true := fun i hi =>
    List.all_eq_true.mp hcode i hi
  have hbufs2 : ∀ b ∈ bufs, b ≠ [] ∧ ∀ x ∈ b, x < 256 := by
    intro b hb
    have h2 := List.all_eq_true.mp hbufs b hb
    simp only [Bool.and_eq_true, decide_eq_true_eq, List.all_eq_true] at h2
    exact ⟨h2.1, fun x hx => h2.2 x hx⟩
  rcases bufs with _ | ⟨b0, btl⟩
  · simp only [asmRun, disasmStr]
    rw [if_neg (by simp)]
    rw [disasmInstr_fold_lines code 0 []]
    simp only [List.nil_append]
    rw [splitNl_flatten (instrLines 0 code) (instrLines_no_nl code 0 hcode2)]
    have hF : (instrLines 0 code ++ [[]] : List GoStr).length = 1 + code.length := by
      simp [instrLines_length, Nat.add_comm]
      try omega
    rw [hF]
    rw [asmGo_codeLines code 0 1 [[]] { code := [], buffers := [] } hcode2]
    rfl
  · simp only [asmRun, disasmStr]
    rw [if_pos (by simp)]
    rw [disasmInstr_fold_lines code 0 []]
    simp only [List.nil_append]
    have hsplit : splitNl ((((refLines 0 (b0 :: btl)).map (· ++ [10])).flatten ++ [10]) ++
        ((instrLines 0 code).map (· ++ [10])).flatten) =
        refLines 0 (b0 :: btl) ++ ([] :: (instrLines 0 code ++ [[]])) := by
      rw [List.append_assoc]
      rw [show ([10] : GoStr) ++ ((instrLines 0 code).map (· ++ [10])).flatten =
            10 :: ((instrLines 0 code).map (· ++ [10])).flatten from rfl]
      rw [splitNl_flatten_append _ _ (refLines_no_nl (b0 :: btl) 0)]
      rw [show splitNl (10 :: ((instrLines 0 code).map (· ++ [10])).flatten) =
            [] :: splitNl (((instrLines 0 code).map (· ++ [10])).flatten) from rfl]
      rw [splitNl_flatten (instrLines 0 code) (instrLines_no_nl code 0 hcode2)]
    rw [hsplit]
    have hF : (refLines 0 (b0 :: btl) ++ ([] :: (instrLines 0 code ++ [[]]))).length =
        ((1 + code.length) + 1) + (b0 :: btl).length := by
      simp [refLines_length, instrLines_length]
      try omega
    rw [hF]
    rw [asmGo_refLinesAux (b0 :: btl) ((1 + code.length) + 1)
          ([] :: (instrLines 0 code ++ [[]])) { code := [], buffers := [] } 0 rfl
          hbufs2 (by simpa using hlen)]
    rw [asmGo_blank]
    rw [asmGo_codeLines code 0 1 [[]] _ hcode2]
    rfl

/-- Closed instance of the amended round trip at a concrete program
    exercising every argument category of the class. -/
theorem asm_disasm_roundtrip_on_wf_witness :
    progWFb sampleRoundTripProgram = true ∧
      asmRun (disasmStr sampleRoundTripProgram) = Except.ok sampleRoundTripProgram :=
  ⟨by decide, asm_disasm_roundtrip_on_wf sampleRoundTripProgram (by decide)⟩

end AIL
